import Mathlib

/-!
# Calculator application: arithmetic service and calculator state machine

A shallow embedding of `backend/server.js` (the `operations` table and the two request
handlers), of `frontend/src/api.js` (`calculate`) and of `frontend/src/Calculator.jsx`
(the key handlers), together with the part of the ECMAScript runtime they rely on:
IEEE-754 binary64 numbers, `parseFloat`, `String(number)`, property lookup on an object
literal and the evaluation of a source text by `Function(...)`.
-/

set_option exponentiation.threshold 5000

/-! ## ECMAScript numbers -/

/-- An ECMAScript Number, an IEEE-754 binary64 value. `fin neg m e` stands for
`(-1)^neg * m * 2^e`. The operations below produce finite values in canonical form only:
`e = -1074` and `m < 2^52` (zeros and subnormals), or `2^52 ≤ m < 2^53` and
`-1074 ≤ e ≤ 971` (normals). -/
inductive JSNumber where
  | nan : JSNumber
  | inf (neg : Bool) : JSNumber
  | fin (neg : Bool) (m : Nat) (e : Int) : JSNumber
  deriving DecidableEq, Repr

namespace JSNumber

/-- Number of binary digits of `n`, by repeated halving (`fuel` bounds the halvings). -/
def bitLengthAux : Nat → Nat → Nat
  | 0, _ => 0
  | fuel + 1, n => if n = 0 then 0 else bitLengthAux fuel (n / 2) + 1

/-- Number of binary digits of `n` (`0` for `0`). -/
def bitLength (n : Nat) : Nat := bitLengthAux n n

/-- Numerator and denominator of `p / q / 2^e`. -/
def scaled (p q : Nat) (e : Int) : Nat × Nat :=
  if 0 ≤ e then (p, q * 2 ^ e.toNat) else (p * 2 ^ (-e).toNat, q)

/-- The binary64 value nearest to `(-1)^neg * p / q` (`q > 0`), ties to the even
significand, overflow to the infinity of that sign: IEEE-754 roundTiesToEven. -/
def roundRat (neg : Bool) (p q : Nat) : JSNumber :=
  if p = 0 then fin neg 0 (-1074) else
    let e0 : Int := (bitLength p : Int) - (bitLength q : Int) - 53
    let e1 : Int := max e0 (-1074)
    let e : Int := if 2 ^ 53 ≤ (scaled p q e1).1 / (scaled p q e1).2 then e1 + 1 else e1
    let n := (scaled p q e).1
    let d := (scaled p q e).2
    let m := n / d
    let r := n % d
    let m1 := if d < 2 * r ∨ (2 * r = d ∧ m % 2 = 1) then m + 1 else m
    let m2 := if m1 = 2 ^ 53 then 2 ^ 52 else m1
    let e2 := if m1 = 2 ^ 53 then e + 1 else e
    if 971 < e2 then inf neg else fin neg m2 e2

/-- The Number for the mathematical value of a natural number (a numeric literal). -/
def ofNat (n : Nat) : JSNumber := roundRat false n 1

/-- Positive zero. -/
def zero : JSNumber := fin false 0 (-1074)

/-- Numerator and denominator of `m * 2^e`. -/
def absFrac (m : Nat) (e : Int) : Nat × Nat :=
  if 0 ≤ e then (m * 2 ^ e.toNat, 1) else (m, 2 ^ (-e).toNat)

/-- The integer `(-1)^neg * n`. -/
def signed (neg : Bool) (n : Nat) : Int := if neg then -(n : Int) else (n : Int)

/-- The mathematical value of a finite Number, `none` for NaN and the infinities. -/
def toRat : JSNumber → Option ℚ
  | fin neg m e => some ((signed neg (absFrac m e).1 : ℚ) / ((absFrac m e).2 : ℚ))
  | _ => none

/-- The result of `isNaN(x)` on a Number. -/
def isNaN : JSNumber → Bool
  | nan => true
  | _ => false

/-- The result of `isFinite(x)` on a Number. -/
def isFinite : JSNumber → Bool
  | fin _ _ _ => true
  | _ => false

/-- Unary minus, `-x`. -/
def neg : JSNumber → JSNumber
  | nan => nan
  | inf s => inf (!s)
  | fin s m e => fin (!s) m e

/-- Number addition, `x + y` (Number::add). -/
def add : JSNumber → JSNumber → JSNumber
  | nan, _ => nan
  | _, nan => nan
  | inf a, inf b => if a = b then inf a else nan
  | inf a, fin _ _ _ => inf a
  | fin _ _ _, inf b => inf b
  | fin s1 m1 e1, fin s2 m2 e2 =>
    let a := absFrac m1 e1
    let b := absFrac m2 e2
    let n : Int := signed s1 a.1 * b.2 + signed s2 b.1 * a.2
    if n = 0 then fin (s1 && s2) 0 (-1074) else roundRat (decide (n < 0)) n.natAbs (a.2 * b.2)

/-- Number subtraction, `x - y` (Number::subtract). -/
def sub (x y : JSNumber) : JSNumber := add x (neg y)

/-- Number multiplication, `x * y` (Number::multiply). -/
def mul : JSNumber → JSNumber → JSNumber
  | nan, _ => nan
  | _, nan => nan
  | inf a, inf b => inf (xor a b)
  | inf a, fin s m _ => if m = 0 then nan else inf (xor a s)
  | fin s m _, inf b => if m = 0 then nan else inf (xor s b)
  | fin s1 m1 e1, fin s2 m2 e2 =>
    roundRat (xor s1 s2) ((absFrac m1 e1).1 * (absFrac m2 e2).1)
      ((absFrac m1 e1).2 * (absFrac m2 e2).2)

/-- Number division, `x / y` (Number::divide). -/
def div : JSNumber → JSNumber → JSNumber
  | nan, _ => nan
  | _, nan => nan
  | inf _, inf _ => nan
  | inf a, fin s _ _ => inf (xor a s)
  | fin s _ _, inf b => fin (xor s b) 0 (-1074)
  | fin s1 m1 e1, fin s2 m2 e2 =>
    if m2 = 0 then (if m1 = 0 then nan else inf (xor s1 s2))
    else roundRat (xor s1 s2) ((absFrac m1 e1).1 * (absFrac m2 e2).2)
      ((absFrac m1 e1).2 * (absFrac m2 e2).1)

/-- The comparison `x < y`; false as soon as one side is NaN. -/
def lt : JSNumber → JSNumber → Bool
  | nan, _ => false
  | _, nan => false
  | inf a, inf b => a && !b
  | inf a, fin _ _ _ => a
  | fin _ _ _, inf b => !b
  | fin s1 m1 e1, fin s2 m2 e2 =>
    decide (signed s1 (absFrac m1 e1).1 * (absFrac m2 e2).2
      < signed s2 (absFrac m2 e2).1 * (absFrac m1 e1).2)

/-- Strict equality `x === y` on Numbers: NaN equals nothing, the two zeros are equal. -/
def strictEq : JSNumber → JSNumber → Bool
  | nan, _ => false
  | _, nan => false
  | inf a, inf b => a == b
  | inf _, fin _ _ _ => false
  | fin _ _ _, inf _ => false
  | fin s1 m1 e1, fin s2 m2 e2 =>
    decide (signed s1 (absFrac m1 e1).1 * (absFrac m2 e2).2
      = signed s2 (absFrac m2 e2).1 * (absFrac m1 e1).2)

/-- The comparison `x ≤ y`; false as soon as one side is NaN. -/
def le : JSNumber → JSNumber → Bool
  | nan, _ => false
  | _, nan => false
  | inf a, inf b => a || !b
  | inf a, fin _ _ _ => a
  | fin _ _ _, inf b => !b
  | fin s1 m1 e1, fin s2 m2 e2 =>
    decide (signed s1 (absFrac m1 e1).1 * (absFrac m2 e2).2
      ≤ signed s2 (absFrac m2 e2).1 * (absFrac m1 e1).2)

/-- The result of `Math.round(x)`: the nearest integer, halves towards `+∞`; a result that
is zero keeps the sign of `x`. -/
def mathRound : JSNumber → JSNumber
  | nan => nan
  | inf s => inf s
  | fin s m e =>
    let v := absFrac m e
    let n : Int := Int.fdiv (2 * signed s v.1 + v.2) (2 * v.2)
    if n = 0 then fin s 0 (-1074) else roundRat (decide (n < 0)) n.natAbs 1

/-- Integer square root by binary search on the bits `i - 1, ..., 0`. -/
def isqrtAux : Nat → Nat → Nat → Nat
  | 0, _, r => r
  | i + 1, n, r => isqrtAux i n (if (r + 2 ^ i) * (r + 2 ^ i) ≤ n then r + 2 ^ i else r)

/-- The integer square root `⌊√n⌋`. -/
def isqrt (n : Nat) : Nat := isqrtAux (bitLength n) n 0

/-- The binary64 value nearest to `(-1)^neg * (p / q)^(1 / 2^k)` for `p, q > 0`: the root is
taken to 64 binary places and below, with a sticky bit for what is cut off. -/
def rootRound (neg : Bool) (p q k : Nat) : JSNumber :=
  let s := 64 + bitLength q
  let u := p * 2 ^ (2 ^ k * s) / q
  let m := isqrt^[k] u
  let exact := decide (p * 2 ^ (2 ^ k * s) % q = 0 ∧ m ^ 2 ^ k = u)
  roundRat neg (2 * m + (if exact then 0 else 1)) (2 ^ (s + 1))

/-- The result of `Math.sqrt(x)`: the correctly rounded square root (IEEE-754 squareRoot). -/
def mathSqrt : JSNumber → JSNumber
  | nan => nan
  | inf s => if s then nan else inf false
  | fin s m e =>
    if m = 0 then fin s 0 (-1074)
    else if s then nan
    else rootRound false (absFrac m e).1 (absFrac m e).2 1

/-- Whether the finite value `m * 2^e` is an odd integer. -/
def isOddInteger (m : Nat) (e : Int) : Bool :=
  if 0 ≤ e then decide (e = 0 ∧ m % 2 = 1)
  else decide (m % 2 ^ (-e).toNat = 0 ∧ m / 2 ^ (-e).toNat % 2 = 1)

/-- Comparison of `|m * 2^e|` with one: `Ordering.lt` below, `Ordering.eq` at, `Ordering.gt`
above. -/
def cmpOne (m : Nat) (e : Int) : Ordering := compare (absFrac m e).1 (absFrac m e).2

/-- The result of `Math.pow(x, y)` and of `x ** y` (Number::exponentiate). The special cases
are those of the language definition. For finite non-zero arguments the language definition
asks for an implementation-approximated value; taken here is the correctly rounded value of
the real power, the exponent `my / 2^k` being brought to lowest terms first. Where the real
power is no Number an engine may return a neighbouring Number instead, so no theorem below
states the value of such a power. -/
def mathPow : JSNumber → JSNumber → JSNumber
  | _, nan => nan
  | x, fin sy my ey =>
    if my = 0 then ofNat 1 else
    match x with
    | nan => nan
    | inf sx =>
      if sy then fin (sx && isOddInteger my ey) 0 (-1074) else inf (sx && isOddInteger my ey)
    | fin sx mx ex =>
      if mx = 0 then
        (if sy then inf (sx && isOddInteger my ey) else fin (sx && isOddInteger my ey) 0 (-1074))
      else
        let b := absFrac mx ex
        if 0 ≤ ey ∨ my % 2 ^ (-ey).toNat = 0 then
          let n := if 0 ≤ ey then my * 2 ^ ey.toNat else my / 2 ^ (-ey).toNat
          if sy then roundRat (sx && decide (n % 2 = 1)) (b.2 ^ n) (b.1 ^ n)
          else roundRat (sx && decide (n % 2 = 1)) (b.1 ^ n) (b.2 ^ n)
        else if sx then nan
        else
          let g := Nat.gcd my (2 ^ (-ey).toNat)
          let k := (-ey).toNat + 1 - bitLength g
          if sy then rootRound false (b.2 ^ (my / g)) (b.1 ^ (my / g)) k
          else rootRound false (b.1 ^ (my / g)) (b.2 ^ (my / g)) k
  | x, inf sy =>
    match x with
    | nan => nan
    | inf _ => if sy then zero else inf false
    | fin _ mx ex =>
      if mx = 0 then (if sy then inf false else zero)
      else match cmpOne mx ex with
        | Ordering.gt => if sy then zero else inf false
        | Ordering.eq => nan
        | Ordering.lt => if sy then inf false else zero

end JSNumber

/-! ## Strings and numbers -/

namespace JS

/-- The code points of WhiteSpace and LineTerminator: what `\s` matches in a regular
expression and what `parseFloat` skips at the start of its input. -/
def isWhiteSpace (c : Char) : Bool :=
  decide (c.toNat ∈ [0x9, 0xA, 0xB, 0xC, 0xD, 0x20, 0xA0, 0x1680, 0x2028, 0x2029, 0x202F,
    0x205F, 0x3000, 0xFEFF]) || decide (0x2000 ≤ c.toNat ∧ c.toNat ≤ 0x200A)

/-- The decimal digits `0`..`9`, what `\d` matches. -/
def isDigit (c : Char) : Bool := decide (48 ≤ c.toNat ∧ c.toNat ≤ 57)

/-- The value of a decimal digit. -/
def digitVal (c : Char) : Nat := c.toNat - 48

/-- The mathematical value of a sequence of decimal digits. -/
def digitsValue (ds : List Char) : Nat := ds.foldl (fun v c => 10 * v + digitVal c) 0

/-- The Number for the decimal `(-1)^neg * digits * 10^exp10`, rounded to binary64. -/
def decimalValue (neg : Bool) (digits : List Char) (exp10 : Int) : JSNumber :=
  if 0 ≤ exp10 then JSNumber.roundRat neg (digitsValue digits * 10 ^ exp10.toNat) 1
  else JSNumber.roundRat neg (digitsValue digits) (10 ^ (-exp10).toNat)

/-- The value of the ExponentPart (`e` or `E`, an optional sign, digits) at the start of
`cs`; `0` when there is none. -/
def exponentPart : List Char → Int
  | [] => 0
  | c :: rest =>
    if c = 'e' ∨ c = 'E' then
      match rest with
      | [] => 0
      | '+' :: ds => (digitsValue (ds.takeWhile isDigit) : Int)
      | '-' :: ds => -(digitsValue (ds.takeWhile isDigit) : Int)
      | d :: ds => (digitsValue ((d :: ds).takeWhile isDigit) : Int)
    else 0

/-- The value of the longest prefix of `cs` that is a StrUnsignedDecimalLiteral, with the
sign `neg`; NaN when no prefix is one. -/
def strUnsignedDecimalLiteral (neg : Bool) (cs : List Char) : JSNumber :=
  if cs.take 8 = ['I', 'n', 'f', 'i', 'n', 'i', 't', 'y'] then JSNumber.inf neg
  else
    match cs.dropWhile isDigit with
    | '.' :: rest =>
      if cs.takeWhile isDigit = [] ∧ rest.takeWhile isDigit = [] then JSNumber.nan
      else decimalValue neg (cs.takeWhile isDigit ++ rest.takeWhile isDigit)
        (exponentPart (rest.dropWhile isDigit) - ((rest.takeWhile isDigit).length : Int))
    | rest =>
      if cs.takeWhile isDigit = [] then JSNumber.nan
      else decimalValue neg (cs.takeWhile isDigit) (exponentPart rest)

/-- The result of `parseFloat` on a string: leading white space is skipped, then the longest
prefix that is a StrDecimalLiteral is converted; NaN when there is none. -/
def parseFloatChars (cs : List Char) : JSNumber :=
  match cs.dropWhile isWhiteSpace with
  | '+' :: rest => strUnsignedDecimalLiteral false rest
  | '-' :: rest => strUnsignedDecimalLiteral true rest
  | rest => strUnsignedDecimalLiteral false rest

/-- The character of a decimal digit `d < 10`. -/
def digitChar (d : Nat) : Char := Char.ofNat (48 + d)

/-- Decimal digits of `n`, most significant first, in front of `acc`. -/
def natDigitsAux : Nat → Nat → List Char → List Char
  | 0, n, acc => digitChar (n % 10) :: acc
  | fuel + 1, n, acc =>
    if n < 10 then digitChar n :: acc
    else natDigitsAux fuel (n / 10) (digitChar (n % 10) :: acc)

/-- The decimal representation of a natural number. -/
def natDigits (n : Nat) : List Char := natDigitsAux n n []

/-- The least `j` from `j0` on with `q ≤ p * 10^j`, searched over `fuel` values. -/
def scaleUp (p q : Nat) : Nat → Nat → Nat
  | 0, j => j
  | fuel + 1, j => if q ≤ p * 10 ^ j then j else scaleUp p q fuel (j + 1)

/-- The integer `n` with `10^(n-1) ≤ p / q < 10^n`, for `p, q > 0`. -/
def decimalExponent (p q : Nat) : Int :=
  if q ≤ p then ((natDigits (p / q)).length : Int) else 1 - (scaleUp p q 400 1 : Int)

/-- Numerator and denominator of `p / q / 10^e`. -/
def scaled10 (p q : Nat) (e : Int) : Nat × Nat :=
  if 0 ≤ e then (p, q * 10 ^ e.toNat) else (p * 10 ^ (-e).toNat, q)

/-- Whether `s * 10^e` rounds to the positive Number `x`. -/
def roundsTo (x : JSNumber) (s : Nat) (e : Int) : Bool :=
  decide ((if 0 ≤ e then JSNumber.roundRat false (s * 10 ^ e.toNat) 1
    else JSNumber.roundRat false s (10 ^ (-e).toNat)) = x)

/-- The shortest decimal significand for the positive Number `x = p / q`: the first `k` from
`k` on, and an `s` of `k` digits, for which `s * 10^(n-k)` rounds to `x`; of the two
candidates next to `x` the nearer one is taken, the even one when they are equally near. The
result is the pair of `s` and `k`. -/
def shortest (x : JSNumber) (p q : Nat) (n : Int) : Nat → Nat → Nat × Nat
  | 0, k => ((scaled10 p q (n - k)).1 / (scaled10 p q (n - k)).2, k)
  | fuel + 1, k =>
    let num := (scaled10 p q (n - k)).1
    let den := (scaled10 p q (n - k)).2
    let lo := num / den
    let okLo := roundsTo x lo (n - k)
    let okHi := roundsTo x (lo + 1) (n - k)
    let hiNearer := decide (den < 2 * (num % den) ∨ (2 * (num % den) = den ∧ lo % 2 = 1))
    if okLo && okHi then (if hiNearer then (lo + 1, k) else (lo, k))
    else if okLo then (lo, k)
    else if okHi then (lo + 1, k)
    else shortest x p q n fuel (k + 1)

/-- `count` copies of the character `0`. -/
def zeros (count : Nat) : List Char := List.replicate count '0'

/-- The text of a decimal exponent `e`: its sign, then its digits. -/
def exponentText (e : Int) : List Char :=
  (if e < 0 then '-' else '+') :: natDigits e.natAbs

/-- The digits `ds` (there are `k` of them) with decimal exponent `n` set out as
Number::toString does: plain digits, a decimal point inside or in front, or scientific
notation. -/
def layout (ds : List Char) (k : Nat) (n : Int) : List Char :=
  if (k : Int) ≤ n ∧ n ≤ 21 then ds ++ zeros (n - k).toNat
  else if 0 < n ∧ n ≤ 21 then ds.take n.toNat ++ '.' :: ds.drop n.toNat
  else if -6 < n ∧ n ≤ 0 then '0' :: '.' :: (zeros (-n).toNat ++ ds)
  else if k = 1 then ds ++ 'e' :: exponentText (n - 1)
  else ds.take 1 ++ '.' :: (ds.drop 1 ++ 'e' :: exponentText (n - 1))

/-- The text of the positive finite Number `x = m * 2^e`. -/
def positiveToChars (m : Nat) (e : Int) : List Char :=
  let p := (JSNumber.absFrac m e).1
  let q := (JSNumber.absFrac m e).2
  let n := decimalExponent p q
  let sk := shortest (JSNumber.fin false m e) p q n 17 1
  if sk.1 = 10 ^ sk.2 then layout ['1'] 1 (n + 1)
  else layout (natDigits sk.1) sk.2 n

/-- The result of `String(x)` on a Number (Number::toString, radix 10). -/
def numberToChars : JSNumber → List Char
  | JSNumber.nan => ['N', 'a', 'N']
  | JSNumber.inf neg =>
    if neg then '-' :: ['I', 'n', 'f', 'i', 'n', 'i', 't', 'y']
    else ['I', 'n', 'f', 'i', 'n', 'i', 't', 'y']
  | JSNumber.fin neg m e =>
    if m = 0 then ['0']
    else if neg then '-' :: positiveToChars m e
    else positiveToChars m e

/-- The string `String(x)` of a Number. -/
def numberToString (x : JSNumber) : String := String.mk (numberToChars x)

end JS

/-! ## Values of a request body -/

/-- A field of the parsed JSON request body: absent (`undefined`) or a JSON primitive.
JSON arrays and objects are not covered by the embedding. -/
inductive JSValue where
  | undefined : JSValue
  | null : JSValue
  | bool (b : Bool) : JSValue
  | num (x : JSNumber) : JSValue
  | str (s : String) : JSValue
  deriving DecidableEq

namespace JSValue

/-- The string `String(v)`, also what a template literal and a property key make of `v`. -/
def toStr : JSValue → String
  | undefined => "undefined"
  | null => "null"
  | bool b => if b then "true" else "false"
  | num x => JS.numberToString x
  | str s => s

/-- Whether `v` is truthy, that is whether `!v` is false. -/
def truthy : JSValue → Bool
  | undefined => false
  | null => false
  | bool b => b
  | num x => !(x.isNaN || x.strictEq JSNumber.zero)
  | str s => decide (s ≠ "")

end JSValue

/-- The result of `parseFloat(v)`: `v` is turned into a string, which is then parsed. -/
def parseFloat (v : JSValue) : JSNumber := JS.parseFloatChars v.toStr.data

/-! ## backend/server.js -/

namespace Server

/-- What `result` may hold after the call `operations[operation](...)`: a Number, the
Number object that `Object(x)` wraps around `x`, a boolean, or a value whose conversion to
a Number is NaN (`undefined`, the string `[object Object]`, the `operations` object). -/
inductive ResultValue where
  | number (x : JSNumber) : ResultValue
  | numberObject (x : JSNumber) : ResultValue
  | boolean (b : Bool) : ResultValue
  | notNumeric : ResultValue
  deriving DecidableEq

/-- The Number that `isFinite(result)` and `result * 1e10` convert `result` to. -/
def ResultValue.toNumber : ResultValue → JSNumber
  | number x => x
  | numberObject x => x
  | boolean b => if b then JSNumber.ofNat 1 else JSNumber.zero
  | notNumeric => JSNumber.nan

/-- An argument that may be left out of a call; a missing argument is `undefined`, which
arithmetic converts to NaN and which, like NaN, is not `=== 0`. -/
def argNumber : Option JSNumber → JSNumber
  | some b => b
  | none => JSNumber.nan

/-- The table `operations` (server.js 36-51): each key with its function. A function yields
the value it returns, or the message of the `Error` it throws. -/
def operations : List (String × (JSNumber → Option JSNumber → Except String JSNumber)) :=
  [("add", fun a b => Except.ok (a.add (argNumber b))),
   ("subtract", fun a b => Except.ok (a.sub (argNumber b))),
   ("multiply", fun a b => Except.ok (a.mul (argNumber b))),
   ("divide", fun a b =>
      if (argNumber b).strictEq JSNumber.zero then Except.error "Division by zero"
      else Except.ok (a.div (argNumber b))),
   ("percentage", fun a _ => Except.ok (a.div (JSNumber.ofNat 100))),
   ("negate", fun a _ => Except.ok a.neg),
   ("sqrt", fun a _ =>
      if a.lt JSNumber.zero then
        Except.error "Cannot calculate square root of negative number"
      else Except.ok a.mathSqrt),
   ("power", fun a b => Except.ok (a.mathPow (argNumber b)))]

/-- The value of `Object.keys(operations)`: the own keys in the order of the literal. -/
def validOperations : List String := operations.map Prod.fst

/-- The properties that the object literal `operations` inherits from `Object.prototype`. -/
def objectPrototypeKeys : List String :=
  ["constructor", "__defineGetter__", "__defineSetter__", "hasOwnProperty",
   "__lookupGetter__", "__lookupSetter__", "isPrototypeOf", "propertyIsEnumerable",
   "toString", "valueOf", "__proto__", "toLocaleString"]

/-- What the property read `operations[key]` finds: an own entry, a member inherited from
`Object.prototype`, or nothing (`undefined`). -/
inductive Property where
  | own (f : JSNumber → Option JSNumber → Except String JSNumber) : Property
  | inherited (key : String) : Property
  | missing : Property

/-- The property read `operations[key]`: own entries first, then the prototype chain. -/
def getProperty (key : String) : Property :=
  match operations.lookup key with
  | some f => Property.own f
  | none => if key ∈ objectPrototypeKeys then Property.inherited key else Property.missing

/-- The call of a member inherited from `Object.prototype` with `this = operations` and the
arguments `(a, b)`: the value returned, or the message of the TypeError thrown (the text is
the one V8 produces). `Object(a)` wraps `a`; the three property tests look for a property
named `String(a)`; `toString` and `toLocaleString` give `[object Object]`, `valueOf` gives
the object itself and the two lookups give `undefined`; the two definers reject `b`, which is
not a function; `__proto__` reads as `Object.prototype`, which cannot be called. -/
def callInherited (key : String) (a : JSNumber) : Except String ResultValue :=
  if key = "constructor" then Except.ok (ResultValue.numberObject a)
  else if key = "hasOwnProperty" ∨ key = "propertyIsEnumerable" then
    Except.ok (ResultValue.boolean (decide (JS.numberToString a ∈ validOperations)))
  else if key = "isPrototypeOf" then Except.ok (ResultValue.boolean false)
  else if key = "__defineGetter__" then
    Except.error "Object.prototype.__defineGetter__: Expecting function"
  else if key = "__defineSetter__" then
    Except.error "Object.prototype.__defineSetter__: Expecting function"
  else if key = "__proto__" then Except.error "operations[operation] is not a function"
  else Except.ok ResultValue.notNumeric

/-- The call `operations[operation](a)` or `operations[operation](a, b)`. -/
def callProperty (p : Property) (key : String) (a : JSNumber) (b : Option JSNumber) :
    Except String ResultValue :=
  match p with
  | Property.own f =>
    match f a b with
    | Except.ok x => Except.ok (ResultValue.number x)
    | Except.error msg => Except.error msg
  | Property.inherited _ => callInherited key a
  | Property.missing => Except.error "operations[operation] is not a function"

/-- The body of a `POST /api/calculate` request after JSON parsing. -/
structure Request where
  operation : JSValue
  operand1 : JSValue
  operand2 : JSValue

/-- The response of `POST /api/calculate`: status 200 with the object given to `res.json`,
or status 400 with an `error` and, for two of the failures, `validOperations`. -/
inductive Response where
  | ok (result : JSNumber) (operation : JSValue) (operand1 : JSNumber)
      (operand2 : Option JSNumber) : Response
  | error (error : String) (validOperations : Option (List String)) : Response
  deriving DecidableEq

/-- What a response says apart from the echoed request: the result of a 200, the error and
its payload of a 400. -/
def Response.outcome : Response → Except (String × Option (List String)) JSNumber
  | Response.ok result _ _ _ => Except.ok result
  | Response.error msg payload => Except.error (msg, payload)

/-- The rounding `Math.round(x * 1e10) / 1e10` (server.js 108 and 147). -/
def round10 (x : JSNumber) : JSNumber :=
  (JSNumber.mathRound (x.mul (JSNumber.ofNat (10 ^ 10)))).div (JSNumber.ofNat (10 ^ 10))

/-- Lines 102-122 of the handler: a thrown error is caught and reported, a result that is
not finite is refused, any other is rounded and sent with the echoed request. -/
def respond (req : Request) (num1 : JSNumber) : Except String ResultValue → Response
  | Except.error msg => Response.error msg none
  | Except.ok result =>
    if !result.toNumber.isFinite then Response.error "Result is not a finite number" none
    else Response.ok (round10 result.toNumber) req.operation num1
      (if req.operand2 = JSValue.undefined then none else some (parseFloat req.operand2))

/-- The handler of `POST /api/calculate` (server.js 54-123). -/
def apiCalculate (req : Request) : Response :=
  if !req.operation.truthy then Response.error "Operation is required" (some validOperations)
  else if req.operand1 = JSValue.undefined ∨ req.operand1 = JSValue.null then
    Response.error "operand1 is required" none
  else if (parseFloat req.operand1).isNaN then
    Response.error "operand1 must be a valid number" none
  else
    match getProperty req.operation.toStr with
    | Property.missing =>
      Response.error ("Unknown operation: " ++ req.operation.toStr) (some validOperations)
    | p =>
      if req.operation ∈ [JSValue.str "percentage", JSValue.str "negate", JSValue.str "sqrt"]
      then respond req (parseFloat req.operand1)
        (callProperty p req.operation.toStr (parseFloat req.operand1) none)
      else if req.operand2 = JSValue.undefined ∨ req.operand2 = JSValue.null then
        Response.error "operand2 is required for this operation" none
      else if (parseFloat req.operand2).isNaN then
        Response.error "operand2 must be a valid number" none
      else respond req (parseFloat req.operand1)
        (callProperty p req.operation.toStr (parseFloat req.operand1)
          (some (parseFloat req.operand2)))

end Server

/-! ## Evaluation of an expression source text

`Function('"use strict"; return (' + sanitized + ')')()` hands the text to the ECMAScript
parser and evaluator. After the character check of the handler the text is made of digits
and of `+ - * / . ( )` only, so what the engine does is modelled for that alphabet: the
tokens, the expression grammar and the values that can arise. An engine limit on the
nesting depth is not modelled: an engine throws on an expression nested deeper than its
stack allows, so a theorem that states the result of an evaluation bounds the nesting. -/

namespace Eval

/-- The tokens that matter. Every text with one of the tokens `++`, `--`, `...` or a
lone `.` is rejected, whatever stands around them (an update of something that is no
reference, a spread in the arguments of a call of something that is no function, a property
access without a name): the tokenizer fails on them. -/
inductive Token where
  | num (x : JSNumber) : Token
  | regex : Token
  | plus : Token
  | minus : Token
  | star : Token
  | slash : Token
  | pow : Token
  | lparen : Token
  | rparen : Token
  deriving DecidableEq

/-- The text after the end `*/` of a block comment; `none` when the comment never ends. -/
def skipBlockComment : List Char → Option (List Char)
  | [] => none
  | [_] => none
  | c :: d :: rest => if c = '*' ∧ d = '/' then some rest else skipBlockComment (d :: rest)

/-- Whether the body of a regular expression literal is a pattern, for a body of digits and
of `+ - * . ( )`: groups are balanced and each quantifier `*` or `+` follows an atom.
`depth` counts the open groups, `atom` tells whether a quantifier may come next. -/
def validPattern : Nat → Bool → List Char → Bool
  | depth, _, [] => decide (depth = 0)
  | depth, atom, c :: rest =>
    if c = '(' then validPattern (depth + 1) false rest
    else if c = ')' then decide (0 < depth) && validPattern (depth - 1) true rest
    else if c = '*' ∨ c = '+' then atom && validPattern depth false rest
    else validPattern depth true rest

/-- The head of a list of characters is a decimal digit. -/
def startsWithDigit : List Char → Bool
  | [] => false
  | c :: _ => JS.isDigit c

/-- Add a token in front of the tokens of the rest. -/
def consToken (t : Token) : Option (List Token) → Option (List Token)
  | none => none
  | some ts => some (t :: ts)

/-- The tokens of a source text, comments dropped; `none` for a text the engine rejects
on lexical grounds. `operand` tells whether the token before was an operand (a literal or
`)`): there `/` is the division sign, elsewhere it opens a regular expression literal. A
line comment runs to the end of the text. A numeric literal with a leading zero before
further digits is refused in strict mode, a regular expression literal followed by a digit
has invalid flags. `fuel` bounds the number of tokens and comments. -/
def tokenize : Nat → Bool → List Char → Option (List Token)
  | 0, _, _ => none
  | _ + 1, _, [] => some []
  | fuel + 1, operand, c :: cs =>
    if c = '/' then
      match cs with
      | [] => if operand then some [Token.slash] else none
      | d :: ds =>
        if d = '/' then some []
        else if d = '*' then
          match skipBlockComment ds with
          | none => none
          | some rest => tokenize fuel operand rest
        else if operand then consToken Token.slash (tokenize fuel false cs)
        else
          match cs.dropWhile (fun x => x ≠ '/') with
          | [] => none
          | _ :: rest =>
            if validPattern 0 false (cs.takeWhile (fun x => x ≠ '/')) && !startsWithDigit rest
            then consToken Token.regex (tokenize fuel true rest)
            else none
    else if c = '+' then
      match cs with
      | '+' :: _ => none
      | _ => consToken Token.plus (tokenize fuel false cs)
    else if c = '-' then
      match cs with
      | '-' :: _ => none
      | _ => consToken Token.minus (tokenize fuel false cs)
    else if c = '*' then
      match cs with
      | '*' :: rest => consToken Token.pow (tokenize fuel false rest)
      | _ => consToken Token.star (tokenize fuel false cs)
    else if c = '(' then consToken Token.lparen (tokenize fuel false cs)
    else if c = ')' then consToken Token.rparen (tokenize fuel true cs)
    else if c = '.' then
      if startsWithDigit cs then
        consToken (Token.num (JS.decimalValue false (cs.takeWhile JS.isDigit)
            (-((cs.takeWhile JS.isDigit).length : Int))))
          (tokenize fuel true (cs.dropWhile JS.isDigit))
      else none
    else if JS.isDigit c then
      if c = '0' ∧ startsWithDigit cs then none
      else
        match cs.dropWhile JS.isDigit with
        | '.' :: rest =>
          consToken (Token.num (JS.decimalValue false
              (c :: cs.takeWhile JS.isDigit ++ rest.takeWhile JS.isDigit)
              (-((rest.takeWhile JS.isDigit).length : Int))))
            (tokenize fuel true (rest.dropWhile JS.isDigit))
        | rest =>
          consToken (Token.num (JS.decimalValue false (c :: cs.takeWhile JS.isDigit) 0))
            (tokenize fuel true rest)
    else none

/-- A value of the evaluation: a Number, or a value whose conversion to a Number is NaN (a
RegExp object, or a string that holds the text of one: such a string has a `/` in it). -/
inductive Value where
  | num (x : JSNumber) : Value
  | notNumeric : Value
  deriving DecidableEq

/-- The conversion ToNumber. -/
def Value.toNumber : Value → JSNumber
  | Value.num x => x
  | Value.notNumeric => JSNumber.nan

/-- The operator `+`: the sum of two Numbers; the concatenation of the two strings when one
side is a RegExp object or a string. -/
def plus : Value → Value → Value
  | Value.num x, Value.num y => Value.num (x.add y)
  | _, _ => Value.notNumeric

mutual

/-- AdditiveExpression: MultiplicativeExpressions joined by `+` and `-`, from the left. -/
def parseAdditive : Nat → List Token → Option (Value × List Token)
  | 0, _ => none
  | fuel + 1, toks =>
    match parseMultiplicative fuel toks with
    | none => none
    | some (v, rest) => additiveLoop fuel v rest

/-- The rest of an AdditiveExpression whose left part has the value `v`. -/
def additiveLoop : Nat → Value → List Token → Option (Value × List Token)
  | 0, _, _ => none
  | fuel + 1, v, toks =>
    match toks with
    | Token.plus :: rest =>
      match parseMultiplicative fuel rest with
      | none => none
      | some (w, rest') => additiveLoop fuel (plus v w) rest'
    | Token.minus :: rest =>
      match parseMultiplicative fuel rest with
      | none => none
      | some (w, rest') => additiveLoop fuel (Value.num (v.toNumber.sub w.toNumber)) rest'
    | _ => some (v, toks)

/-- MultiplicativeExpression: ExponentiationExpressions joined by `*` and `/`, from the
left. -/
def parseMultiplicative : Nat → List Token → Option (Value × List Token)
  | 0, _ => none
  | fuel + 1, toks =>
    match parseExponent fuel toks with
    | none => none
    | some (v, rest) => multiplicativeLoop fuel v rest

/-- The rest of a MultiplicativeExpression whose left part has the value `v`. -/
def multiplicativeLoop : Nat → Value → List Token → Option (Value × List Token)
  | 0, _, _ => none
  | fuel + 1, v, toks =>
    match toks with
    | Token.star :: rest =>
      match parseExponent fuel rest with
      | none => none
      | some (w, rest') => multiplicativeLoop fuel (Value.num (v.toNumber.mul w.toNumber)) rest'
    | Token.slash :: rest =>
      match parseExponent fuel rest with
      | none => none
      | some (w, rest') => multiplicativeLoop fuel (Value.num (v.toNumber.div w.toNumber)) rest'
    | _ => some (v, toks)

/-- ExponentiationExpression: a UnaryExpression, or `base ** exponent` where the base has
no sign in front and the exponent is an ExponentiationExpression again. -/
def parseExponent : Nat → List Token → Option (Value × List Token)
  | 0, _ => none
  | fuel + 1, toks =>
    match toks with
    | Token.plus :: _ =>
      match parseUnary fuel toks with
      | some (_, Token.pow :: _) => none
      | r => r
    | Token.minus :: _ =>
      match parseUnary fuel toks with
      | some (_, Token.pow :: _) => none
      | r => r
    | _ =>
      match parsePrimary fuel toks with
      | some (v, Token.pow :: rest) =>
        match parseExponent fuel rest with
        | none => none
        | some (w, rest') => some (Value.num (v.toNumber.mathPow w.toNumber), rest')
      | r => r

/-- UnaryExpression: signs `+` and `-` in front of an operand. -/
def parseUnary : Nat → List Token → Option (Value × List Token)
  | 0, _ => none
  | fuel + 1, toks =>
    match toks with
    | Token.plus :: rest =>
      match parseUnary fuel rest with
      | none => none
      | some (v, rest') => some (Value.num v.toNumber, rest')
    | Token.minus :: rest =>
      match parseUnary fuel rest with
      | none => none
      | some (v, rest') => some (Value.num v.toNumber.neg, rest')
    | _ => parsePrimary fuel toks

/-- An operand: a numeric literal, a regular expression literal or an expression in
parentheses. An operand followed by `(` is a call of something that is no function, which
throws. -/
def parsePrimary : Nat → List Token → Option (Value × List Token)
  | 0, _ => none
  | fuel + 1, toks =>
    match toks with
    | Token.num x :: rest =>
      match rest with
      | Token.lparen :: _ => none
      | _ => some (Value.num x, rest)
    | Token.regex :: rest =>
      match rest with
      | Token.lparen :: _ => none
      | _ => some (Value.notNumeric, rest)
    | Token.lparen :: rest =>
      match parseAdditive fuel rest with
      | some (v, Token.rparen :: rest') =>
        match rest' with
        | Token.lparen :: _ => none
        | _ => some (v, rest')
      | _ => none
    | _ => none

end

/-- The value of `Function('"use strict"; return (' + text + ')')()`, `none` when the
construction or the call throws: the text in parentheses must be one expression, up to the
end of the source. -/
def jsEval (text : List Char) : Option Value :=
  match tokenize (text.length + 3) false ('(' :: text ++ [')']) with
  | none => none
  | some toks =>
    match parseAdditive (6 * toks.length + 6) toks with
    | some (v, []) => some v
    | _ => none

end Eval

namespace Server

/-- The response of `POST /api/evaluate`: status 200 with `result` and the echoed
`expression`, or status 400 with an `error`. -/
inductive EvalResponse where
  | ok (result : JSNumber) (expression : String) : EvalResponse
  | error (error : String) : EvalResponse
  deriving DecidableEq

/-- The characters of the class `[\d+\-*/.()]`. -/
def allowedChar (c : Char) : Bool :=
  JS.isDigit c || decide (c ∈ ['+', '-', '*', '/', '.', '(', ')'])

/-- The value of `expression.replace(/\s/g, '')`. -/
def sanitize (expression : String) : List Char :=
  expression.data.filter (fun c => !JS.isWhiteSpace c)

/-- The handler of `POST /api/evaluate` (server.js 126-157). -/
def apiEvaluate (expression : JSValue) : EvalResponse :=
  match expression with
  | JSValue.str s =>
    if s = "" then EvalResponse.error "Expression string is required"
    else if sanitize s = [] ∨ ¬ (sanitize s).all allowedChar = true then
      EvalResponse.error "Invalid characters in expression"
    else
      match Eval.jsEval (sanitize s) with
      | none => EvalResponse.error "Invalid expression"
      | some v =>
        if !v.toNumber.isFinite then EvalResponse.error "Result is not a finite number"
        else EvalResponse.ok (round10 v.toNumber) s
  | _ => EvalResponse.error "Expression string is required"

end Server

/-! ## frontend/src/api.js and frontend/src/Calculator.jsx -/

namespace Client

deriving instance DecidableEq for Except

/-- The Arithmetic Service as the calculator sees it: `calculate(operation, operand1,
operand2)` resolves to `data.result` or throws an `Error` with a message. The result is a
Number, or `null` (`none`), which is what JSON makes of a result that is not finite. -/
abbrev Service := String → JSNumber → Option JSNumber → Except String (Option JSNumber)

/-- The string `String(result)` of a result: the text of the Number, or `null`. -/
def resultText : Option JSNumber → String
  | some x => JS.numberToString x
  | none => "null"

/-- A Number field after `JSON.stringify` and `JSON.parse`: NaN and the infinities are
written as `null`; a finite Number is written as the decimal text `String(x)` and read back
as the Number that text spells. -/
def wireNumber (x : JSNumber) : JSValue :=
  if x.isFinite then JSValue.num (JS.parseFloatChars (JS.numberToChars x)) else JSValue.null

/-- An argument on the wire: a field that is `undefined` is left out by `JSON.stringify`. -/
def wireArgument : Option JSNumber → JSValue
  | none => JSValue.undefined
  | some x => wireNumber x

/-- The function `calculate` of api.js with the backend answering: the request body is built,
the handler of `POST /api/calculate` runs, and the response is decoded: `data.result` of a
200 (the result as `wireNumber` carries it), an `Error` with
`data.error || 'Calculation failed'` otherwise. -/
def calculate : Service := fun operation operand1 operand2 =>
  match Server.apiCalculate
    { operation := JSValue.str operation, operand1 := wireNumber operand1,
      operand2 := wireArgument operand2 } with
  | Server.Response.ok result _ _ _ =>
    Except.ok (if result.isFinite then some (JS.parseFloatChars (JS.numberToChars result))
      else none)
  | Server.Response.error msg _ =>
    Except.error (if msg = "" then "Calculation failed" else msg)

/-- The four operator keys, named by what the handlers are called with. -/
inductive Operator where
  | plus : Operator
  | minus : Operator
  | times : Operator
  | divide : Operator
  deriving DecidableEq

/-- The display symbol of an operator key: `+`, `−`, `×`, `÷`. -/
def Operator.symbol : Operator → String
  | plus => "+"
  | minus => "−"
  | times => "×"
  | divide => "÷"

/-- The table `operationMap` (Calculator.jsx 15-20): display symbol to API operation. -/
def operationMap : Operator → String
  | Operator.plus => "add"
  | Operator.minus => "subtract"
  | Operator.times => "multiply"
  | Operator.divide => "divide"

/-- The state of the `Calculator` component (Calculator.jsx 6-12). -/
structure State where
  display : String
  previousValue : Option JSNumber
  operation : Option Operator
  waitingForOperand : Bool
  history : String
  isLoading : Bool
  error : Option String
  deriving DecidableEq

/-- The initial state, from the `useState` calls. -/
def initial : State :=
  { display := "0", previousValue := none, operation := none, waitingForOperand := false,
    history := "", isLoading := false, error := none }

/-- The value of `parseFloat(display)`. -/
def inputValue (s : State) : JSNumber := JS.parseFloatChars s.display.data

/-- The state after `handleDigit(digit)` (Calculator.jsx 22-30). -/
def handleDigit (digit : String) (s : State) : State :=
  if s.waitingForOperand then
    { s with error := none, display := digit, waitingForOperand := false }
  else
    { s with error := none, display := if s.display = "0" then digit else s.display ++ digit }

/-- The state after `handleDecimal()` (Calculator.jsx 32-40). -/
def handleDecimal (s : State) : State :=
  if s.waitingForOperand then
    { s with error := none, display := "0.", waitingForOperand := false }
  else if ¬ '.' ∈ s.display.data then
    { s with error := none, display := s.display ++ "." }
  else { s with error := none }

/-- The state once `handleOperator(nextOperator)` has run to its end (Calculator.jsx
42-70), the service call included. -/
def handleOperator (svc : Service) (nextOperator : Operator) (s : State) : State :=
  match s.previousValue, s.operation with
  | none, _ =>
    { s with error := none, previousValue := some (inputValue s),
             history := JS.numberToString (inputValue s) ++ " " ++ nextOperator.symbol,
             waitingForOperand := true, operation := some nextOperator }
  | some previousValue, some operation =>
    if !s.waitingForOperand then
      match svc (operationMap operation) previousValue (some (inputValue s)) with
      | Except.ok result =>
        { s with error := none, isLoading := false, display := resultText result,
                 previousValue := result,
                 history := resultText result ++ " " ++ nextOperator.symbol,
                 waitingForOperand := true, operation := some nextOperator }
      | Except.error msg =>
        { s with error := some msg, display := "Error", isLoading := false,
                 waitingForOperand := true, operation := some nextOperator }
    else
      { s with error := none,
               history := JS.numberToString previousValue ++ " " ++ nextOperator.symbol,
               waitingForOperand := true, operation := some nextOperator }
  | some previousValue, none =>
    { s with error := none,
             history := JS.numberToString previousValue ++ " " ++ nextOperator.symbol,
             waitingForOperand := true, operation := some nextOperator }

/-- The state once `handleEquals()` has run to its end (Calculator.jsx 72-95). -/
def handleEquals (svc : Service) (s : State) : State :=
  match s.operation, s.previousValue with
  | some operation, some previousValue =>
    if s.waitingForOperand then s
    else
      match svc (operationMap operation) previousValue (some (inputValue s)) with
      | Except.ok result =>
        { s with error := none, isLoading := false,
                 history := JS.numberToString previousValue ++ " " ++ operation.symbol ++ " "
                   ++ JS.numberToString (inputValue s) ++ " =",
                 display := resultText result, previousValue := none,
                 operation := none, waitingForOperand := true }
      | Except.error msg =>
        { s with error := some msg, display := "Error", isLoading := false }
  | _, _ => s

/-- The state after `handleClear()` (Calculator.jsx 97-104). -/
def handleClear (s : State) : State :=
  { s with display := "0", previousValue := none, operation := none,
           waitingForOperand := false, history := "", error := none }

/-- The state after `handleClearEntry()` (Calculator.jsx 106-109). -/
def handleClearEntry (s : State) : State :=
  { s with display := "0", error := none }

/-- The state once `handleToggleSign()` has run to its end (Calculator.jsx 111-122). -/
def handleToggleSign (svc : Service) (s : State) : State :=
  match svc "negate" (inputValue s) none with
  | Except.ok result =>
    { s with error := none, isLoading := false, display := resultText result }
  | Except.error msg => { s with error := some msg, isLoading := false }

/-- The state once `handlePercentage()` has run to its end (Calculator.jsx 124-135). -/
def handlePercentage (svc : Service) (s : State) : State :=
  match svc "percentage" (inputValue s) none with
  | Except.ok result =>
    { s with error := none, isLoading := false, display := resultText result }
  | Except.error msg => { s with error := some msg, isLoading := false }

/-- The state after `handleBackspace()` (Calculator.jsx 137-144). -/
def handleBackspace (s : State) : State :=
  if s.display.length = 1 ∨ (s.display.length = 2 ∧ s.display.data.head? = some '-') then
    { s with error := none, display := "0" }
  else { s with error := none, display := String.mk s.display.data.dropLast }

/-- The keys of the calculator: what the buttons and the keyboard handler dispatch on. -/
inductive Key where
  | digit (d : Fin 10) : Key
  | decimal : Key
  | operator (op : Operator) : Key
  | equals : Key
  | clear : Key
  | clearEntry : Key
  | toggleSign : Key
  | percentage : Key
  | backspace : Key
  deriving DecidableEq

/-- The string a digit key hands to `handleDigit`: `'0'` to `'9'`. -/
def digitString (d : Fin 10) : String := String.mk [JS.digitChar d.val]

/-- One key press, handled to its end. -/
def press (svc : Service) (s : State) : Key → State
  | Key.digit d => handleDigit (digitString d) s
  | Key.decimal => handleDecimal s
  | Key.operator op => handleOperator svc op s
  | Key.equals => handleEquals svc s
  | Key.clear => handleClear s
  | Key.clearEntry => handleClearEntry s
  | Key.toggleSign => handleToggleSign svc s
  | Key.percentage => handlePercentage svc s
  | Key.backspace => handleBackspace s

/-- A sequence of key presses, each handled to its end before the next. -/
def run (svc : Service) (keys : List Key) (s : State) : State := keys.foldl (press svc) s

/-- The states reached from the initial state by finitely many key presses, the service
answering each call with a Number or with a failure (never with `null`); the service may
answer differently from one press to the next. -/
inductive Reachable : State → Prop where
  | start : Reachable initial
  | step (svc : Service) (answers : ∀ operation a b, svc operation a b ≠ Except.ok none)
      (key : Key) (s : State) : Reachable s → Reachable (press svc s key)

end Client

/-! ## Notions of the specification -/

namespace Spec

/-- The eight operation names of the specification's OperationName. -/
def operationNames : List String :=
  ["add", "subtract", "multiply", "divide", "percentage", "negate", "sqrt", "power"]

/-- The characters the specification permits in an expression: the decimal digits,
`+ - * / . ( )` and the space. -/
def permittedChar (c : Char) : Bool :=
  JS.isDigit c || decide (c ∈ ['+', '-', '*', '/', '.', '(', ')', ' '])

/-- The characters of the error indicator `Error` and of the text of a Number: the digits,
`-` and `.`, the `e` and `+` of the exponent notation, and the letters of `Infinity` and
`NaN`. -/
def displayChar (c : Char) : Bool :=
  JS.isDigit c || decide (c ∈ ['-', '.', 'e', '+', 'E', 'r', 'o', 'I', 'n', 'f', 'i', 't',
    'y', 'N', 'a'])

/-- The text of a number as the specification describes the display: an optional leading
`-`, then digits with at most one decimal point among them. -/
def plainNumber (cs : List Char) : Bool :=
  match cs with
  | '-' :: body => body.all (fun c => JS.isDigit c || c == '.') && decide (body.count '.' ≤ 1)
  | body => body.all (fun c => JS.isDigit c || c == '.') && decide (body.count '.' ≤ 1)

/-- A value rounded to 10 decimal places: `round(exact * 10^10) / 10^10`. -/
def roundedTo10 (exact : ℚ) : ℚ := (round (exact * 10 ^ 10) : ℚ) / 10 ^ 10

/-- The operation of each name carried out in binary64 arithmetic on the parsed operands
(`b` is the parsed second operand, unused by the three unary operations); `none` for `power`,
whose value the language leaves to the engine, and for every other name. -/
def floatOp (operation : String) (a b : JSNumber) : Option JSNumber :=
  if operation = "add" then some (a.add b)
  else if operation = "subtract" then some (a.sub b)
  else if operation = "multiply" then some (a.mul b)
  else if operation = "divide" then some (a.div b)
  else if operation = "percentage" then some (a.div (JSNumber.ofNat 100))
  else if operation = "negate" then some a.neg
  else if operation = "sqrt" then some a.mathSqrt
  else none

/-- The mathematically exact value of the six operations whose value is a rational number,
on the exact values `x` and `y` of the operands (`y` is `none` when the second operand is
no finite number); `none` for a division by zero, for `sqrt` and `power` and for every other
name. -/
def exactOp (operation : String) (x : ℚ) (y : Option ℚ) : Option ℚ :=
  if operation = "add" then y.map (fun y => x + y)
  else if operation = "subtract" then y.map (fun y => x - y)
  else if operation = "multiply" then y.map (fun y => x * y)
  else if operation = "divide" then y.bind (fun y => if y = 0 then none else some (x / y))
  else if operation = "percentage" then some (x / 100)
  else if operation = "negate" then some (-x)
  else none

/-- An arithmetic expression over decimal literals, `+ - * /` and parentheses, as a tree.
A literal is given by the digits before and after its decimal point. -/
inductive Expr where
  | lit (int frac : List Char) : Expr
  | paren (e : Expr) : Expr
  | add (a b : Expr) : Expr
  | sub (a b : Expr) : Expr
  | mul (a b : Expr) : Expr
  | div (a b : Expr) : Expr

namespace Expr

/-- How loosely the outermost operator binds: `0` for a literal or a group, `1` for a
product or quotient, `2` for a sum or difference. -/
def level : Expr → Nat
  | lit _ _ => 0
  | paren _ => 0
  | mul _ _ => 1
  | div _ _ => 1
  | add _ _ => 2
  | sub _ _ => 2

/-- The tree is the reading of its text under the standard precedence, with `+ - * /`
grouping from the left: the right operand of `+` or `-` is no sum, the operands of `*` and
`/` are no sums and the right one is no product. A literal has an integer part, without a
leading zero unless it is `0` itself, and then possibly a point and fraction digits. -/
def wellFormed : Expr → Bool
  | lit int frac =>
    decide (int ≠ []) && int.all JS.isDigit && decide (int = ['0'] ∨ int.head? ≠ some '0')
      && frac.all JS.isDigit
  | paren e => e.wellFormed
  | add a b => a.wellFormed && b.wellFormed && decide (b.level ≤ 1)
  | sub a b => a.wellFormed && b.wellFormed && decide (b.level ≤ 1)
  | mul a b => a.wellFormed && b.wellFormed && decide (a.level ≤ 1) && decide (b.level = 0)
  | div a b => a.wellFormed && b.wellFormed && decide (a.level ≤ 1) && decide (b.level = 0)

/-- The text of the expression, without white space. -/
def text : Expr → List Char
  | lit int frac => if frac = [] then int else int ++ '.' :: frac
  | paren e => '(' :: (e.text ++ [')'])
  | add a b => a.text ++ '+' :: b.text
  | sub a b => a.text ++ '-' :: b.text
  | mul a b => a.text ++ '*' :: b.text
  | div a b => a.text ++ '/' :: b.text

/-- The value of the expression in binary64 arithmetic: each literal is the Number nearest
to the decimal it spells, each operator is the Number operation. -/
def value : Expr → JSNumber
  | lit int frac => JS.decimalValue false (int ++ frac) (-(frac.length : Int))
  | paren e => e.value
  | add a b => a.value.add b.value
  | sub a b => a.value.sub b.value
  | mul a b => a.value.mul b.value
  | div a b => a.value.div b.value

/-- The value of the expression in exact arithmetic: each literal is the decimal it spells;
`none` when a divisor is zero. -/
def exactValue : Expr → Option ℚ
  | lit int frac => some ((JS.digitsValue (int ++ frac) : ℚ) / 10 ^ frac.length)
  | paren e => e.exactValue
  | add a b =>
    match a.exactValue, b.exactValue with
    | some x, some y => some (x + y)
    | _, _ => none
  | sub a b =>
    match a.exactValue, b.exactValue with
    | some x, some y => some (x - y)
    | _, _ => none
  | mul a b =>
    match a.exactValue, b.exactValue with
    | some x, some y => some (x * y)
    | _, _ => none
  | div a b =>
    match a.exactValue, b.exactValue with
    | some x, some y => if y = 0 then none else some (x / y)
    | _, _ => none

/-- The tokens of the text. -/
def tokens : Expr → List Eval.Token
  | lit int frac => [Eval.Token.num (JS.decimalValue false (int ++ frac) (-(frac.length : Int)))]
  | paren e => Eval.Token.lparen :: (e.tokens ++ [Eval.Token.rparen])
  | add a b => a.tokens ++ Eval.Token.plus :: b.tokens
  | sub a b => a.tokens ++ Eval.Token.minus :: b.tokens
  | mul a b => a.tokens ++ Eval.Token.star :: b.tokens
  | div a b => a.tokens ++ Eval.Token.slash :: b.tokens

/-- A bound on the nesting of parser calls that reading the expression takes. -/
def depth : Expr → Nat
  | lit _ _ => 2
  | paren e => e.depth + 6
  | add a b => a.depth + b.depth + 3
  | sub a b => a.depth + b.depth + 3
  | mul a b => a.depth + b.depth + 1
  | div a b => a.depth + b.depth + 1

/-- The nesting of the expression: the height of its tree, where every pair of parentheses
and every operator makes one level. -/
def nesting : Expr → Nat
  | lit _ _ => 0
  | paren e => e.nesting + 1
  | add a b => max a.nesting b.nesting + 1
  | sub a b => max a.nesting b.nesting + 1
  | mul a b => max a.nesting b.nesting + 1
  | div a b => max a.nesting b.nesting + 1

end Expr

/-- An expression of the language that the evaluator reads over the permitted characters:
decimal literals and regular expression literals, groups in parentheses, the signs `+` and
`-` in front of an operand, and the binary operators `**`, `*`, `/`, `+` and `-`. -/
inductive Term where
  | num (x : JSNumber) : Term
  | regex : Term
  | paren (t : Term) : Term
  | pos (t : Term) : Term
  | neg (t : Term) : Term
  | pow (a b : Term) : Term
  | mul (a b : Term) : Term
  | div (a b : Term) : Term
  | add (a b : Term) : Term
  | sub (a b : Term) : Term

/-- The tokens of a term, in the order of its text. -/
def Term.tokens : Term → List Eval.Token
  | Term.num x => [Eval.Token.num x]
  | Term.regex => [Eval.Token.regex]
  | Term.paren t => Eval.Token.lparen :: (t.tokens ++ [Eval.Token.rparen])
  | Term.pos t => Eval.Token.plus :: t.tokens
  | Term.neg t => Eval.Token.minus :: t.tokens
  | Term.pow a b => a.tokens ++ Eval.Token.pow :: b.tokens
  | Term.mul a b => a.tokens ++ Eval.Token.star :: b.tokens
  | Term.div a b => a.tokens ++ Eval.Token.slash :: b.tokens
  | Term.add a b => a.tokens ++ Eval.Token.plus :: b.tokens
  | Term.sub a b => a.tokens ++ Eval.Token.minus :: b.tokens

end Spec

/-! ## Theorems -/

/-! ### Facts about the runtime model -/

theorem roundRat_isNaN (neg : Bool) (p q : Nat) :
    (JSNumber.roundRat neg p q).isNaN = false := by
  unfold JSNumber.roundRat
  split_ifs
  · rfl
  · dsimp only
    split_ifs <;> rfl

theorem parseFloat_undefined : parseFloat JSValue.undefined = JSNumber.nan := by decide!

theorem parseFloat_null : parseFloat JSValue.null = JSNumber.nan := by decide!

theorem le_zero_not_lt (a : JSNumber) (h : JSNumber.zero.le a = true) :
    a.lt JSNumber.zero = false := by
  cases a with
  | nan => rfl
  | inf s => cases s <;> simp_all [JSNumber.le, JSNumber.lt, JSNumber.zero]
  | fin s m e =>
    simp only [JSNumber.le, JSNumber.lt, JSNumber.zero, decide_eq_true_eq,
      decide_eq_false_iff_not] at h ⊢
    omega

/-! ### The table `operations` -/

theorem getProperty_add : Server.getProperty "add"
    = Server.Property.own (fun a b => Except.ok (a.add (Server.argNumber b))) := rfl

theorem getProperty_subtract : Server.getProperty "subtract"
    = Server.Property.own (fun a b => Except.ok (a.sub (Server.argNumber b))) := rfl

theorem getProperty_multiply : Server.getProperty "multiply"
    = Server.Property.own (fun a b => Except.ok (a.mul (Server.argNumber b))) := rfl

theorem getProperty_divide : Server.getProperty "divide"
    = Server.Property.own (fun a b =>
        if (Server.argNumber b).strictEq JSNumber.zero then Except.error "Division by zero"
        else Except.ok (a.div (Server.argNumber b))) := rfl

theorem getProperty_percentage : Server.getProperty "percentage"
    = Server.Property.own (fun a _ => Except.ok (a.div (JSNumber.ofNat 100))) := rfl

theorem getProperty_negate : Server.getProperty "negate"
    = Server.Property.own (fun a _ => Except.ok a.neg) := rfl

theorem getProperty_sqrt : Server.getProperty "sqrt"
    = Server.Property.own (fun a _ =>
        if a.lt JSNumber.zero then
          Except.error "Cannot calculate square root of negative number"
        else Except.ok a.mathSqrt) := rfl

theorem getProperty_power : Server.getProperty "power"
    = Server.Property.own (fun a b => Except.ok (a.mathPow (Server.argNumber b))) := rfl

theorem respond_outcome (req req' : Server.Request) (n : JSNumber)
    (r : Except String Server.ResultValue) :
    (Server.respond req n r).outcome = (Server.respond req' n r).outcome := by
  cases r with
  | error msg => rfl
  | ok v => simp only [Server.respond]; split_ifs <;> rfl

theorem respond_ne_error (req : Server.Request) (n : JSNumber)
    (r : Except String Server.ResultValue) (msg : String) (v : Option (List String))
    (hr : ∀ x, r ≠ Except.error x ∨ x ≠ msg) (hm : msg ≠ "Result is not a finite number") :
    Server.respond req n r ≠ Server.Response.error msg v := by
  cases r with
  | error x =>
    simp only [Server.respond, ne_eq, Server.Response.error.injEq, not_and]
    intro hx
    rcases hr x with h | h
    · exact absurd rfl h
    · exact absurd hx h
  | ok val =>
    by_cases hfin : (!val.toNumber.isFinite) = true
    · simp only [Server.respond, hfin, if_true, ne_eq, Server.Response.error.injEq, not_and]
      intro hx
      exact absurd hx.symm hm
    · simp [Server.respond, hfin]

/-! ### The calculate entry point -/

/-- C1: a request whose operation is no operation name is to fail with the unknown-operation
error. The operation `constructor` is none of the eight names, and yet the request with the
operands 5 and 3 is served: the handler answers 200 with the result 5. -/
theorem apiCalculate_constructor_served :
    "constructor" ∉ Spec.operationNames ∧
    Server.apiCalculate
        { operation := JSValue.str "constructor", operand1 := JSValue.num (JSNumber.ofNat 5),
          operand2 := JSValue.num (JSNumber.ofNat 3) }
      = Server.Response.ok (JSNumber.ofNat 5) (JSValue.str "constructor") (JSNumber.ofNat 5)
          (some (JSNumber.ofNat 3)) := by
  decide!

/-- What holds of the unknown-operation check: an operation that is a non-empty string, none
of the eight own keys and none of the keys inherited from `Object.prototype`, with a numeric
operand1, fails with the unknown-operation error and the list of the eight names. -/
theorem apiCalculate_unknown_operation (name : String) (o1 o2 : JSValue)
    (hname : name ≠ "") (hown : name ∉ Spec.operationNames)
    (hinherited : name ∉ Server.objectPrototypeKeys)
    (h1 : o1 ≠ JSValue.undefined) (h1n : o1 ≠ JSValue.null)
    (hnum : (parseFloat o1).isNaN = false) :
    Server.apiCalculate { operation := JSValue.str name, operand1 := o1, operand2 := o2 }
      = Server.Response.error ("Unknown operation: " ++ name) (some Spec.operationNames) := by
  have hkeys : Server.validOperations = Spec.operationNames := rfl
  have hmissing : Server.getProperty name = Server.Property.missing := by
    simp only [Spec.operationNames, List.mem_cons, List.mem_singleton, List.not_mem_nil,
      or_false, not_or] at hown
    obtain ⟨n1, n2, n3, n4, n5, n6, n7, n8⟩ := hown
    simp only [Server.getProperty, Server.operations, List.lookup,
      beq_eq_false_iff_ne.mpr n1, beq_eq_false_iff_ne.mpr n2, beq_eq_false_iff_ne.mpr n3,
      beq_eq_false_iff_ne.mpr n4, beq_eq_false_iff_ne.mpr n5, beq_eq_false_iff_ne.mpr n6,
      beq_eq_false_iff_ne.mpr n7, beq_eq_false_iff_ne.mpr n8, hinherited, if_false]
  simp [Server.apiCalculate, JSValue.truthy, JSValue.toStr, hname, h1, h1n, hnum, hmissing,
    hkeys]

theorem divide_zero_response (o1 o2 : JSValue)
    (h1 : o1 ≠ JSValue.undefined) (h1n : o1 ≠ JSValue.null)
    (hnum : (parseFloat o1).isNaN = false)
    (hzero : (parseFloat o2).strictEq JSNumber.zero = true) :
    Server.apiCalculate { operation := JSValue.str "divide", operand1 := o1, operand2 := o2 }
      = Server.Response.error "Division by zero" none := by
  have h2 : o2 ≠ JSValue.undefined := by
    rintro rfl; rw [parseFloat_undefined] at hzero; simp [JSNumber.strictEq] at hzero
  have h2n : o2 ≠ JSValue.null := by
    rintro rfl; rw [parseFloat_null] at hzero; simp [JSNumber.strictEq] at hzero
  have hn2 : (parseFloat o2).isNaN = false := by
    cases h : parseFloat o2 <;> simp_all [JSNumber.isNaN, JSNumber.strictEq]
  simp [Server.apiCalculate, JSValue.truthy, JSValue.toStr, h1, h1n, hnum, h2, h2n, hn2,
    getProperty_divide, Server.callProperty, Server.argNumber, hzero, Server.respond]

/-- C5: for every numeric operand1, a request for `divide` whose operand2 parses to zero
fails with the error `Division by zero` and returns no result. -/
theorem apiCalculate_divide_by_zero (o1 o2 : JSValue)
    (h1 : o1 ≠ JSValue.undefined) (h1n : o1 ≠ JSValue.null)
    (hnum : (parseFloat o1).isNaN = false)
    (hzero : (parseFloat o2).strictEq JSNumber.zero = true) :
    Server.apiCalculate { operation := JSValue.str "divide", operand1 := o1, operand2 := o2 }
      = Server.Response.error "Division by zero" none :=
  divide_zero_response o1 o2 h1 h1n hnum hzero

theorem apiCalculate_divide_by_zero_witness :
    Server.apiCalculate
        { operation := JSValue.str "divide", operand1 := JSValue.num (JSNumber.ofNat 5),
          operand2 := JSValue.str "0" }
      = Server.Response.error "Division by zero" none :=
  apiCalculate_divide_by_zero (JSValue.num (JSNumber.ofNat 5)) (JSValue.str "0")
    (by decide) (by decide) (by decide!) (by decide!)

theorem apiCalculate_percentage (o1 o2 : JSValue)
    (h1 : o1 ≠ JSValue.undefined) (h1n : o1 ≠ JSValue.null)
    (hnum : (parseFloat o1).isNaN = false) :
    Server.apiCalculate
        { operation := JSValue.str "percentage", operand1 := o1, operand2 := o2 }
      = Server.respond { operation := JSValue.str "percentage", operand1 := o1, operand2 := o2 }
          (parseFloat o1)
          (Except.ok (Server.ResultValue.number ((parseFloat o1).div (JSNumber.ofNat 100)))) := by
  simp [Server.apiCalculate, JSValue.truthy, JSValue.toStr, h1, h1n, hnum,
    getProperty_percentage, Server.callProperty]

theorem apiCalculate_negate (o1 o2 : JSValue)
    (h1 : o1 ≠ JSValue.undefined) (h1n : o1 ≠ JSValue.null)
    (hnum : (parseFloat o1).isNaN = false) :
    Server.apiCalculate { operation := JSValue.str "negate", operand1 := o1, operand2 := o2 }
      = Server.respond { operation := JSValue.str "negate", operand1 := o1, operand2 := o2 }
          (parseFloat o1) (Except.ok (Server.ResultValue.number (parseFloat o1).neg)) := by
  simp [Server.apiCalculate, JSValue.truthy, JSValue.toStr, h1, h1n, hnum,
    getProperty_negate, Server.callProperty]

theorem apiCalculate_sqrt (o1 o2 : JSValue)
    (h1 : o1 ≠ JSValue.undefined) (h1n : o1 ≠ JSValue.null)
    (hnum : (parseFloat o1).isNaN = false) :
    Server.apiCalculate { operation := JSValue.str "sqrt", operand1 := o1, operand2 := o2 }
      = Server.respond { operation := JSValue.str "sqrt", operand1 := o1, operand2 := o2 }
          (parseFloat o1)
          (if (parseFloat o1).lt JSNumber.zero = true then
            Except.error "Cannot calculate square root of negative number"
          else Except.ok (Server.ResultValue.number (parseFloat o1).mathSqrt)) := by
  by_cases hlt : (parseFloat o1).lt JSNumber.zero = true <;>
    simp [Server.apiCalculate, JSValue.truthy, JSValue.toStr, h1, h1n, hnum,
      getProperty_sqrt, Server.callProperty, hlt]

/-- C6: for every numeric operand1 `a` with `a < 0`, a request for `sqrt` fails with the
domain error and returns no result, whatever operand2 is or whether it is there at all; for
every `a ≥ 0` the request does not fail with that error. -/
theorem apiCalculate_sqrt_domain (o1 o2 : JSValue)
    (h1 : o1 ≠ JSValue.undefined) (h1n : o1 ≠ JSValue.null)
    (hnum : (parseFloat o1).isNaN = false) :
    ((parseFloat o1).lt JSNumber.zero = true →
      Server.apiCalculate { operation := JSValue.str "sqrt", operand1 := o1, operand2 := o2 }
        = Server.Response.error "Cannot calculate square root of negative number" none)
    ∧ (JSNumber.zero.le (parseFloat o1) = true → ∀ payload,
      Server.apiCalculate { operation := JSValue.str "sqrt", operand1 := o1, operand2 := o2 }
        ≠ Server.Response.error "Cannot calculate square root of negative number" payload) := by
  rw [apiCalculate_sqrt o1 o2 h1 h1n hnum]
  constructor
  · intro hlt
    simp [hlt, Server.respond]
  · intro hle payload
    have hlt := le_zero_not_lt _ hle
    apply respond_ne_error
    · intro x; left; simp [hlt]
    · decide

theorem apiCalculate_sqrt_domain_witness :
    Server.apiCalculate
        { operation := JSValue.str "sqrt", operand1 := JSValue.str "-4",
          operand2 := JSValue.undefined }
      = Server.Response.error "Cannot calculate square root of negative number" none :=
  (apiCalculate_sqrt_domain (JSValue.str "-4") JSValue.undefined
    (by decide) (by decide) (by decide!)).1 (by decide!)

/-- C7: for every numeric operand1, the result or error of a request for `percentage`,
`negate` or `sqrt` is the same whatever operand2 is, and is never the missing-operand2 error;
a request for `add`, `subtract`, `multiply`, `divide` or `power` whose operand2 is absent
(`undefined` or `null`) fails with the missing-operand2 error and returns no result. -/
theorem apiCalculate_operand2_requirement (operation : String) (o1 o2 o2' : JSValue)
    (h1 : o1 ≠ JSValue.undefined) (h1n : o1 ≠ JSValue.null)
    (hnum : (parseFloat o1).isNaN = false) :
    (operation ∈ ["percentage", "negate", "sqrt"] →
      (Server.apiCalculate
          { operation := JSValue.str operation, operand1 := o1, operand2 := o2 }).outcome
        = (Server.apiCalculate
          { operation := JSValue.str operation, operand1 := o1, operand2 := o2' }).outcome
      ∧ ∀ payload,
        Server.apiCalculate
            { operation := JSValue.str operation, operand1 := o1, operand2 := o2 }
          ≠ Server.Response.error "operand2 is required for this operation" payload)
    ∧ (operation ∈ ["add", "subtract", "multiply", "divide", "power"] →
      o2 = JSValue.undefined ∨ o2 = JSValue.null →
      Server.apiCalculate
          { operation := JSValue.str operation, operand1 := o1, operand2 := o2 }
        = Server.Response.error "operand2 is required for this operation" none) := by
  constructor
  · intro hop
    simp only [List.mem_cons, List.mem_singleton, List.not_mem_nil, or_false] at hop
    rcases hop with rfl | rfl | rfl
    · rw [apiCalculate_percentage o1 o2 h1 h1n hnum, apiCalculate_percentage o1 o2' h1 h1n hnum]
      refine ⟨respond_outcome _ _ _ _, fun payload => ?_⟩
      apply respond_ne_error
      · intro x; left; simp
      · decide
    · rw [apiCalculate_negate o1 o2 h1 h1n hnum, apiCalculate_negate o1 o2' h1 h1n hnum]
      refine ⟨respond_outcome _ _ _ _, fun payload => ?_⟩
      apply respond_ne_error
      · intro x; left; simp
      · decide
    · rw [apiCalculate_sqrt o1 o2 h1 h1n hnum, apiCalculate_sqrt o1 o2' h1 h1n hnum]
      refine ⟨respond_outcome _ _ _ _, fun payload => ?_⟩
      apply respond_ne_error
      · intro x
        by_cases hx : x = "operand2 is required for this operation"
        · left
          subst hx
          split_ifs <;> simp
        · right; exact hx
      · decide
  · intro hop habsent
    simp only [List.mem_cons, List.mem_singleton, List.not_mem_nil, or_false] at hop
    rcases hop with rfl | rfl | rfl | rfl | rfl
    · simp [Server.apiCalculate, JSValue.truthy, JSValue.toStr, h1, h1n, hnum,
        getProperty_add, habsent]
    · simp [Server.apiCalculate, JSValue.truthy, JSValue.toStr, h1, h1n, hnum,
        getProperty_subtract, habsent]
    · simp [Server.apiCalculate, JSValue.truthy, JSValue.toStr, h1, h1n, hnum,
        getProperty_multiply, habsent]
    · simp [Server.apiCalculate, JSValue.truthy, JSValue.toStr, h1, h1n, hnum,
        getProperty_divide, habsent]
    · simp [Server.apiCalculate, JSValue.truthy, JSValue.toStr, h1, h1n, hnum,
        getProperty_power, habsent]

theorem apiCalculate_operand2_requirement_witness :
    Server.apiCalculate
        { operation := JSValue.str "add", operand1 := JSValue.num (JSNumber.ofNat 5),
          operand2 := JSValue.null }
      = Server.Response.error "operand2 is required for this operation" none :=
  (apiCalculate_operand2_requirement "add" (JSValue.num (JSNumber.ofNat 5)) JSValue.null
    JSValue.null (by decide) (by decide) (by decide!)).2 (by decide) (Or.inr rfl)

theorem respond_ok (req : Server.Request) (n x r : JSNumber) (op : JSValue) (n1 : JSNumber)
    (n2 : Option JSNumber)
    (h : Server.respond req n (Except.ok (Server.ResultValue.number x))
      = Server.Response.ok r op n1 n2) :
    r = Server.round10 x ∧ op = req.operation ∧ n1 = n
      ∧ n2 = (if req.operand2 = JSValue.undefined then none
              else some (parseFloat req.operand2)) := by
  simp only [Server.respond, Server.ResultValue.toNumber] at h
  split_ifs at h with hfin hund
  · simp only [Server.Response.ok.injEq] at h
    obtain ⟨rfl, rfl, rfl, rfl⟩ := h
    simp [hund]
  · simp only [Server.Response.ok.injEq] at h
    obtain ⟨rfl, rfl, rfl, rfl⟩ := h
    simp [hund]

theorem apiCalculate_ok_operand1 (operation o1 o2 : JSValue) (r : JSNumber) (op : JSValue)
    (n1 : JSNumber) (n2 : Option JSNumber)
    (h : Server.apiCalculate { operation := operation, operand1 := o1, operand2 := o2 }
      = Server.Response.ok r op n1 n2) :
    o1 ≠ JSValue.undefined ∧ o1 ≠ JSValue.null ∧ (parseFloat o1).isNaN = false := by
  unfold Server.apiCalculate at h
  dsimp only at h
  split_ifs at h with h0 h1 h2 <;>
    exact ⟨fun hc => h1 (Or.inl hc), fun hc => h1 (Or.inr hc), by simpa using h2⟩

/-- C4 (as stated) fails: for `add` on the operands 9007199254740992 and 1, both parsed
exactly, the request succeeds with the result 9007199254740992, while the exact sum rounded
to 10 decimal places is 9007199254740993. -/
theorem apiCalculate_add_inexact :
    Server.apiCalculate
        { operation := JSValue.str "add",
          operand1 := JSValue.num (JSNumber.ofNat 9007199254740992),
          operand2 := JSValue.num (JSNumber.ofNat 1) }
      = Server.Response.ok (JSNumber.fin false 4503599627370496 1) (JSValue.str "add")
          (JSNumber.fin false 4503599627370496 1)
          (some (JSNumber.fin false 4503599627370496 (-52)))
    ∧ (JSNumber.fin false 4503599627370496 1).toRat = some 9007199254740992
    ∧ (JSNumber.fin false 4503599627370496 (-52)).toRat = some 1
    ∧ (JSNumber.fin false 4503599627370496 1).toRat
        ≠ some (Spec.roundedTo10 (9007199254740992 + 1)) := by
  have hround : Spec.roundedTo10 (9007199254740992 + 1) = 9007199254740993 := by
    unfold Spec.roundedTo10
    have : ((9007199254740992 : ℚ) + 1) * 10 ^ 10 = ((90071992547409930000000000 : ℤ) : ℚ) := by
      norm_num
    rw [this, round_intCast]
    norm_num
  have hval : (JSNumber.fin false 4503599627370496 1).toRat = some 9007199254740992 := by
    simp [JSNumber.toRat, JSNumber.absFrac, JSNumber.signed]
  refine ⟨by decide!, hval, ?_, ?_⟩
  · simp [JSNumber.toRat, JSNumber.absFrac, JSNumber.signed]
  · rw [hval, hround]
    norm_num

/-! ### The evaluate entry point -/

/-- C3 (amended): every string with at least one character that is neither white space
(which the handler strips, tabs and line breaks included) nor a decimal digit nor one of
`+ - * / . ( )` fails with the invalid-characters error and is never evaluated. -/
theorem apiEvaluate_foreign_character (s : String) (c : Char) (hc : c ∈ s.data)
    (hspace : JS.isWhiteSpace c = false) (hallowed : Server.allowedChar c = false) :
    Server.apiEvaluate (JSValue.str s)
      = Server.EvalResponse.error "Invalid characters in expression" := by
  have hne : s ≠ "" := by
    rintro rfl
    simp at hc
  have hmem : c ∈ Server.sanitize s := by
    simp [Server.sanitize, List.mem_filter, hc, hspace]
  have hall : ¬ (Server.sanitize s).all Server.allowedChar = true := by
    intro h
    rw [List.all_eq_true] at h
    have := h c hmem
    rw [hallowed] at this
    exact Bool.false_ne_true this
  simp only [Server.apiEvaluate, hne, if_false]
  rw [if_pos (Or.inr hall)]

theorem apiEvaluate_foreign_character_witness :
    Server.apiEvaluate (JSValue.str "2+a")
      = Server.EvalResponse.error "Invalid characters in expression" :=
  apiEvaluate_foreign_character "2+a" 'a' (by decide) (by decide) (by decide)

/-- C3 (as stated) fails: the string `2<tab>+2` holds a tab, a character outside the digits,
`+ - * / . ( )` and the space, and yet it is evaluated: the answer is 200 with result 4. -/
theorem apiEvaluate_tab_evaluated :
    (∃ c ∈ "2\t+2".data, Spec.permittedChar c = false)
    ∧ Server.apiEvaluate (JSValue.str "2\t+2")
      = Server.EvalResponse.ok (JSNumber.ofNat 4) "2\t+2" := by
  decide!

/-- C2 (as stated) fails: `2**3` uses the exponentiation operator, which is none of the four
binary operators, and it is not rejected: the answer is 200 with result 8. -/
theorem apiEvaluate_power_evaluated :
    Server.apiEvaluate (JSValue.str "2**3")
      = Server.EvalResponse.ok (JSNumber.ofNat 8) "2**3" := by
  decide!

/-! ### Text of a Number, Number of a text -/

theorem decimalValue_isNaN (neg : Bool) (ds : List Char) (e : Int) :
    (JS.decimalValue neg ds e).isNaN = false := by
  unfold JS.decimalValue
  split_ifs <;> exact roundRat_isNaN _ _ _

theorem isDigit_not_special (c : Char) (h : JS.isDigit c = true) :
    JS.isWhiteSpace c = false ∧ c ≠ '+' ∧ c ≠ '-' ∧ c ≠ 'I' := by
  simp only [JS.isDigit, decide_eq_true_eq] at h
  refine ⟨?_, ?_, ?_, ?_⟩
  · simp only [JS.isWhiteSpace, List.mem_cons, List.mem_singleton, List.not_mem_nil,
      or_false, Bool.or_eq_false_iff, decide_eq_false_iff_not]
    omega
  · rintro rfl
    revert h
    decide
  · rintro rfl
    revert h
    decide
  · rintro rfl
    revert h
    decide

theorem strUnsignedDecimalLiteral_digit (neg : Bool) (c : Char) (rest : List Char)
    (h : JS.isDigit c = true) :
    (JS.strUnsignedDecimalLiteral neg (c :: rest)).isNaN = false := by
  have hI : c ≠ 'I' := (isDigit_not_special c h).2.2.2
  have htake : (c :: rest).takeWhile JS.isDigit ≠ [] := by
    simp [List.takeWhile, h]
  unfold JS.strUnsignedDecimalLiteral
  rw [if_neg]
  · split
    · rw [if_neg (fun hc => htake hc.1)]
      exact decimalValue_isNaN _ _ _
    · rw [if_neg htake]
      exact decimalValue_isNaN _ _ _
  · intro hc
    simp only [List.take_succ_cons, List.cons.injEq] at hc
    exact hI hc.1

theorem parseFloatChars_digit (c : Char) (rest : List Char) (h : JS.isDigit c = true) :
    (JS.parseFloatChars (c :: rest)).isNaN = false := by
  obtain ⟨hw, hplus, hminus, _⟩ := isDigit_not_special c h
  unfold JS.parseFloatChars
  rw [List.dropWhile_cons_of_neg (by simp [hw])]
  split
  · rename_i heq
    simp only [List.cons.injEq] at heq
    exact absurd heq.1 hplus
  · rename_i heq
    simp only [List.cons.injEq] at heq
    exact absurd heq.1 hminus
  · exact strUnsignedDecimalLiteral_digit _ _ _ h

theorem parseFloatChars_minus_digit (c : Char) (rest : List Char) (h : JS.isDigit c = true) :
    (JS.parseFloatChars ('-' :: c :: rest)).isNaN = false := by
  unfold JS.parseFloatChars
  rw [List.dropWhile_cons_of_neg (by decide)]
  exact strUnsignedDecimalLiteral_digit _ _ _ h

theorem isDigit_digitChar (d : Nat) (h : d < 10) : JS.isDigit (JS.digitChar d) = true := by
  interval_cases d <;> decide

theorem natDigitsAux_head (fuel n : Nat) (acc : List Char) :
    Eval.startsWithDigit (JS.natDigitsAux fuel n acc) = true := by
  induction fuel generalizing n acc with
  | zero =>
    simp only [JS.natDigitsAux, Eval.startsWithDigit]
    exact isDigit_digitChar _ (Nat.mod_lt _ (by decide))
  | succ fuel ih =>
    simp only [JS.natDigitsAux]
    split_ifs with hlt
    · simp only [Eval.startsWithDigit]
      exact isDigit_digitChar _ hlt
    · exact ih _ _

theorem layout_head (ds : List Char) (k : Nat) (n : Int)
    (h : Eval.startsWithDigit ds = true) :
    Eval.startsWithDigit (JS.layout ds k n) = true := by
  cases ds with
  | nil => simp [Eval.startsWithDigit] at h
  | cons d tl =>
    simp only [Eval.startsWithDigit] at h
    unfold JS.layout
    split_ifs with h1 h2 h3 h4
    · simpa [Eval.startsWithDigit] using h
    · obtain ⟨m, hm⟩ : ∃ m, n.toNat = m + 1 := ⟨n.toNat - 1, by omega⟩
      simpa [hm, Eval.startsWithDigit] using h
    · simp only [Eval.startsWithDigit]
      decide
    · simpa [Eval.startsWithDigit] using h
    · simpa [Eval.startsWithDigit] using h

theorem positiveToChars_head (m : Nat) (e : Int) :
    Eval.startsWithDigit (JS.positiveToChars m e) = true := by
  unfold JS.positiveToChars
  dsimp only
  split_ifs
  · apply layout_head
    decide
  · apply layout_head
    exact natDigitsAux_head _ _ _

/-- Reading back the text of a Number that is not NaN never gives NaN. -/
theorem parseFloatChars_numberToChars (x : JSNumber) (h : x.isNaN = false) :
    (JS.parseFloatChars (JS.numberToChars x)).isNaN = false := by
  cases x with
  | nan => simp [JSNumber.isNaN] at h
  | inf neg => cases neg <;> decide
  | fin neg m e =>
    simp only [JS.numberToChars]
    split_ifs with hm hneg
    · decide
    · have hh := positiveToChars_head m e
      cases hp : JS.positiveToChars m e with
      | nil => simp [hp, Eval.startsWithDigit] at hh
      | cons c rest =>
        rw [hp] at hh
        exact parseFloatChars_minus_digit c rest hh
    · have hh := positiveToChars_head m e
      cases hp : JS.positiveToChars m e with
      | nil => simp [hp, Eval.startsWithDigit] at hh
      | cons c rest =>
        rw [hp] at hh
        exact parseFloatChars_digit c rest hh

/-! ### The calculator state machine -/

/-- C9: in every state with a pending operator `op`, a previous value `p` and
`waitingForOperand` false, pressing Equals when the service succeeds with result `r` gives
history `p op c =` (`c` the Number of the display), display the text of `r`, no previous
value, no pending operator, `waitingForOperand` true and no error. In particular the keys
7, +, 3, = from the initial state, with the backend as the service, end with display `10`
and history `7 + 3 =`. -/
theorem handleEquals_success :
    (∀ (svc : Client.Service) (s : Client.State) (op : Client.Operator) (p r : JSNumber),
      s.operation = some op → s.previousValue = some p → s.waitingForOperand = false →
      svc (Client.operationMap op) p (some (Client.inputValue s)) = Except.ok (some r) →
      (Client.handleEquals svc s).history
          = JS.numberToString p ++ " " ++ op.symbol ++ " "
            ++ JS.numberToString (Client.inputValue s) ++ " ="
        ∧ (Client.handleEquals svc s).display = JS.numberToString r
        ∧ (Client.handleEquals svc s).previousValue = none
        ∧ (Client.handleEquals svc s).operation = none
        ∧ (Client.handleEquals svc s).waitingForOperand = true
        ∧ (Client.handleEquals svc s).error = none)
    ∧ (Client.run Client.calculate
          [Client.Key.digit 7, Client.Key.operator Client.Operator.plus, Client.Key.digit 3,
           Client.Key.equals] Client.initial).display = "10"
    ∧ (Client.run Client.calculate
          [Client.Key.digit 7, Client.Key.operator Client.Operator.plus, Client.Key.digit 3,
           Client.Key.equals] Client.initial).history = "7 + 3 =" := by
  refine ⟨?_, by decide!, by decide!⟩
  intro svc s op p r hop hprev hwait hsvc
  simp [Client.handleEquals, hop, hprev, hwait, hsvc, Client.resultText]

theorem run_append (svc : Client.Service) (ks ks' : List Client.Key) (s : Client.State) :
    Client.run svc (ks ++ ks') s = Client.run svc ks' (Client.run svc ks s) := by
  simp [Client.run, List.foldl_append]

theorem run_digits (svc : Client.Service) (ds : List (Fin 10)) (s : Client.State)
    (hprev : s.previousValue = none) (hop : s.operation = none)
    (hwait : s.waitingForOperand = false) :
    (Client.run svc (ds.map Client.Key.digit) s).previousValue = none
      ∧ (Client.run svc (ds.map Client.Key.digit) s).operation = none
      ∧ (Client.run svc (ds.map Client.Key.digit) s).waitingForOperand = false := by
  induction ds generalizing s with
  | nil => exact ⟨hprev, hop, hwait⟩
  | cons d ds ih =>
    simp only [List.map_cons, Client.run, List.foldl_cons]
    apply ih
    · simp [Client.press, Client.handleDigit, hwait, hprev]
    · simp [Client.press, Client.handleDigit, hwait, hop]
    · simp [Client.press, Client.handleDigit, hwait]

theorem calculate_divide_zero (a : JSNumber) (ha : a.isFinite = true) :
    Client.calculate "divide" a (some JSNumber.zero) = Except.error "Division by zero" := by
  have hnan : a.isNaN = false := by
    cases a <;> simp_all [JSNumber.isFinite, JSNumber.isNaN]
  have hz : Client.wireNumber JSNumber.zero = JSValue.num JSNumber.zero := by decide!
  have hresp := divide_zero_response
    (JSValue.num (JS.parseFloatChars (JS.numberToChars a))) (JSValue.num JSNumber.zero)
    (by simp) (by simp)
    (parseFloatChars_numberToChars _ (parseFloatChars_numberToChars a hnan))
    (by decide!)
  have hw : Client.wireNumber a = JSValue.num (JS.parseFloatChars (JS.numberToChars a)) := by
    simp [Client.wireNumber, ha]
  simp only [Client.calculate, Client.wireArgument]
  rw [hz, hw, hresp]
  simp

/-- C10 (amended): from the initial state, for every number entered by digit keys that is
finite as a Number (the display parses to a finite binary64 value, so below 2^1024), the keys
`a`, ÷, 0, = with the backend as the service end with the display `Error`, the error field
equal to the service's message `Division by zero`, and `isLoading` false. -/
theorem divide_by_zero_scenario (ds : List (Fin 10))
    (hfin : (Client.inputValue
      (Client.run Client.calculate (ds.map Client.Key.digit) Client.initial)).isFinite = true) :
    (Client.run Client.calculate
        (ds.map Client.Key.digit ++ [Client.Key.operator Client.Operator.divide,
          Client.Key.digit 0, Client.Key.equals]) Client.initial).display = "Error"
    ∧ (Client.run Client.calculate
        (ds.map Client.Key.digit ++ [Client.Key.operator Client.Operator.divide,
          Client.Key.digit 0, Client.Key.equals]) Client.initial).error
        = some "Division by zero"
    ∧ (Client.run Client.calculate
        (ds.map Client.Key.digit ++ [Client.Key.operator Client.Operator.divide,
          Client.Key.digit 0, Client.Key.equals]) Client.initial).isLoading = false := by
  obtain ⟨hprev, hop, hwait⟩ :=
    run_digits Client.calculate ds Client.initial rfl rfl rfl
  have hzero : JS.parseFloatChars (Client.digitString 0).data = JSNumber.zero := by decide!
  have hcalc := calculate_divide_zero _ hfin
  rw [run_append]
  generalize Client.run Client.calculate (ds.map Client.Key.digit) Client.initial = s at *
  simp only [Client.inputValue] at hcalc
  simp [Client.run, Client.press, Client.handleOperator, Client.handleDigit,
    Client.handleEquals, Client.operationMap, Client.inputValue, hprev, hzero, hcalc]

theorem divide_by_zero_scenario_witness :
    (Client.run Client.calculate
        ([5].map Client.Key.digit ++ [Client.Key.operator Client.Operator.divide,
          Client.Key.digit 0, Client.Key.equals]) Client.initial).display = "Error"
    ∧ (Client.run Client.calculate
        ([5].map Client.Key.digit ++ [Client.Key.operator Client.Operator.divide,
          Client.Key.digit 0, Client.Key.equals]) Client.initial).error
        = some "Division by zero"
    ∧ (Client.run Client.calculate
        ([5].map Client.Key.digit ++ [Client.Key.operator Client.Operator.divide,
          Client.Key.digit 0, Client.Key.equals]) Client.initial).isLoading = false :=
  divide_by_zero_scenario [5] (by decide!)

/-- C10 (as stated) fails: the number 1 followed by 309 zeros, entered by digit keys,
parses to Infinity, which the request carries as `null`; after ÷, 0, = the error field is
the service's message `operand1 is required`, not the division-by-zero message. -/
theorem divide_by_zero_scenario_huge_entry :
    (Client.run Client.calculate
        ((1 :: List.replicate 309 0).map Client.Key.digit
          ++ [Client.Key.operator Client.Operator.divide, Client.Key.digit 0,
              Client.Key.equals]) Client.initial).error
      = some "operand1 is required" := by
  decide!

/-! ### The expression parser reads every well-formed expression -/

theorem parse_fuel_succ (fuel : Nat) :
    (∀ toks r, Eval.parseAdditive fuel toks = some r →
        Eval.parseAdditive (fuel + 1) toks = some r)
    ∧ (∀ v toks r, Eval.additiveLoop fuel v toks = some r →
        Eval.additiveLoop (fuel + 1) v toks = some r)
    ∧ (∀ toks r, Eval.parseMultiplicative fuel toks = some r →
        Eval.parseMultiplicative (fuel + 1) toks = some r)
    ∧ (∀ v toks r, Eval.multiplicativeLoop fuel v toks = some r →
        Eval.multiplicativeLoop (fuel + 1) v toks = some r)
    ∧ (∀ toks r, Eval.parseExponent fuel toks = some r →
        Eval.parseExponent (fuel + 1) toks = some r)
    ∧ (∀ toks r, Eval.parseUnary fuel toks = some r →
        Eval.parseUnary (fuel + 1) toks = some r)
    ∧ (∀ toks r, Eval.parsePrimary fuel toks = some r →
        Eval.parsePrimary (fuel + 1) toks = some r) := by
  induction fuel with
  | zero =>
    refine ⟨?_, ?_, ?_, ?_, ?_, ?_, ?_⟩ <;> intros <;> simp_all [Eval.parseAdditive,
      Eval.additiveLoop, Eval.parseMultiplicative, Eval.multiplicativeLoop,
      Eval.parseExponent, Eval.parseUnary, Eval.parsePrimary]
  | succ fuel ih =>
    obtain ⟨hA, hAL, hM, hML, hE, hU, hP⟩ := ih
    refine ⟨?_, ?_, ?_, ?_, ?_, ?_, ?_⟩
    · intro toks r h
      rw [Eval.parseAdditive] at h ⊢
      cases hm : Eval.parseMultiplicative fuel toks with
      | none => simp [hm] at h
      | some p =>
        obtain ⟨v, rest⟩ := p
        simp only [hm] at h
        simp only [hM _ _ hm]
        exact hAL _ _ _ h
    · intro v toks r h
      rcases toks with _ | ⟨t, rest⟩
      · simpa [Eval.additiveLoop] using h
      · cases t <;> simp only [Eval.additiveLoop] at h ⊢
        case plus =>
          rcases hm : Eval.parseMultiplicative fuel rest with _ | ⟨w, rest'⟩
          · simp [hm] at h
          · simp only [hm] at h
            simp only [hM _ _ hm]
            exact hAL _ _ _ h
        case minus =>
          rcases hm : Eval.parseMultiplicative fuel rest with _ | ⟨w, rest'⟩
          · simp [hm] at h
          · simp only [hm] at h
            simp only [hM _ _ hm]
            exact hAL _ _ _ h
        all_goals exact h
    · intro toks r h
      rw [Eval.parseMultiplicative] at h ⊢
      rcases hm : Eval.parseExponent fuel toks with _ | ⟨v, rest⟩
      · simp [hm] at h
      · simp only [hm] at h
        simp only [hE _ _ hm]
        exact hML _ _ _ h
    · intro v toks r h
      rcases toks with _ | ⟨t, rest⟩
      · simpa [Eval.multiplicativeLoop] using h
      · cases t <;> simp only [Eval.multiplicativeLoop] at h ⊢
        case star =>
          rcases hm : Eval.parseExponent fuel rest with _ | ⟨w, rest'⟩
          · simp [hm] at h
          · simp only [hm] at h
            simp only [hE _ _ hm]
            exact hML _ _ _ h
        case slash =>
          rcases hm : Eval.parseExponent fuel rest with _ | ⟨w, rest'⟩
          · simp [hm] at h
          · simp only [hm] at h
            simp only [hE _ _ hm]
            exact hML _ _ _ h
        all_goals exact h
    · intro toks r h
      have hunary : ∀ t rest,
          (match Eval.parseUnary fuel (t :: rest) with
            | some (_, Eval.Token.pow :: _) => none
            | r => r) = some r →
          (match Eval.parseUnary (fuel + 1) (t :: rest) with
            | some (_, Eval.Token.pow :: _) => none
            | r => r) = some r := by
        intro t rest h
        rcases hu : Eval.parseUnary fuel (t :: rest) with _ | ⟨v, rest'⟩
        · simp [hu] at h
        · rw [hU _ _ hu]
          rw [hu] at h
          exact h
      rcases toks with _ | ⟨t, rest⟩
      · cases fuel <;> simp [Eval.parseExponent, Eval.parsePrimary] at h
      · have hprimary :
            (match Eval.parsePrimary fuel (t :: rest) with
              | some (v, Eval.Token.pow :: rest) =>
                match Eval.parseExponent fuel rest with
                | none => none
                | some (w, rest') => some (Eval.Value.num (v.toNumber.mathPow w.toNumber), rest')
              | r => r) = some r →
            (match Eval.parsePrimary (fuel + 1) (t :: rest) with
              | some (v, Eval.Token.pow :: rest) =>
                match Eval.parseExponent (fuel + 1) rest with
                | none => none
                | some (w, rest') => some (Eval.Value.num (v.toNumber.mathPow w.toNumber), rest')
              | r => r) = some r := by
          intro h
          rcases hp : Eval.parsePrimary fuel (t :: rest) with _ | ⟨v, rest'⟩
          · simp [hp] at h
          · rw [hP _ _ hp]
            rw [hp] at h
            rcases rest' with _ | ⟨t', rest''⟩
            · exact h
            · cases t'
              case pow =>
                simp only at h ⊢
                rcases he : Eval.parseExponent fuel rest'' with _ | ⟨w, rest3⟩
                · simp [he] at h
                · rw [hE _ _ he]
                  rw [he] at h
                  exact h
              all_goals exact h
        cases t <;> simp only [Eval.parseExponent] at h ⊢
        case plus => exact hunary _ _ h
        case minus => exact hunary _ _ h
        all_goals exact hprimary h
    · intro toks r h
      rcases toks with _ | ⟨t, rest⟩
      · rw [Eval.parseUnary.eq_def] at h ⊢
        exact hP _ _ h
      · rw [Eval.parseUnary.eq_def] at h ⊢
        cases t <;> dsimp only at h ⊢
        case plus =>
          rcases hu : Eval.parseUnary fuel rest with _ | ⟨v, rest'⟩
          · simp [hu] at h
          · rw [hU _ _ hu]
            rw [hu] at h
            exact h
        case minus =>
          rcases hu : Eval.parseUnary fuel rest with _ | ⟨v, rest'⟩
          · simp [hu] at h
          · rw [hU _ _ hu]
            rw [hu] at h
            exact h
        all_goals exact hP _ _ h
    · intro toks r h
      rcases toks with _ | ⟨t, rest⟩
      · simp [Eval.parsePrimary] at h
      · cases t <;> simp only [Eval.parsePrimary] at h ⊢
        case lparen =>
          rcases ha : Eval.parseAdditive fuel rest with _ | ⟨v, rest'⟩
          · simp [ha] at h
          · rw [hA _ _ ha]
            rw [ha] at h
            exact h
        all_goals exact h

theorem parse_fuel_add (fuel k : Nat) :
    (∀ v toks r, Eval.additiveLoop fuel v toks = some r →
        Eval.additiveLoop (fuel + k) v toks = some r)
    ∧ (∀ v toks r, Eval.multiplicativeLoop fuel v toks = some r →
        Eval.multiplicativeLoop (fuel + k) v toks = some r) := by
  induction k with
  | zero => exact ⟨fun _ _ _ h => h, fun _ _ _ h => h⟩
  | succ k ih =>
    obtain ⟨hAL, hML⟩ := ih
    exact ⟨fun v toks r h => (parse_fuel_succ (fuel + k)).2.1 v toks r (hAL v toks r h),
      fun v toks r h => (parse_fuel_succ (fuel + k)).2.2.2.1 v toks r (hML v toks r h)⟩

theorem additiveLoop_mono (g fuel : Nat) (hle : g ≤ fuel) (v : Eval.Value)
    (toks : List Eval.Token) (r : Eval.Value × List Eval.Token)
    (h : Eval.additiveLoop g v toks = some r) : Eval.additiveLoop fuel v toks = some r := by
  obtain ⟨k, rfl⟩ := Nat.exists_eq_add_of_le hle
  exact (parse_fuel_add g k).1 v toks r h

theorem multiplicativeLoop_mono (g fuel : Nat) (hle : g ≤ fuel) (v : Eval.Value)
    (toks : List Eval.Token) (r : Eval.Value × List Eval.Token)
    (h : Eval.multiplicativeLoop g v toks = some r) :
    Eval.multiplicativeLoop fuel v toks = some r := by
  obtain ⟨k, rfl⟩ := Nat.exists_eq_add_of_le hle
  exact (parse_fuel_add g k).2 v toks r h

theorem multiplicativeLoop_done (fuel : Nat) (v : Eval.Value) (rest : List Eval.Token)
    (hstar : rest.head? ≠ some Eval.Token.star) (hslash : rest.head? ≠ some Eval.Token.slash) :
    Eval.multiplicativeLoop (fuel + 1) v rest = some (v, rest) := by
  rcases rest with _ | ⟨t, rest⟩
  · simp [Eval.multiplicativeLoop]
  · cases t <;> simp_all [Eval.multiplicativeLoop]

theorem additiveLoop_done (fuel : Nat) (v : Eval.Value) (rest : List Eval.Token)
    (hplus : rest.head? ≠ some Eval.Token.plus) (hminus : rest.head? ≠ some Eval.Token.minus) :
    Eval.additiveLoop (fuel + 1) v rest = some (v, rest) := by
  rcases rest with _ | ⟨t, rest⟩
  · simp [Eval.additiveLoop]
  · cases t <;> simp_all [Eval.additiveLoop]

theorem parseMultiplicative_of_parseExponent (toks : List Eval.Token) (v : JSNumber) (d : Nat)
    (hE : ∀ rest fuel, rest.head? ≠ some Eval.Token.lparen → rest.head? ≠ some Eval.Token.pow →
      d ≤ fuel → Eval.parseExponent fuel (toks ++ rest) = some (Eval.Value.num v, rest))
    (rest : List Eval.Token) (g : Nat) (r : Eval.Value × List Eval.Token) (fuel : Nat)
    (hl : rest.head? ≠ some Eval.Token.lparen) (hp : rest.head? ≠ some Eval.Token.pow)
    (hloop : Eval.multiplicativeLoop g (Eval.Value.num v) rest = some r)
    (hfuel : g + d + 1 ≤ fuel) :
    Eval.parseMultiplicative fuel (toks ++ rest) = some r := by
  obtain ⟨fuel', rfl⟩ : ∃ fuel', fuel = fuel' + 1 := ⟨fuel - 1, by omega⟩
  rw [Eval.parseMultiplicative, hE rest fuel' hl hp (by omega)]
  exact multiplicativeLoop_mono g fuel' (by omega) _ _ _ hloop

theorem parseAdditive_of_parseMultiplicative (toks : List Eval.Token) (v : JSNumber) (d : Nat)
    (hM : ∀ rest g r fuel, rest.head? ≠ some Eval.Token.lparen →
      rest.head? ≠ some Eval.Token.pow →
      Eval.multiplicativeLoop g (Eval.Value.num v) rest = some r → g + d + 1 ≤ fuel →
      Eval.parseMultiplicative fuel (toks ++ rest) = some r)
    (rest : List Eval.Token) (g : Nat) (r : Eval.Value × List Eval.Token) (fuel : Nat)
    (hl : rest.head? ≠ some Eval.Token.lparen) (hp : rest.head? ≠ some Eval.Token.pow)
    (hstar : rest.head? ≠ some Eval.Token.star) (hslash : rest.head? ≠ some Eval.Token.slash)
    (hloop : Eval.additiveLoop g (Eval.Value.num v) rest = some r)
    (hfuel : g + d + 3 ≤ fuel) :
    Eval.parseAdditive fuel (toks ++ rest) = some r := by
  obtain ⟨fuel', rfl⟩ : ∃ fuel', fuel = fuel' + 1 := ⟨fuel - 1, by omega⟩
  rw [Eval.parseAdditive,
    hM rest 1 (Eval.Value.num v, rest) fuel' hl hp (multiplicativeLoop_done 0 _ _ hstar hslash)
      (by omega)]
  exact additiveLoop_mono g fuel' (by omega) _ _ _ hloop

theorem parseExponent_num (x : JSNumber) (rest : List Eval.Token) (f : Nat)
    (hl : rest.head? ≠ some Eval.Token.lparen) (hp : rest.head? ≠ some Eval.Token.pow) :
    Eval.parseExponent (f + 2) (Eval.Token.num x :: rest) = some (Eval.Value.num x, rest) := by
  rw [Eval.parseExponent.eq_def]
  dsimp only
  rw [Eval.parsePrimary.eq_def]
  dsimp only
  rcases rest with _ | ⟨t, rest⟩
  · rfl
  · cases t <;> first | rfl | exact absurd rfl hl | exact absurd rfl hp

theorem parseExponent_lparen (v : Eval.Value) (toks rest : List Eval.Token) (f : Nat)
    (hl : rest.head? ≠ some Eval.Token.lparen) (hp : rest.head? ≠ some Eval.Token.pow)
    (hinner : Eval.parseAdditive f toks = some (v, Eval.Token.rparen :: rest)) :
    Eval.parseExponent (f + 2) (Eval.Token.lparen :: toks) = some (v, rest) := by
  rw [Eval.parseExponent.eq_def]
  dsimp only
  rw [Eval.parsePrimary.eq_def]
  dsimp only
  rw [hinner]
  rcases rest with _ | ⟨t, rest⟩
  · rfl
  · cases t <;> first | rfl | exact absurd rfl hl | exact absurd rfl hp

theorem multiplicativeLoop_star (g : Nat) (v w : Eval.Value) (toks rest : List Eval.Token)
    (h : Eval.parseExponent g toks = some (w, rest)) :
    Eval.multiplicativeLoop (g + 1) v (Eval.Token.star :: toks)
      = Eval.multiplicativeLoop g (Eval.Value.num (v.toNumber.mul w.toNumber)) rest := by
  rw [Eval.multiplicativeLoop.eq_def]
  dsimp only
  rw [h]

theorem multiplicativeLoop_slash (g : Nat) (v w : Eval.Value) (toks rest : List Eval.Token)
    (h : Eval.parseExponent g toks = some (w, rest)) :
    Eval.multiplicativeLoop (g + 1) v (Eval.Token.slash :: toks)
      = Eval.multiplicativeLoop g (Eval.Value.num (v.toNumber.div w.toNumber)) rest := by
  rw [Eval.multiplicativeLoop.eq_def]
  dsimp only
  rw [h]

theorem additiveLoop_plus (g : Nat) (v w : Eval.Value) (toks rest : List Eval.Token)
    (h : Eval.parseMultiplicative g toks = some (w, rest)) :
    Eval.additiveLoop (g + 1) v (Eval.Token.plus :: toks)
      = Eval.additiveLoop g (Eval.plus v w) rest := by
  rw [Eval.additiveLoop.eq_def]
  dsimp only
  rw [h]

theorem additiveLoop_minus (g : Nat) (v w : Eval.Value) (toks rest : List Eval.Token)
    (h : Eval.parseMultiplicative g toks = some (w, rest)) :
    Eval.additiveLoop (g + 1) v (Eval.Token.minus :: toks)
      = Eval.additiveLoop g (Eval.Value.num (v.toNumber.sub w.toNumber)) rest := by
  rw [Eval.additiveLoop.eq_def]
  dsimp only
  rw [h]

theorem parse_wellFormed (e : Spec.Expr) (hwf : e.wellFormed = true) :
    (e.level = 0 → ∀ rest fuel, rest.head? ≠ some Eval.Token.lparen →
      rest.head? ≠ some Eval.Token.pow → e.depth ≤ fuel →
      Eval.parseExponent fuel (e.tokens ++ rest) = some (Eval.Value.num e.value, rest))
    ∧ (e.level ≤ 1 → ∀ rest g r fuel, rest.head? ≠ some Eval.Token.lparen →
      rest.head? ≠ some Eval.Token.pow →
      Eval.multiplicativeLoop g (Eval.Value.num e.value) rest = some r →
      g + e.depth + 1 ≤ fuel →
      Eval.parseMultiplicative fuel (e.tokens ++ rest) = some r)
    ∧ (∀ rest g r fuel, rest.head? ≠ some Eval.Token.lparen →
      rest.head? ≠ some Eval.Token.pow → rest.head? ≠ some Eval.Token.star →
      rest.head? ≠ some Eval.Token.slash →
      Eval.additiveLoop g (Eval.Value.num e.value) rest = some r →
      g + e.depth + 3 ≤ fuel →
      Eval.parseAdditive fuel (e.tokens ++ rest) = some r) := by
  induction e with
  | lit int frac =>
    have hE : ∀ rest fuel, rest.head? ≠ some Eval.Token.lparen →
        rest.head? ≠ some Eval.Token.pow → (Spec.Expr.lit int frac).depth ≤ fuel →
        Eval.parseExponent fuel ((Spec.Expr.lit int frac).tokens ++ rest)
          = some (Eval.Value.num (Spec.Expr.lit int frac).value, rest) := by
      intro rest fuel hl hp hfuel
      obtain ⟨f, rfl⟩ : ∃ f, fuel = f + 2 :=
        ⟨fuel - 2, by simp only [Spec.Expr.depth] at hfuel; omega⟩
      exact parseExponent_num _ rest f hl hp
    have hM := parseMultiplicative_of_parseExponent _ _ _ hE
    exact ⟨fun _ => hE, fun _ => hM, parseAdditive_of_parseMultiplicative _ _ _ hM⟩
  | paren e ih =>
    have hwf' : e.wellFormed = true := by simpa only [Spec.Expr.wellFormed] using hwf
    obtain ⟨_, _, ihA⟩ := ih hwf'
    have hE : ∀ rest fuel, rest.head? ≠ some Eval.Token.lparen →
        rest.head? ≠ some Eval.Token.pow → (Spec.Expr.paren e).depth ≤ fuel →
        Eval.parseExponent fuel ((Spec.Expr.paren e).tokens ++ rest)
          = some (Eval.Value.num (Spec.Expr.paren e).value, rest) := by
      intro rest fuel hl hp hfuel
      obtain ⟨f, rfl⟩ : ∃ f, fuel = f + 2 :=
        ⟨fuel - 2, by simp only [Spec.Expr.depth] at hfuel; omega⟩
      have hinner := ihA (Eval.Token.rparen :: rest) 1
        (Eval.Value.num e.value, Eval.Token.rparen :: rest) f (by simp) (by simp) (by simp)
        (by simp) (additiveLoop_done 0 _ _ (by simp) (by simp))
        (by simp only [Spec.Expr.depth] at hfuel; omega)
      have htoks : (Spec.Expr.paren e).tokens ++ rest
          = Eval.Token.lparen :: (e.tokens ++ Eval.Token.rparen :: rest) := by
        simp [Spec.Expr.tokens]
      rw [htoks]
      exact parseExponent_lparen _ _ rest f hl hp hinner
    have hM := parseMultiplicative_of_parseExponent _ _ _ hE
    exact ⟨fun _ => hE, fun _ => hM, parseAdditive_of_parseMultiplicative _ _ _ hM⟩
  | add a b iha ihb =>
    have hw : a.wellFormed = true ∧ b.wellFormed = true ∧ b.level ≤ 1 := by
      simpa [Spec.Expr.wellFormed, and_assoc] using hwf
    obtain ⟨_, _, ihaA⟩ := iha hw.1
    obtain ⟨_, ihbM, _⟩ := ihb hw.2.1
    refine ⟨fun h => by simp [Spec.Expr.level] at h, fun h => by simp [Spec.Expr.level] at h, ?_⟩
    intro rest g r fuel hl hp hstar hslash hloop hfuel
    have hb := ihbM hw.2.2 rest 1 (Eval.Value.num b.value, rest) (g + b.depth + 2) hl hp
      (multiplicativeLoop_done 0 _ _ hstar hslash) (by omega)
    have hloop' := additiveLoop_mono g (g + b.depth + 2) (by omega) _ _ _ hloop
    have htoks : (Spec.Expr.add a b).tokens ++ rest
        = a.tokens ++ Eval.Token.plus :: (b.tokens ++ rest) := by
      simp [Spec.Expr.tokens]
    rw [htoks]
    apply ihaA (Eval.Token.plus :: (b.tokens ++ rest)) (g + b.depth + 2 + 1) r fuel
      (by simp) (by simp) (by simp) (by simp)
    · rw [additiveLoop_plus _ _ _ _ _ hb]
      exact hloop'
    · simp only [Spec.Expr.depth] at hfuel
      omega
  | sub a b iha ihb =>
    have hw : a.wellFormed = true ∧ b.wellFormed = true ∧ b.level ≤ 1 := by
      simpa [Spec.Expr.wellFormed, and_assoc] using hwf
    obtain ⟨_, _, ihaA⟩ := iha hw.1
    obtain ⟨_, ihbM, _⟩ := ihb hw.2.1
    refine ⟨fun h => by simp [Spec.Expr.level] at h, fun h => by simp [Spec.Expr.level] at h, ?_⟩
    intro rest g r fuel hl hp hstar hslash hloop hfuel
    have hb := ihbM hw.2.2 rest 1 (Eval.Value.num b.value, rest) (g + b.depth + 2) hl hp
      (multiplicativeLoop_done 0 _ _ hstar hslash) (by omega)
    have hloop' := additiveLoop_mono g (g + b.depth + 2) (by omega) _ _ _ hloop
    have htoks : (Spec.Expr.sub a b).tokens ++ rest
        = a.tokens ++ Eval.Token.minus :: (b.tokens ++ rest) := by
      simp [Spec.Expr.tokens]
    rw [htoks]
    apply ihaA (Eval.Token.minus :: (b.tokens ++ rest)) (g + b.depth + 2 + 1) r fuel
      (by simp) (by simp) (by simp) (by simp)
    · rw [additiveLoop_minus _ _ _ _ _ hb]
      exact hloop'
    · simp only [Spec.Expr.depth] at hfuel
      omega
  | mul a b iha ihb =>
    have hw : a.wellFormed = true ∧ b.wellFormed = true ∧ a.level ≤ 1 ∧ b.level = 0 := by
      simpa [Spec.Expr.wellFormed, and_assoc] using hwf
    obtain ⟨_, ihaM, _⟩ := iha hw.1
    obtain ⟨ihbE, _, _⟩ := ihb hw.2.1
    have hM : ∀ rest g r fuel, rest.head? ≠ some Eval.Token.lparen →
        rest.head? ≠ some Eval.Token.pow →
        Eval.multiplicativeLoop g (Eval.Value.num (Spec.Expr.mul a b).value) rest = some r →
        g + (Spec.Expr.mul a b).depth + 1 ≤ fuel →
        Eval.parseMultiplicative fuel ((Spec.Expr.mul a b).tokens ++ rest) = some r := by
      intro rest g r fuel hl hp hloop hfuel
      have hb := ihbE hw.2.2.2 rest (g + b.depth) hl hp (by omega)
      have hloop' := multiplicativeLoop_mono g (g + b.depth) (by omega) _ _ _ hloop
      have htoks : (Spec.Expr.mul a b).tokens ++ rest
          = a.tokens ++ Eval.Token.star :: (b.tokens ++ rest) := by
        simp [Spec.Expr.tokens]
      rw [htoks]
      apply ihaM hw.2.2.1 (Eval.Token.star :: (b.tokens ++ rest)) (g + b.depth + 1) r fuel
        (by simp) (by simp)
      · rw [multiplicativeLoop_star _ _ _ _ _ hb]
        exact hloop'
      · simp only [Spec.Expr.depth] at hfuel
        omega
    exact ⟨fun h => by simp [Spec.Expr.level] at h, fun _ => hM,
      parseAdditive_of_parseMultiplicative _ _ _ hM⟩
  | div a b iha ihb =>
    have hw : a.wellFormed = true ∧ b.wellFormed = true ∧ a.level ≤ 1 ∧ b.level = 0 := by
      simpa [Spec.Expr.wellFormed, and_assoc] using hwf
    obtain ⟨_, ihaM, _⟩ := iha hw.1
    obtain ⟨ihbE, _, _⟩ := ihb hw.2.1
    have hM : ∀ rest g r fuel, rest.head? ≠ some Eval.Token.lparen →
        rest.head? ≠ some Eval.Token.pow →
        Eval.multiplicativeLoop g (Eval.Value.num (Spec.Expr.div a b).value) rest = some r →
        g + (Spec.Expr.div a b).depth + 1 ≤ fuel →
        Eval.parseMultiplicative fuel ((Spec.Expr.div a b).tokens ++ rest) = some r := by
      intro rest g r fuel hl hp hloop hfuel
      have hb := ihbE hw.2.2.2 rest (g + b.depth) hl hp (by omega)
      have hloop' := multiplicativeLoop_mono g (g + b.depth) (by omega) _ _ _ hloop
      have htoks : (Spec.Expr.div a b).tokens ++ rest
          = a.tokens ++ Eval.Token.slash :: (b.tokens ++ rest) := by
        simp [Spec.Expr.tokens]
      rw [htoks]
      apply ihaM hw.2.2.1 (Eval.Token.slash :: (b.tokens ++ rest)) (g + b.depth + 1) r fuel
        (by simp) (by simp)
      · rw [multiplicativeLoop_slash _ _ _ _ _ hb]
        exact hloop'
      · simp only [Spec.Expr.depth] at hfuel
        omega
    exact ⟨fun h => by simp [Spec.Expr.level] at h, fun _ => hM,
      parseAdditive_of_parseMultiplicative _ _ _ hM⟩

/-! ### The tokenizer reads every well-formed expression -/

theorem takeWhile_digits_append (l rest : List Char) (hl : l.all JS.isDigit = true)
    (hr : Eval.startsWithDigit rest = false) :
    (l ++ rest).takeWhile JS.isDigit = l ∧ (l ++ rest).dropWhile JS.isDigit = rest := by
  induction l with
  | nil =>
    rcases rest with _ | ⟨c, rest⟩
    · simp
    · simp only [Eval.startsWithDigit] at hr
      simp [List.takeWhile, List.dropWhile, hr]
  | cons c l ih =>
    simp only [List.all_cons, Bool.and_eq_true] at hl
    obtain ⟨ih1, ih2⟩ := ih hl.2
    simp [List.takeWhile, List.dropWhile, hl.1, ih1, ih2]

theorem consToken_eq_map (t : Eval.Token) (o : Option (List Eval.Token)) :
    Eval.consToken t o = o.map (fun ts => t :: ts) := by
  cases o <;> rfl

theorem isDigit_not_operator (c : Char) (h : JS.isDigit c = true) :
    c ≠ '/' ∧ c ≠ '+' ∧ c ≠ '-' ∧ c ≠ '*' ∧ c ≠ '(' ∧ c ≠ ')' ∧ c ≠ '.' := by
  refine ⟨?_, ?_, ?_, ?_, ?_, ?_, ?_⟩ <;> (rintro rfl; revert h; decide)

theorem tokenize_lit (int frac : List Char)
    (hwf : (Spec.Expr.lit int frac).wellFormed = true) (fuel : Nat) (operand : Bool)
    (rest : List Char) (hr : Eval.startsWithDigit rest = false)
    (hdot : rest.head? ≠ some '.') :
    Eval.tokenize (fuel + 1) operand ((Spec.Expr.lit int frac).text ++ rest)
      = Eval.consToken
          (Eval.Token.num (JS.decimalValue false (int ++ frac) (-(frac.length : Int))))
          (Eval.tokenize fuel true rest) := by
  simp only [Spec.Expr.wellFormed, Bool.and_eq_true, decide_eq_true_eq] at hwf
  obtain ⟨⟨⟨hne, hint⟩, hzero⟩, hfrac⟩ := hwf
  rcases int with _ | ⟨c, cs⟩
  · exact absurd rfl hne
  simp only [List.all_cons, Bool.and_eq_true] at hint
  obtain ⟨hc, hcs⟩ := hint
  obtain ⟨h1, h2, h3, h4, h5, h6, h7⟩ := isDigit_not_operator c hc
  by_cases hf : frac = []
  · subst hf
    have hz : ¬ (c = '0' ∧ Eval.startsWithDigit (cs ++ rest) = true) := by
      rintro ⟨hc0, hsd⟩
      rcases hzero with h | h
      · simp only [List.cons.injEq] at h
        rw [h.2, List.nil_append, hr] at hsd
        exact Bool.false_ne_true hsd
      · exact h (by simp [hc0])
    obtain ⟨ht, hd⟩ := takeWhile_digits_append cs rest hcs hr
    simp only [Spec.Expr.text, if_true, List.cons_append]
    rw [Eval.tokenize.eq_def]
    dsimp only
    rw [if_neg h1, if_neg h2, if_neg h3, if_neg h4, if_neg h5, if_neg h6, if_neg h7, if_pos hc,
      if_neg hz, hd, ht]
    split
    · exact absurd rfl hdot
    · simp
  · have hz : ¬ (c = '0' ∧ Eval.startsWithDigit (cs ++ ('.' :: (frac ++ rest))) = true) := by
      rintro ⟨hc0, hsd⟩
      rcases hzero with h | h
      · simp only [List.cons.injEq] at h
        rw [h.2, List.nil_append] at hsd
        have hdotdigit : JS.isDigit '.' = false := by decide
        simp only [Eval.startsWithDigit, hdotdigit] at hsd
        exact Bool.false_ne_true hsd
      · exact h (by simp [hc0])
    have hdotstart : Eval.startsWithDigit ('.' :: (frac ++ rest)) = false := by
      have hdotdigit : JS.isDigit '.' = false := by decide
      simp only [Eval.startsWithDigit, hdotdigit]
    obtain ⟨ht, hd⟩ := takeWhile_digits_append cs ('.' :: (frac ++ rest)) hcs hdotstart
    obtain ⟨ht', hd'⟩ := takeWhile_digits_append frac rest hfrac hr
    simp only [Spec.Expr.text, hf, if_false, List.cons_append, List.append_assoc]
    rw [Eval.tokenize.eq_def]
    dsimp only
    rw [if_neg h1, if_neg h2, if_neg h3, if_neg h4, if_neg h5, if_neg h6, if_neg h7, if_pos hc,
      if_neg hz, hd]
    simp [ht, ht', hd']

theorem text_head (e : Spec.Expr) (hwf : e.wellFormed = true) :
    ∃ c tl, e.text = c :: tl ∧ (JS.isDigit c = true ∨ c = '(') := by
  induction e with
  | lit int frac =>
    simp only [Spec.Expr.wellFormed, Bool.and_eq_true, decide_eq_true_eq] at hwf
    obtain ⟨⟨⟨hne, hint⟩, _⟩, _⟩ := hwf
    rcases int with _ | ⟨c, cs⟩
    · exact absurd rfl hne
    simp only [List.all_cons, Bool.and_eq_true] at hint
    by_cases hf : frac = []
    · exact ⟨c, cs, by simp [Spec.Expr.text, hf], Or.inl hint.1⟩
    · exact ⟨c, cs ++ '.' :: frac, by simp [Spec.Expr.text, hf], Or.inl hint.1⟩
  | paren e _ => exact ⟨'(', e.text ++ [')'], rfl, Or.inr rfl⟩
  | add a b iha _ =>
    have hw : a.wellFormed = true := by
      simp only [Spec.Expr.wellFormed, Bool.and_eq_true] at hwf
      exact hwf.1.1
    obtain ⟨c, tl, htext, hc⟩ := iha hw
    exact ⟨c, tl ++ '+' :: b.text, by simp [Spec.Expr.text, htext], hc⟩
  | sub a b iha _ =>
    have hw : a.wellFormed = true := by
      simp only [Spec.Expr.wellFormed, Bool.and_eq_true] at hwf
      exact hwf.1.1
    obtain ⟨c, tl, htext, hc⟩ := iha hw
    exact ⟨c, tl ++ '-' :: b.text, by simp [Spec.Expr.text, htext], hc⟩
  | mul a b iha _ =>
    have hw : a.wellFormed = true := by
      simp only [Spec.Expr.wellFormed, Bool.and_eq_true] at hwf
      exact hwf.1.1.1
    obtain ⟨c, tl, htext, hc⟩ := iha hw
    exact ⟨c, tl ++ '*' :: b.text, by simp [Spec.Expr.text, htext], hc⟩
  | div a b iha _ =>
    have hw : a.wellFormed = true := by
      simp only [Spec.Expr.wellFormed, Bool.and_eq_true] at hwf
      exact hwf.1.1.1
    obtain ⟨c, tl, htext, hc⟩ := iha hw
    exact ⟨c, tl ++ '/' :: b.text, by simp [Spec.Expr.text, htext], hc⟩

theorem operand_start (c : Char) (h : JS.isDigit c = true ∨ c = '(') :
    c ≠ '/' ∧ c ≠ '+' ∧ c ≠ '-' ∧ c ≠ '*' := by
  rcases h with h | rfl
  · obtain ⟨h1, h2, h3, h4, _⟩ := isDigit_not_operator c h
    exact ⟨h1, h2, h3, h4⟩
  · decide

theorem tokenize_plus (fuel : Nat) (operand : Bool) (c : Char) (tl : List Char)
    (h : JS.isDigit c = true ∨ c = '(') :
    Eval.tokenize (fuel + 1) operand ('+' :: c :: tl)
      = Eval.consToken Eval.Token.plus (Eval.tokenize fuel false (c :: tl)) := by
  obtain ⟨_, h2, _, _⟩ := operand_start c h
  rw [Eval.tokenize.eq_def]
  dsimp only
  rw [if_neg (by decide), if_pos rfl]
  split
  · rename_i heq
    simp only [List.cons.injEq] at heq
    exact absurd heq.1 h2
  · rfl

theorem tokenize_minus (fuel : Nat) (operand : Bool) (c : Char) (tl : List Char)
    (h : JS.isDigit c = true ∨ c = '(') :
    Eval.tokenize (fuel + 1) operand ('-' :: c :: tl)
      = Eval.consToken Eval.Token.minus (Eval.tokenize fuel false (c :: tl)) := by
  obtain ⟨_, _, h3, _⟩ := operand_start c h
  rw [Eval.tokenize.eq_def]
  dsimp only
  rw [if_neg (by decide), if_neg (by decide), if_pos rfl]
  split
  · rename_i heq
    simp only [List.cons.injEq] at heq
    exact absurd heq.1 h3
  · rfl

theorem tokenize_star (fuel : Nat) (operand : Bool) (c : Char) (tl : List Char)
    (h : JS.isDigit c = true ∨ c = '(') :
    Eval.tokenize (fuel + 1) operand ('*' :: c :: tl)
      = Eval.consToken Eval.Token.star (Eval.tokenize fuel false (c :: tl)) := by
  obtain ⟨_, _, _, h4⟩ := operand_start c h
  rw [Eval.tokenize.eq_def]
  dsimp only
  rw [if_neg (by decide), if_neg (by decide), if_neg (by decide), if_pos rfl]
  split
  · rename_i heq
    simp only [List.cons.injEq] at heq
    exact absurd heq.1 h4
  · rfl

theorem tokenize_slash (fuel : Nat) (c : Char) (tl : List Char)
    (h : JS.isDigit c = true ∨ c = '(') :
    Eval.tokenize (fuel + 1) true ('/' :: c :: tl)
      = Eval.consToken Eval.Token.slash (Eval.tokenize fuel false (c :: tl)) := by
  obtain ⟨h1, _, _, h4⟩ := operand_start c h
  rw [Eval.tokenize.eq_def]
  dsimp only
  rw [if_pos rfl, if_neg h1, if_neg h4, if_pos rfl]

theorem tokenize_lparen (fuel : Nat) (operand : Bool) (cs : List Char) :
    Eval.tokenize (fuel + 1) operand ('(' :: cs)
      = Eval.consToken Eval.Token.lparen (Eval.tokenize fuel false cs) := by
  rw [Eval.tokenize.eq_def]
  dsimp only
  rw [if_neg (by decide), if_neg (by decide), if_neg (by decide), if_neg (by decide),
    if_pos rfl]

theorem tokenize_rparen (fuel : Nat) (operand : Bool) (cs : List Char) :
    Eval.tokenize (fuel + 1) operand (')' :: cs)
      = Eval.consToken Eval.Token.rparen (Eval.tokenize fuel true cs) := by
  rw [Eval.tokenize.eq_def]
  dsimp only
  rw [if_neg (by decide), if_neg (by decide), if_neg (by decide), if_neg (by decide),
    if_neg (by decide), if_pos rfl]

theorem tokenize_wellFormed (e : Spec.Expr) (hwf : e.wellFormed = true) :
    ∀ (fuel : Nat) (operand : Bool) (rest : List Char),
      Eval.startsWithDigit rest = false → rest.head? ≠ some '.' →
      Eval.tokenize (fuel + e.tokens.length) operand (e.text ++ rest)
        = (Eval.tokenize fuel true rest).map (fun ts => e.tokens ++ ts) := by
  induction e with
  | lit int frac =>
    intro fuel operand rest hr hdot
    simp only [Spec.Expr.tokens, List.length_singleton]
    rw [tokenize_lit int frac hwf fuel operand rest hr hdot, consToken_eq_map]
    rfl
  | paren e ih =>
    have hw : e.wellFormed = true := by simpa only [Spec.Expr.wellFormed] using hwf
    intro fuel operand rest hr hdot
    have hlen : fuel + (Spec.Expr.paren e).tokens.length
        = (fuel + 1 + e.tokens.length) + 1 := by
      simp [Spec.Expr.tokens]
      omega
    have htext : (Spec.Expr.paren e).text ++ rest = '(' :: (e.text ++ ')' :: rest) := by
      simp [Spec.Expr.text]
    have hrp : Eval.startsWithDigit (')' :: rest) = false := by
      have : JS.isDigit ')' = false := by decide
      simp only [Eval.startsWithDigit, this]
    rw [hlen, htext, tokenize_lparen, ih hw (fuel + 1) false (')' :: rest) hrp (by simp),
      tokenize_rparen, consToken_eq_map, consToken_eq_map]
    cases Eval.tokenize fuel true rest <;> simp [Spec.Expr.tokens]
  | add a b iha ihb =>
    have hw : a.wellFormed = true ∧ b.wellFormed = true := by
      simp only [Spec.Expr.wellFormed, Bool.and_eq_true] at hwf
      exact hwf.1
    intro fuel operand rest hr hdot
    obtain ⟨c, tl, hb, hc⟩ := text_head b hw.2
    have hlen : fuel + (Spec.Expr.add a b).tokens.length
        = (fuel + b.tokens.length + 1) + a.tokens.length := by
      simp [Spec.Expr.tokens]
      omega
    have htext : (Spec.Expr.add a b).text ++ rest = a.text ++ '+' :: (b.text ++ rest) := by
      simp [Spec.Expr.text]
    have hop : Eval.startsWithDigit ('+' :: (b.text ++ rest)) = false := by
      have : JS.isDigit '+' = false := by decide
      simp only [Eval.startsWithDigit, this]
    rw [hlen, htext, iha hw.1 _ operand _ hop (by simp)]
    have hstep : Eval.tokenize (fuel + b.tokens.length + 1) true ('+' :: (b.text ++ rest))
        = Eval.consToken Eval.Token.plus
            (Eval.tokenize (fuel + b.tokens.length) false (b.text ++ rest)) := by
      rw [hb, List.cons_append]
      exact tokenize_plus _ _ c _ hc
    rw [hstep, ihb hw.2 fuel false rest hr hdot, consToken_eq_map]
    cases Eval.tokenize fuel true rest <;> simp [Spec.Expr.tokens]
  | sub a b iha ihb =>
    have hw : a.wellFormed = true ∧ b.wellFormed = true := by
      simp only [Spec.Expr.wellFormed, Bool.and_eq_true] at hwf
      exact hwf.1
    intro fuel operand rest hr hdot
    obtain ⟨c, tl, hb, hc⟩ := text_head b hw.2
    have hlen : fuel + (Spec.Expr.sub a b).tokens.length
        = (fuel + b.tokens.length + 1) + a.tokens.length := by
      simp [Spec.Expr.tokens]
      omega
    have htext : (Spec.Expr.sub a b).text ++ rest = a.text ++ '-' :: (b.text ++ rest) := by
      simp [Spec.Expr.text]
    have hop : Eval.startsWithDigit ('-' :: (b.text ++ rest)) = false := by
      have : JS.isDigit '-' = false := by decide
      simp only [Eval.startsWithDigit, this]
    rw [hlen, htext, iha hw.1 _ operand _ hop (by simp)]
    have hstep : Eval.tokenize (fuel + b.tokens.length + 1) true ('-' :: (b.text ++ rest))
        = Eval.consToken Eval.Token.minus
            (Eval.tokenize (fuel + b.tokens.length) false (b.text ++ rest)) := by
      rw [hb, List.cons_append]
      exact tokenize_minus _ _ c _ hc
    rw [hstep, ihb hw.2 fuel false rest hr hdot, consToken_eq_map]
    cases Eval.tokenize fuel true rest <;> simp [Spec.Expr.tokens]
  | mul a b iha ihb =>
    have hw : a.wellFormed = true ∧ b.wellFormed = true := by
      simp only [Spec.Expr.wellFormed, Bool.and_eq_true] at hwf
      exact hwf.1.1
    intro fuel operand rest hr hdot
    obtain ⟨c, tl, hb, hc⟩ := text_head b hw.2
    have hlen : fuel + (Spec.Expr.mul a b).tokens.length
        = (fuel + b.tokens.length + 1) + a.tokens.length := by
      simp [Spec.Expr.tokens]
      omega
    have htext : (Spec.Expr.mul a b).text ++ rest = a.text ++ '*' :: (b.text ++ rest) := by
      simp [Spec.Expr.text]
    have hop : Eval.startsWithDigit ('*' :: (b.text ++ rest)) = false := by
      have : JS.isDigit '*' = false := by decide
      simp only [Eval.startsWithDigit, this]
    rw [hlen, htext, iha hw.1 _ operand _ hop (by simp)]
    have hstep : Eval.tokenize (fuel + b.tokens.length + 1) true ('*' :: (b.text ++ rest))
        = Eval.consToken Eval.Token.star
            (Eval.tokenize (fuel + b.tokens.length) false (b.text ++ rest)) := by
      rw [hb, List.cons_append]
      exact tokenize_star _ _ c _ hc
    rw [hstep, ihb hw.2 fuel false rest hr hdot, consToken_eq_map]
    cases Eval.tokenize fuel true rest <;> simp [Spec.Expr.tokens]
  | div a b iha ihb =>
    have hw : a.wellFormed = true ∧ b.wellFormed = true := by
      simp only [Spec.Expr.wellFormed, Bool.and_eq_true] at hwf
      exact hwf.1.1
    intro fuel operand rest hr hdot
    obtain ⟨c, tl, hb, hc⟩ := text_head b hw.2
    have hlen : fuel + (Spec.Expr.div a b).tokens.length
        = (fuel + b.tokens.length + 1) + a.tokens.length := by
      simp [Spec.Expr.tokens]
      omega
    have htext : (Spec.Expr.div a b).text ++ rest = a.text ++ '/' :: (b.text ++ rest) := by
      simp [Spec.Expr.text]
    have hop : Eval.startsWithDigit ('/' :: (b.text ++ rest)) = false := by
      have : JS.isDigit '/' = false := by decide
      simp only [Eval.startsWithDigit, this]
    rw [hlen, htext, iha hw.1 _ operand _ hop (by simp)]
    have hstep : Eval.tokenize (fuel + b.tokens.length + 1) true ('/' :: (b.text ++ rest))
        = Eval.consToken Eval.Token.slash
            (Eval.tokenize (fuel + b.tokens.length) false (b.text ++ rest)) := by
      rw [hb, List.cons_append]
      exact tokenize_slash _ c _ hc
    rw [hstep, ihb hw.2 fuel false rest hr hdot, consToken_eq_map]
    cases Eval.tokenize fuel true rest <;> simp [Spec.Expr.tokens]

theorem tokens_length_le_text (e : Spec.Expr) (hwf : e.wellFormed = true) :
    e.tokens.length ≤ e.text.length := by
  induction e with
  | lit int frac =>
    simp only [Spec.Expr.wellFormed, Bool.and_eq_true, decide_eq_true_eq] at hwf
    obtain ⟨⟨⟨hne, _⟩, _⟩, _⟩ := hwf
    rcases int with _ | ⟨c, cs⟩
    · exact absurd rfl hne
    by_cases hf : frac = [] <;> simp [Spec.Expr.tokens, Spec.Expr.text, hf]
  | paren e ih =>
    have := ih (by simpa only [Spec.Expr.wellFormed] using hwf)
    simp [Spec.Expr.tokens, Spec.Expr.text]
    omega
  | add a b iha ihb =>
    simp only [Spec.Expr.wellFormed, Bool.and_eq_true] at hwf
    have := iha hwf.1.1
    have := ihb hwf.1.2
    simp [Spec.Expr.tokens, Spec.Expr.text]
    omega
  | sub a b iha ihb =>
    simp only [Spec.Expr.wellFormed, Bool.and_eq_true] at hwf
    have := iha hwf.1.1
    have := ihb hwf.1.2
    simp [Spec.Expr.tokens, Spec.Expr.text]
    omega
  | mul a b iha ihb =>
    simp only [Spec.Expr.wellFormed, Bool.and_eq_true] at hwf
    have := iha hwf.1.1.1
    have := ihb hwf.1.1.2
    simp [Spec.Expr.tokens, Spec.Expr.text]
    omega
  | div a b iha ihb =>
    simp only [Spec.Expr.wellFormed, Bool.and_eq_true] at hwf
    have := iha hwf.1.1.1
    have := ihb hwf.1.1.2
    simp [Spec.Expr.tokens, Spec.Expr.text]
    omega

theorem depth_le_tokens (e : Spec.Expr) : e.depth ≤ 3 * e.tokens.length := by
  induction e with
  | lit int frac => simp [Spec.Expr.depth, Spec.Expr.tokens]
  | paren e ih =>
    simp [Spec.Expr.depth, Spec.Expr.tokens]
    omega
  | add a b iha ihb =>
    simp [Spec.Expr.depth, Spec.Expr.tokens]
    omega
  | sub a b iha ihb =>
    simp [Spec.Expr.depth, Spec.Expr.tokens]
    omega
  | mul a b iha ihb =>
    simp [Spec.Expr.depth, Spec.Expr.tokens]
    omega
  | div a b iha ihb =>
    simp [Spec.Expr.depth, Spec.Expr.tokens]
    omega

theorem text_allowed (e : Spec.Expr) (hwf : e.wellFormed = true) :
    e.text.all Server.allowedChar = true := by
  have hdigits : ∀ l : List Char, l.all JS.isDigit = true →
      l.all Server.allowedChar = true := by
    intro l hl
    rw [List.all_eq_true] at hl ⊢
    intro c hc
    simp [Server.allowedChar, hl c hc]
  induction e with
  | lit int frac =>
    simp only [Spec.Expr.wellFormed, Bool.and_eq_true, decide_eq_true_eq] at hwf
    obtain ⟨⟨⟨_, hint⟩, _⟩, hfrac⟩ := hwf
    have hdot : Server.allowedChar '.' = true := by decide
    by_cases hf : frac = []
    · simp [Spec.Expr.text, hf, hdigits int hint]
    · simp [Spec.Expr.text, hf, hdigits int hint, hdigits frac hfrac, hdot]
  | paren e ih =>
    have := ih (by simpa only [Spec.Expr.wellFormed] using hwf)
    have hl : Server.allowedChar '(' = true := by decide
    have hr : Server.allowedChar ')' = true := by decide
    simp [Spec.Expr.text, this, hl, hr]
  | add a b iha ihb =>
    simp only [Spec.Expr.wellFormed, Bool.and_eq_true] at hwf
    have hop : Server.allowedChar '+' = true := by decide
    simp [Spec.Expr.text, iha hwf.1.1, ihb hwf.1.2, hop]
  | sub a b iha ihb =>
    simp only [Spec.Expr.wellFormed, Bool.and_eq_true] at hwf
    have hop : Server.allowedChar '-' = true := by decide
    simp [Spec.Expr.text, iha hwf.1.1, ihb hwf.1.2, hop]
  | mul a b iha ihb =>
    simp only [Spec.Expr.wellFormed, Bool.and_eq_true] at hwf
    have hop : Server.allowedChar '*' = true := by decide
    simp [Spec.Expr.text, iha hwf.1.1.1, ihb hwf.1.1.2, hop]
  | div a b iha ihb =>
    simp only [Spec.Expr.wellFormed, Bool.and_eq_true] at hwf
    have hop : Server.allowedChar '/' = true := by decide
    simp [Spec.Expr.text, iha hwf.1.1.1, ihb hwf.1.1.2, hop]

theorem jsEval_wellFormed (e : Spec.Expr) (hwf : e.wellFormed = true) :
    Eval.jsEval e.text = some (Eval.Value.num e.value) := by
  have hlen := tokens_length_le_text e hwf
  have hdepth := depth_le_tokens e
  obtain ⟨f, hf⟩ : ∃ f, e.text.length + 3 = (f + 1 + 1 + e.tokens.length) + 1 :=
    ⟨e.text.length - e.tokens.length, by omega⟩
  have hrp : Eval.startsWithDigit [')'] = false := by decide
  have hnil : Eval.tokenize (f + 1) true [] = some [] := by
    rw [Eval.tokenize.eq_def]
  have htok : Eval.tokenize (e.text.length + 3) false ('(' :: e.text ++ [')'])
      = some (Spec.Expr.paren e).tokens := by
    rw [hf, List.cons_append, tokenize_lparen,
      tokenize_wellFormed e hwf (f + 1 + 1) false [')'] hrp (by simp), tokenize_rparen, hnil]
    simp [Eval.consToken, Spec.Expr.tokens]
  have hwfp : (Spec.Expr.paren e).wellFormed = true := by
    simpa only [Spec.Expr.wellFormed] using hwf
  have hparse := (parse_wellFormed (Spec.Expr.paren e) hwfp).2.2 [] 1
    (Eval.Value.num e.value, []) (6 * (Spec.Expr.paren e).tokens.length + 6)
    (by simp) (by simp) (by simp) (by simp) (additiveLoop_done 0 _ _ (by simp) (by simp))
    (by simp [Spec.Expr.depth, Spec.Expr.tokens]; omega)
  rw [List.append_nil] at hparse
  simp only [Eval.jsEval, htok, hparse]

/-- C8 (amended): for every well-formed arithmetic expression over decimal literals (an
integer part without a superfluous leading zero, then possibly a point and fraction digits),
`+ - * /` and parentheses that is nested at most 100 levels deep, parentheses and operators
counted, and whose value in binary64 arithmetic is finite, and for every string whose text
without white space is that expression, the evaluate entry point returns the value obtained
under the standard precedence and grouping in binary64 arithmetic, rounded by
`Math.round(x * 1e10) / 1e10`. In particular `2+2` yields 4 and `10/3` yields the Number
whose text is `3.3333333333`. -/
theorem apiEvaluate_wellFormed :
    (∀ (e : Spec.Expr) (s : String), e.wellFormed = true → Server.sanitize s = e.text →
      e.nesting ≤ 100 → e.value.isFinite = true →
      Server.apiEvaluate (JSValue.str s) = Server.EvalResponse.ok (Server.round10 e.value) s)
    ∧ Server.apiEvaluate (JSValue.str "2+2") = Server.EvalResponse.ok (JSNumber.ofNat 4) "2+2"
    ∧ Server.apiEvaluate (JSValue.str "10/3")
        = Server.EvalResponse.ok (JSNumber.roundRat false 33333333333 (10 ^ 10)) "10/3"
    ∧ JS.numberToString (JSNumber.roundRat false 33333333333 (10 ^ 10)) = "3.3333333333" := by
  refine ⟨?_, by decide!, by decide!, by decide!⟩
  intro e s hwf hs _ hfin
  obtain ⟨c, tl, htext, _⟩ := text_head e hwf
  have hne : s ≠ "" := by
    rintro rfl
    rw [htext] at hs
    simp [Server.sanitize] at hs
  have hsan : Server.sanitize s ≠ [] := by
    rw [hs, htext]
    simp
  have hall : (Server.sanitize s).all Server.allowedChar = true := by
    rw [hs]
    exact text_allowed e hwf
  have hcond : ¬ (Server.sanitize s = [] ∨ ¬ (Server.sanitize s).all Server.allowedChar = true) := by
    rintro (h | h)
    · exact hsan h
    · exact h hall
  simp only [Server.apiEvaluate, hne, if_false]
  rw [if_neg hcond, hs, jsEval_wellFormed e hwf]
  simp [Eval.Value.toNumber, hfin]

/-- C8 (as stated) fails: `9007199254740992+1` is a well-formed expression whose value under
exact arithmetic is 9007199254740993, and the evaluate entry point returns
9007199254740992. -/
theorem apiEvaluate_sum_inexact :
    (Spec.Expr.add (Spec.Expr.lit "9007199254740992".data []) (Spec.Expr.lit "1".data [])).text
        = "9007199254740992+1".data
    ∧ (Spec.Expr.add (Spec.Expr.lit "9007199254740992".data [])
        (Spec.Expr.lit "1".data [])).wellFormed = true
    ∧ (Spec.Expr.add (Spec.Expr.lit "9007199254740992".data [])
        (Spec.Expr.lit "1".data [])).exactValue = some 9007199254740993
    ∧ Server.apiEvaluate (JSValue.str "9007199254740992+1")
        = Server.EvalResponse.ok (JSNumber.fin false 4503599627370496 1) "9007199254740992+1"
    ∧ (JSNumber.fin false 4503599627370496 1).toRat = some 9007199254740992
    ∧ (JSNumber.fin false 4503599627370496 1).toRat
        ≠ some (Spec.roundedTo10 9007199254740993) := by
  have hround : Spec.roundedTo10 9007199254740993 = 9007199254740993 := by
    unfold Spec.roundedTo10
    have : (9007199254740993 : ℚ) * 10 ^ 10 = ((90071992547409930000000000 : ℤ) : ℚ) := by
      norm_num
    rw [this, round_intCast]
    norm_num
  have hval : (JSNumber.fin false 4503599627370496 1).toRat = some 9007199254740992 := by
    simp [JSNumber.toRat, JSNumber.absFrac, JSNumber.signed]
  have hd1 : JS.digitsValue "9007199254740992".data = 9007199254740992 := by decide!
  have hd2 : JS.digitsValue "1".data = 1 := by decide!
  refine ⟨by decide!, by decide!, ?_, by decide!, hval, ?_⟩
  · simp only [Spec.Expr.exactValue, List.append_nil, hd1, hd2]
    norm_num
  · rw [hval, hround]
    norm_num

theorem apiEvaluate_wellFormed_witness :
    Server.apiEvaluate (JSValue.str "(1.5 + 2) * 4")
      = Server.EvalResponse.ok
          (Server.round10
            (Spec.Expr.mul
              (Spec.Expr.paren (Spec.Expr.add (Spec.Expr.lit ['1'] ['5']) (Spec.Expr.lit ['2'] [])))
              (Spec.Expr.lit ['4'] [])).value)
          "(1.5 + 2) * 4" :=
  apiEvaluate_wellFormed.1
    (Spec.Expr.mul
      (Spec.Expr.paren (Spec.Expr.add (Spec.Expr.lit ['1'] ['5']) (Spec.Expr.lit ['2'] [])))
      (Spec.Expr.lit ['4'] []))
    "(1.5 + 2) * 4" (by decide) (by decide) (by decide) (by decide!)

theorem handleEquals_success_witness :
    (Client.handleEquals Client.calculate
        { display := "3", previousValue := some (JSNumber.ofNat 7),
          operation := some Client.Operator.plus, waitingForOperand := false,
          history := "7 +", isLoading := false, error := none }).history
        = JS.numberToString (JSNumber.ofNat 7) ++ " " ++ Client.Operator.plus.symbol ++ " "
          ++ JS.numberToString (Client.inputValue
            { display := "3", previousValue := some (JSNumber.ofNat 7),
              operation := some Client.Operator.plus, waitingForOperand := false,
              history := "7 +", isLoading := false, error := none }) ++ " ="
      ∧ (Client.handleEquals Client.calculate
        { display := "3", previousValue := some (JSNumber.ofNat 7),
          operation := some Client.Operator.plus, waitingForOperand := false,
          history := "7 +", isLoading := false, error := none }).display
        = JS.numberToString (JSNumber.ofNat 10)
      ∧ (Client.handleEquals Client.calculate
        { display := "3", previousValue := some (JSNumber.ofNat 7),
          operation := some Client.Operator.plus, waitingForOperand := false,
          history := "7 +", isLoading := false, error := none }).previousValue = none
      ∧ (Client.handleEquals Client.calculate
        { display := "3", previousValue := some (JSNumber.ofNat 7),
          operation := some Client.Operator.plus, waitingForOperand := false,
          history := "7 +", isLoading := false, error := none }).operation = none
      ∧ (Client.handleEquals Client.calculate
        { display := "3", previousValue := some (JSNumber.ofNat 7),
          operation := some Client.Operator.plus, waitingForOperand := false,
          history := "7 +", isLoading := false, error := none }).waitingForOperand = true
      ∧ (Client.handleEquals Client.calculate
        { display := "3", previousValue := some (JSNumber.ofNat 7),
          operation := some Client.Operator.plus, waitingForOperand := false,
          history := "7 +", isLoading := false, error := none }).error = none :=
  handleEquals_success.1 Client.calculate
    { display := "3", previousValue := some (JSNumber.ofNat 7),
      operation := some Client.Operator.plus, waitingForOperand := false,
      history := "7 +", isLoading := false, error := none }
    Client.Operator.plus (JSNumber.ofNat 7) (JSNumber.ofNat 10) rfl rfl rfl (by decide!)

/-! ### Operator, Clear and Clear entry -/

/-- C11: after the Operator transition for the key `op2`, `waitingForOperand` is true and
the pending operator is `op2`, whatever branch was taken and whether or not the service
call succeeded. If a previous value `p` and an operator `op1` were there and
`waitingForOperand` was false, the service is called with `op1` on `p` and the Number of the
display, and on success with result `r` the display is the text of `r`, the previous value is
`r` and the history is `r op2`. If there was no previous value, it becomes the Number `v` of
the display and the history becomes `v op2`, and the service plays no part. -/
theorem handleOperator_effect (svc : Client.Service) (s : Client.State)
    (op2 : Client.Operator) :
    (Client.handleOperator svc op2 s).waitingForOperand = true
    ∧ (Client.handleOperator svc op2 s).operation = some op2
    ∧ (∀ (p r : JSNumber) (op1 : Client.Operator),
        s.previousValue = some p → s.operation = some op1 → s.waitingForOperand = false →
        svc (Client.operationMap op1) p (some (Client.inputValue s)) = Except.ok (some r) →
        (Client.handleOperator svc op2 s).display = JS.numberToString r
          ∧ (Client.handleOperator svc op2 s).previousValue = some r
          ∧ (Client.handleOperator svc op2 s).history
              = JS.numberToString r ++ " " ++ op2.symbol)
    ∧ (s.previousValue = none →
        (Client.handleOperator svc op2 s).previousValue = some (Client.inputValue s)
          ∧ (Client.handleOperator svc op2 s).history
              = JS.numberToString (Client.inputValue s) ++ " " ++ op2.symbol
          ∧ ∀ svc' : Client.Service,
              Client.handleOperator svc' op2 s = Client.handleOperator svc op2 s) := by
  refine ⟨?_, ?_, ?_, ?_⟩
  · unfold Client.handleOperator
    split
    · rfl
    · split_ifs
      · split <;> rfl
      · rfl
    · rfl
  · unfold Client.handleOperator
    split
    · rfl
    · split_ifs
      · split <;> rfl
      · rfl
    · rfl
  · intro p r op1 hprev hop hwait hsvc
    simp [Client.handleOperator, hprev, hop, hwait, hsvc, Client.resultText]
  · intro hprev
    simp [Client.handleOperator, hprev]

theorem handleOperator_effect_witness :
    (Client.handleOperator Client.calculate Client.Operator.times
        { display := "3", previousValue := some (JSNumber.ofNat 7),
          operation := some Client.Operator.plus, waitingForOperand := false,
          history := "7 +", isLoading := false, error := none }).display
        = JS.numberToString (JSNumber.ofNat 10)
    ∧ (Client.handleOperator Client.calculate Client.Operator.times
        { display := "3", previousValue := some (JSNumber.ofNat 7),
          operation := some Client.Operator.plus, waitingForOperand := false,
          history := "7 +", isLoading := false, error := none }).previousValue
        = some (JSNumber.ofNat 10)
    ∧ (Client.handleOperator Client.calculate Client.Operator.times
        { display := "3", previousValue := some (JSNumber.ofNat 7),
          operation := some Client.Operator.plus, waitingForOperand := false,
          history := "7 +", isLoading := false, error := none }).history
        = JS.numberToString (JSNumber.ofNat 10) ++ " " ++ Client.Operator.times.symbol :=
  (handleOperator_effect Client.calculate
    { display := "3", previousValue := some (JSNumber.ofNat 7),
      operation := some Client.Operator.plus, waitingForOperand := false,
      history := "7 +", isLoading := false, error := none }
    Client.Operator.times).2.2.1 (JSNumber.ofNat 7) (JSNumber.ofNat 10) Client.Operator.plus
    rfl rfl rfl (by decide!)

/-- C12: in every state, Clear (AC) yields the state with display `0`, no previous value,
no pending operator, `waitingForOperand` false, empty history and no error; applying Clear
twice is the same as applying it once. -/
theorem handleClear_reset (s : Client.State) :
    (Client.handleClear s).display = "0"
    ∧ (Client.handleClear s).previousValue = none
    ∧ (Client.handleClear s).operation = none
    ∧ (Client.handleClear s).waitingForOperand = false
    ∧ (Client.handleClear s).history = ""
    ∧ (Client.handleClear s).error = none
    ∧ Client.handleClear (Client.handleClear s) = Client.handleClear s :=
  ⟨rfl, rfl, rfl, rfl, rfl, rfl, rfl⟩

/-- C15: when an Operator press triggers a service call (a previous value, a pending
operator, `waitingForOperand` false) and the call fails with message `m`, the previous value
and the history are what they were before, the display is `Error`, the error is `m` and
`isLoading` is false. -/
theorem handleOperator_failure (svc : Client.Service) (s : Client.State)
    (op1 op2 : Client.Operator) (p : JSNumber) (m : String)
    (hprev : s.previousValue = some p) (hop : s.operation = some op1)
    (hwait : s.waitingForOperand = false)
    (hfail : svc (Client.operationMap op1) p (some (Client.inputValue s)) = Except.error m) :
    (Client.handleOperator svc op2 s).previousValue = s.previousValue
    ∧ (Client.handleOperator svc op2 s).history = s.history
    ∧ (Client.handleOperator svc op2 s).display = "Error"
    ∧ (Client.handleOperator svc op2 s).error = some m
    ∧ (Client.handleOperator svc op2 s).isLoading = false := by
  simp [Client.handleOperator, hprev, hop, hwait, hfail]

theorem handleOperator_failure_witness :
    (Client.handleOperator Client.calculate Client.Operator.plus
        { display := "0", previousValue := some (JSNumber.ofNat 5),
          operation := some Client.Operator.divide, waitingForOperand := false,
          history := "5 ÷", isLoading := false, error := none }).previousValue
        = some (JSNumber.ofNat 5)
    ∧ (Client.handleOperator Client.calculate Client.Operator.plus
        { display := "0", previousValue := some (JSNumber.ofNat 5),
          operation := some Client.Operator.divide, waitingForOperand := false,
          history := "5 ÷", isLoading := false, error := none }).history = "5 ÷"
    ∧ (Client.handleOperator Client.calculate Client.Operator.plus
        { display := "0", previousValue := some (JSNumber.ofNat 5),
          operation := some Client.Operator.divide, waitingForOperand := false,
          history := "5 ÷", isLoading := false, error := none }).display = "Error"
    ∧ (Client.handleOperator Client.calculate Client.Operator.plus
        { display := "0", previousValue := some (JSNumber.ofNat 5),
          operation := some Client.Operator.divide, waitingForOperand := false,
          history := "5 ÷", isLoading := false, error := none }).error
        = some "Division by zero"
    ∧ (Client.handleOperator Client.calculate Client.Operator.plus
        { display := "0", previousValue := some (JSNumber.ofNat 5),
          operation := some Client.Operator.divide, waitingForOperand := false,
          history := "5 ÷", isLoading := false, error := none }).isLoading = false :=
  handleOperator_failure Client.calculate
    { display := "0", previousValue := some (JSNumber.ofNat 5),
      operation := some Client.Operator.divide, waitingForOperand := false,
      history := "5 ÷", isLoading := false, error := none }
    Client.Operator.divide Client.Operator.plus (JSNumber.ofNat 5) "Division by zero"
    rfl rfl rfl (by decide!)

/-- C16 (amended): in every state, Clear entry (CE) sets the display to `0` and the error to
null and changes nothing else: previous value, pending operator, `waitingForOperand`,
history and `isLoading` keep their prior values. -/
theorem handleClearEntry_effect (s : Client.State) :
    (Client.handleClearEntry s).display = "0"
    ∧ (Client.handleClearEntry s).error = none
    ∧ (Client.handleClearEntry s).previousValue = s.previousValue
    ∧ (Client.handleClearEntry s).operation = s.operation
    ∧ (Client.handleClearEntry s).waitingForOperand = s.waitingForOperand
    ∧ (Client.handleClearEntry s).history = s.history
    ∧ (Client.handleClearEntry s).isLoading = s.isLoading :=
  ⟨rfl, rfl, rfl, rfl, rfl, rfl, rfl⟩

/-- C16 (as stated) fails: in the state after the keys 5, ÷, 0, =, where the error is the
division-by-zero message, Clear entry does not keep the error: it becomes null. -/
theorem handleClearEntry_clears_error :
    (Client.run Client.calculate
        [Client.Key.digit 5, Client.Key.operator Client.Operator.divide, Client.Key.digit 0,
         Client.Key.equals] Client.initial).error = some "Division by zero"
    ∧ (Client.handleClearEntry
        (Client.run Client.calculate
          [Client.Key.digit 5, Client.Key.operator Client.Operator.divide, Client.Key.digit 0,
           Client.Key.equals] Client.initial)).error = none := by
  decide!

/-! ### Operand validation and the finiteness check -/

theorem apiCalculate_valid_shape (name : String) (o1 o2 : JSValue)
    (hname : name ∈ Spec.operationNames)
    (h1 : o1 ≠ JSValue.undefined) (h1n : o1 ≠ JSValue.null)
    (hnum : (parseFloat o1).isNaN = false) :
    Server.apiCalculate { operation := JSValue.str name, operand1 := o1, operand2 := o2 }
      = if name ∈ ["percentage", "negate", "sqrt"] then
          Server.respond { operation := JSValue.str name, operand1 := o1, operand2 := o2 }
            (parseFloat o1)
            (Server.callProperty (Server.getProperty name) name (parseFloat o1) none)
        else if o2 = JSValue.undefined ∨ o2 = JSValue.null then
          Server.Response.error "operand2 is required for this operation" none
        else if (parseFloat o2).isNaN = true then
          Server.Response.error "operand2 must be a valid number" none
        else
          Server.respond { operation := JSValue.str name, operand1 := o1, operand2 := o2 }
            (parseFloat o1)
            (Server.callProperty (Server.getProperty name) name (parseFloat o1)
              (some (parseFloat o2))) := by
  simp only [Spec.operationNames, List.mem_cons, List.mem_singleton, List.not_mem_nil,
    or_false] at hname
  rcases hname with rfl | rfl | rfl | rfl | rfl | rfl | rfl | rfl
  · simp [Server.apiCalculate, JSValue.truthy, JSValue.toStr, h1, h1n, hnum, getProperty_add]
  · simp [Server.apiCalculate, JSValue.truthy, JSValue.toStr, h1, h1n, hnum,
      getProperty_subtract]
  · simp [Server.apiCalculate, JSValue.truthy, JSValue.toStr, h1, h1n, hnum,
      getProperty_multiply]
  · simp [Server.apiCalculate, JSValue.truthy, JSValue.toStr, h1, h1n, hnum,
      getProperty_divide]
  · simp [Server.apiCalculate, JSValue.truthy, JSValue.toStr, h1, h1n, hnum,
      getProperty_percentage]
  · simp [Server.apiCalculate, JSValue.truthy, JSValue.toStr, h1, h1n, hnum,
      getProperty_negate]
  · simp [Server.apiCalculate, JSValue.truthy, JSValue.toStr, h1, h1n, hnum, getProperty_sqrt]
  · simp [Server.apiCalculate, JSValue.truthy, JSValue.toStr, h1, h1n, hnum,
      getProperty_power]

theorem callProperty_thrown (name : String) (hname : name ∈ Spec.operationNames)
    (a : JSNumber) (b : Option JSNumber) (x : String)
    (h : Server.callProperty (Server.getProperty name) name a b = Except.error x) :
    x = "Division by zero" ∨ x = "Cannot calculate square root of negative number" := by
  simp only [Spec.operationNames, List.mem_cons, List.mem_singleton, List.not_mem_nil,
    or_false] at hname
  rcases hname with rfl | rfl | rfl | rfl | rfl | rfl | rfl | rfl
  · simp [getProperty_add, Server.callProperty] at h
  · simp [getProperty_subtract, Server.callProperty] at h
  · simp [getProperty_multiply, Server.callProperty] at h
  · simp only [getProperty_divide, Server.callProperty] at h
    split_ifs at h
    simp only [Except.error.injEq] at h
    exact Or.inl h.symm
  · simp [getProperty_percentage, Server.callProperty] at h
  · simp [getProperty_negate, Server.callProperty] at h
  · simp only [getProperty_sqrt, Server.callProperty] at h
    split_ifs at h
    simp only [Except.error.injEq] at h
    exact Or.inr h.symm
  · simp [getProperty_power, Server.callProperty] at h

theorem respond_ne_validation (name : String) (hname : name ∈ Spec.operationNames)
    (req : Server.Request) (a : JSNumber) (b : Option JSNumber) (msg : String)
    (payload : Option (List String))
    (hd : msg ≠ "Division by zero")
    (hs : msg ≠ "Cannot calculate square root of negative number")
    (hf : msg ≠ "Result is not a finite number") :
    Server.respond req a (Server.callProperty (Server.getProperty name) name a b)
      ≠ Server.Response.error msg payload := by
  apply respond_ne_error _ _ _ _ _ _ hf
  intro x
  by_cases hx : x = msg
  · left
    intro hcall
    rcases callProperty_thrown name hname a b x hcall with h | h
    · exact hd (hx ▸ h)
    · exact hs (hx ▸ h)
  · right
    exact hx

/-- C18 (amended): for every request with a valid operation and an operand1 that is there,
the request fails with the operand1 must-be-a-valid-number error exactly when `parseFloat`
finds no number at the start of operand1, that is when `parseFloat(operand1)` is NaN; and for
a binary operation with a numeric operand1 and an operand2 that is there, it fails with the
operand2 must-be-a-valid-number error exactly when `parseFloat(operand2)` is NaN. A string
that only starts with a number is accepted with the value of that start. -/
theorem apiCalculate_operand_validation (name : String) (o1 o2 : JSValue)
    (hname : name ∈ Spec.operationNames)
    (h1 : o1 ≠ JSValue.undefined) (h1n : o1 ≠ JSValue.null) :
    (Server.apiCalculate { operation := JSValue.str name, operand1 := o1, operand2 := o2 }
        = Server.Response.error "operand1 must be a valid number" none
      ↔ (parseFloat o1).isNaN = true)
    ∧ (name ∈ ["add", "subtract", "multiply", "divide", "power"] →
      (parseFloat o1).isNaN = false → o2 ≠ JSValue.undefined → o2 ≠ JSValue.null →
      (Server.apiCalculate { operation := JSValue.str name, operand1 := o1, operand2 := o2 }
          = Server.Response.error "operand2 must be a valid number" none
        ↔ (parseFloat o2).isNaN = true)) := by
  have hne : name ≠ "" := by
    rintro rfl
    revert hname
    decide
  constructor
  · constructor
    · intro h
      by_contra hnum
      rw [Bool.not_eq_true] at hnum
      rw [apiCalculate_valid_shape name o1 o2 hname h1 h1n hnum] at h
      split_ifs at h
      · exact respond_ne_validation name hname _ _ _ _ _ (by decide) (by decide) (by decide) h
      · revert h
        decide
      · revert h
        decide
      · exact respond_ne_validation name hname _ _ _ _ _ (by decide) (by decide) (by decide) h
    · intro hnan
      simp [Server.apiCalculate, JSValue.truthy, hne, h1, h1n, hnan]
  · intro hbin hnum h2 h2n
    have hun : ¬ name ∈ ["percentage", "negate", "sqrt"] := by
      simp only [List.mem_cons, List.mem_singleton, List.not_mem_nil, or_false] at hbin ⊢
      rcases hbin with rfl | rfl | rfl | rfl | rfl <;> decide
    rw [apiCalculate_valid_shape name o1 o2 hname h1 h1n hnum, if_neg hun,
      if_neg (by simp [h2, h2n])]
    constructor
    · intro h
      by_contra hnum2
      rw [if_neg hnum2] at h
      exact respond_ne_validation name hname _ _ _ _ _ (by decide) (by decide) (by decide) h
    · intro hnan
      rw [if_pos hnan]

theorem apiCalculate_operand_validation_witness :
    (Server.apiCalculate
        { operation := JSValue.str "add", operand1 := JSValue.str "abc",
          operand2 := JSValue.str "1" }
        = Server.Response.error "operand1 must be a valid number" none
      ↔ (parseFloat (JSValue.str "abc")).isNaN = true) :=
  (apiCalculate_operand_validation "add" (JSValue.str "abc") (JSValue.str "1") (by decide)
    (by decide) (by decide)).1

/-- C18 (as stated) fails: `12abc` and `1,5` are not the text of a number in their
entirety, and the requests with them as operands are served: `parseFloat` reads 12 and 1. -/
theorem apiCalculate_numeric_start_accepted :
    Server.apiCalculate
        { operation := JSValue.str "add", operand1 := JSValue.str "12abc",
          operand2 := JSValue.num (JSNumber.ofNat 1) }
      = Server.Response.ok (JSNumber.ofNat 13) (JSValue.str "add") (JSNumber.ofNat 12)
          (some (JSNumber.ofNat 1))
    ∧ Server.apiCalculate
        { operation := JSValue.str "add", operand1 := JSValue.num (JSNumber.ofNat 2),
          operand2 := JSValue.str "1,5" }
      = Server.Response.ok (JSNumber.ofNat 3) (JSValue.str "add") (JSNumber.ofNat 2)
          (some (JSNumber.ofNat 1)) := by
  decide!

/-- C17: a successful response is to carry a finite result. For `add` on the operands 1e300
and 0 the sum 1e300 is finite and passes the check, its product with 1e10 overflows, and the
handler answers 200 with a result that is Infinity; the evaluate entry point does the same
for the expression made of a 1 and 300 zeros. -/
theorem apiCalculate_rounding_overflow :
    Server.apiCalculate
        { operation := JSValue.str "add",
          operand1 := JSValue.num (JSNumber.roundRat false (10 ^ 300) 1),
          operand2 := JSValue.num JSNumber.zero }
      = Server.Response.ok (JSNumber.inf false) (JSValue.str "add")
          (JSNumber.roundRat false (10 ^ 300) 1) (some JSNumber.zero)
    ∧ Server.apiEvaluate (JSValue.str (String.mk ('1' :: List.replicate 300 '0')))
      = Server.EvalResponse.ok (JSNumber.inf false)
          (String.mk ('1' :: List.replicate 300 '0'))
    ∧ (JSNumber.inf false).isFinite = false := by
  decide!

/-! ### Invariants of the reachable states -/

theorem reachable_run (svc : Client.Service)
    (answers : ∀ operation a b, svc operation a b ≠ Except.ok none)
    (keys : List Client.Key) (s : Client.State) (h : Client.Reachable s) :
    Client.Reachable (Client.run svc keys s) := by
  induction keys generalizing s with
  | nil => exact h
  | cons key rest ih => exact ih _ (Client.Reachable.step svc answers key s h)

theorem natDigitsAux_digits (fuel n : Nat) (acc : List Char)
    (hacc : ∀ c ∈ acc, JS.isDigit c = true) :
    ∀ c ∈ JS.natDigitsAux fuel n acc, JS.isDigit c = true := by
  induction fuel generalizing n acc with
  | zero =>
    intro c hc
    simp only [JS.natDigitsAux, List.mem_cons] at hc
    rcases hc with rfl | hc
    · exact isDigit_digitChar _ (Nat.mod_lt _ (by decide))
    · exact hacc c hc
  | succ fuel ih =>
    intro c hc
    simp only [JS.natDigitsAux] at hc
    split_ifs at hc with hlt
    · simp only [List.mem_cons] at hc
      rcases hc with rfl | hc
      · exact isDigit_digitChar _ hlt
      · exact hacc c hc
    · refine ih _ _ ?_ c hc
      intro c hc
      simp only [List.mem_cons] at hc
      rcases hc with rfl | hc
      · exact isDigit_digitChar _ (Nat.mod_lt _ (by decide))
      · exact hacc c hc

theorem natDigits_digits (n : Nat) : ∀ c ∈ JS.natDigits n, JS.isDigit c = true :=
  natDigitsAux_digits n n [] (by simp)

theorem isDigit_ne_dot (c : Char) (h : JS.isDigit c = true) : c ≠ '.' := by
  rintro rfl
  revert h
  decide

theorem displayChar_of_isDigit (c : Char) (h : JS.isDigit c = true) :
    Spec.displayChar c = true := by
  simp [Spec.displayChar, h]

theorem exponentText_displayChar (e : Int) :
    ∀ c ∈ JS.exponentText e, Spec.displayChar c = true := by
  intro c hc
  simp only [JS.exponentText, List.mem_cons] at hc
  rcases hc with rfl | hc
  · split_ifs <;> decide
  · exact displayChar_of_isDigit c (natDigits_digits _ c hc)

theorem exponentText_no_dot (e : Int) : ¬ '.' ∈ JS.exponentText e := by
  intro hc
  simp only [JS.exponentText, List.mem_cons] at hc
  rcases hc with hc | hc
  · split_ifs at hc <;> revert hc <;> decide
  · exact isDigit_ne_dot _ (natDigits_digits _ _ hc) rfl

theorem layout_displayChar (ds : List Char) (k : Nat) (n : Int)
    (hds : ∀ c ∈ ds, JS.isDigit c = true) :
    ∀ c ∈ JS.layout ds k n, Spec.displayChar c = true := by
  have hd : ∀ c ∈ ds, Spec.displayChar c = true :=
    fun c hc => displayChar_of_isDigit c (hds c hc)
  have hz : ∀ j, ∀ c ∈ JS.zeros j, Spec.displayChar c = true := by
    intro j c hc
    simp only [JS.zeros, List.mem_replicate] at hc
    rw [hc.2]
    decide
  have hdot : Spec.displayChar '.' = true := by decide
  have he : Spec.displayChar 'e' = true := by decide
  have h0 : Spec.displayChar '0' = true := by decide
  intro c hc
  unfold JS.layout at hc
  split_ifs at hc
  · simp only [List.mem_append] at hc
    rcases hc with hc | hc
    · exact hd c hc
    · exact hz _ c hc
  · simp only [List.mem_append, List.mem_cons] at hc
    rcases hc with hc | rfl | hc
    · exact hd c (List.mem_of_mem_take hc)
    · exact hdot
    · exact hd c (List.mem_of_mem_drop hc)
  · simp only [List.mem_append, List.mem_cons] at hc
    rcases hc with rfl | rfl | hc | hc
    · exact h0
    · exact hdot
    · exact hz _ c hc
    · exact hd c hc
  · simp only [List.mem_append, List.mem_cons] at hc
    rcases hc with hc | rfl | hc
    · exact hd c hc
    · exact he
    · exact exponentText_displayChar _ c hc
  · simp only [List.mem_append, List.mem_cons] at hc
    rcases hc with hc | rfl | hc | rfl | hc
    · exact hd c (List.mem_of_mem_take hc)
    · exact hdot
    · exact hd c (List.mem_of_mem_drop hc)
    · exact he
    · exact exponentText_displayChar _ c hc

theorem layout_count_dot (ds : List Char) (k : Nat) (n : Int)
    (hds : ∀ c ∈ ds, JS.isDigit c = true) :
    (JS.layout ds k n).count '.' ≤ 1 := by
  have hd : ∀ l : List Char, (∀ c ∈ l, c ∈ ds) → l.count '.' = 0 := by
    intro l hl
    rw [List.count_eq_zero]
    intro hc
    exact isDigit_ne_dot _ (hds _ (hl _ hc)) rfl
  have hz : ∀ j, (JS.zeros j).count '.' = 0 := by
    intro j
    rw [List.count_eq_zero]
    intro hc
    simp only [JS.zeros, List.mem_replicate] at hc
    exact absurd hc.2 (by decide)
  have hx : ∀ e, (JS.exponentText e).count '.' = 0 := by
    intro e
    rw [List.count_eq_zero]
    exact exponentText_no_dot e
  have h1 := hd ds (fun c hc => hc)
  have h2 := fun j => hd (ds.take j) (fun c hc => List.mem_of_mem_take hc)
  have h3 := fun j => hd (ds.drop j) (fun c hc => List.mem_of_mem_drop hc)
  have h4 := hd ds.tail (fun c hc => List.mem_of_mem_tail hc)
  unfold JS.layout
  split_ifs <;> simp [List.count_append, List.count_cons, h1, h2, h3, h4, hz, hx]

theorem positiveToChars_displayChar (m : Nat) (e : Int) :
    ∀ c ∈ JS.positiveToChars m e, Spec.displayChar c = true := by
  unfold JS.positiveToChars
  dsimp only
  split_ifs
  · exact layout_displayChar _ _ _ (by decide)
  · exact layout_displayChar _ _ _ (natDigits_digits _)

theorem positiveToChars_count_dot (m : Nat) (e : Int) :
    (JS.positiveToChars m e).count '.' ≤ 1 := by
  unfold JS.positiveToChars
  dsimp only
  split_ifs
  · exact layout_count_dot _ _ _ (by decide)
  · exact layout_count_dot _ _ _ (natDigits_digits _)

theorem positiveToChars_ne_nil (m : Nat) (e : Int) : JS.positiveToChars m e ≠ [] := by
  intro h
  have := positiveToChars_head m e
  rw [h] at this
  simp [Eval.startsWithDigit] at this

theorem numberToChars_displayChar (x : JSNumber) :
    JS.numberToChars x ≠ [] ∧ ∀ c ∈ JS.numberToChars x, Spec.displayChar c = true := by
  cases x with
  | nan => exact ⟨by decide, by decide⟩
  | inf neg => cases neg <;> exact ⟨by decide, by decide⟩
  | fin neg m e =>
    simp only [JS.numberToChars]
    split_ifs
    · exact ⟨by decide, by decide⟩
    · refine ⟨by simp, ?_⟩
      intro c hc
      simp only [List.mem_cons] at hc
      rcases hc with rfl | hc
      · decide
      · exact positiveToChars_displayChar m e c hc
    · exact ⟨positiveToChars_ne_nil m e, positiveToChars_displayChar m e⟩

theorem numberToChars_count_dot (x : JSNumber) : (JS.numberToChars x).count '.' ≤ 1 := by
  cases x with
  | nan => decide
  | inf neg => cases neg <;> decide
  | fin neg m e =>
    simp only [JS.numberToChars]
    split_ifs
    · decide
    · rw [List.count_cons_of_ne (by decide)]
      exact positiveToChars_count_dot m e
    · exact positiveToChars_count_dot m e

theorem press_display (svc : Client.Service)
    (answers : ∀ operation a b, svc operation a b ≠ Except.ok none)
    (s : Client.State) (key : Client.Key) :
    (Client.press svc s key).display = s.display
    ∨ (∃ d : Fin 10, (Client.press svc s key).display = Client.digitString d)
    ∨ (∃ d : Fin 10, (Client.press svc s key).display = s.display ++ Client.digitString d)
    ∨ (Client.press svc s key).display = "0."
    ∨ (¬ '.' ∈ s.display.data ∧ (Client.press svc s key).display = s.display ++ ".")
    ∨ (∃ r, (Client.press svc s key).display = JS.numberToString r)
    ∨ (Client.press svc s key).display = "Error"
    ∨ (Client.press svc s key).display = "0"
    ∨ (s.display.length ≠ 1 ∧
        (Client.press svc s key).display = String.mk s.display.data.dropLast) := by
  cases key with
  | digit d =>
    simp only [Client.press, Client.handleDigit]
    by_cases hw : s.waitingForOperand = true
    · rw [if_pos hw]
      exact Or.inr (Or.inl ⟨d, rfl⟩)
    · rw [if_neg hw]
      by_cases h0 : s.display = "0"
      · refine Or.inr (Or.inl ⟨d, ?_⟩)
        simp only [h0, if_true]
      · refine Or.inr (Or.inr (Or.inl ⟨d, ?_⟩))
        simp only [h0, if_false]
  | decimal =>
    simp only [Client.press, Client.handleDecimal]
    by_cases hw : s.waitingForOperand = true
    · rw [if_pos hw]
      exact Or.inr (Or.inr (Or.inr (Or.inl rfl)))
    · rw [if_neg hw]
      by_cases hdot : ¬ '.' ∈ s.display.data
      · rw [if_pos hdot]
        exact Or.inr (Or.inr (Or.inr (Or.inr (Or.inl ⟨hdot, rfl⟩))))
      · rw [if_neg hdot]
        exact Or.inl rfl
  | operator op =>
    simp only [Client.press, Client.handleOperator]
    cases hp : s.previousValue with
    | none => exact Or.inl rfl
    | some p =>
      cases ho : s.operation with
      | none => exact Or.inl rfl
      | some o =>
        dsimp only
        by_cases hw : s.waitingForOperand = true
        · simp only [hw, Bool.not_true, Bool.false_eq_true, if_false]
          exact Or.inl trivial
        · simp only [hw, Bool.not_eq_true] at hw ⊢
          simp only [hw, Bool.not_false, if_true]
          cases hsvc : svc (Client.operationMap o) p (some (Client.inputValue s)) with
          | error msg => exact Or.inr (Or.inr (Or.inr (Or.inr (Or.inr (Or.inr (Or.inl rfl))))))
          | ok r =>
            cases r with
            | none => exact absurd hsvc (answers _ _ _)
            | some r => exact Or.inr (Or.inr (Or.inr (Or.inr (Or.inr (Or.inl ⟨r, rfl⟩)))))
  | equals =>
    simp only [Client.press, Client.handleEquals]
    cases hp : s.previousValue with
    | none => cases ho : s.operation <;> exact Or.inl rfl
    | some p =>
      cases ho : s.operation with
      | none => exact Or.inl rfl
      | some o =>
        dsimp only
        by_cases hw : s.waitingForOperand = true
        · rw [if_pos hw]
          exact Or.inl rfl
        · rw [if_neg hw]
          cases hsvc : svc (Client.operationMap o) p (some (Client.inputValue s)) with
          | error msg => exact Or.inr (Or.inr (Or.inr (Or.inr (Or.inr (Or.inr (Or.inl rfl))))))
          | ok r =>
            cases r with
            | none => exact absurd hsvc (answers _ _ _)
            | some r => exact Or.inr (Or.inr (Or.inr (Or.inr (Or.inr (Or.inl ⟨r, rfl⟩)))))
  | clear => exact Or.inr (Or.inr (Or.inr (Or.inr (Or.inr (Or.inr (Or.inr (Or.inl rfl)))))))
  | clearEntry =>
    exact Or.inr (Or.inr (Or.inr (Or.inr (Or.inr (Or.inr (Or.inr (Or.inl rfl)))))))
  | toggleSign =>
    simp only [Client.press, Client.handleToggleSign]
    cases hsvc : svc "negate" (Client.inputValue s) none with
    | error msg => exact Or.inl rfl
    | ok r =>
      cases r with
      | none => exact absurd hsvc (answers _ _ _)
      | some r => exact Or.inr (Or.inr (Or.inr (Or.inr (Or.inr (Or.inl ⟨r, rfl⟩)))))
  | percentage =>
    simp only [Client.press, Client.handlePercentage]
    cases hsvc : svc "percentage" (Client.inputValue s) none with
    | error msg => exact Or.inl rfl
    | ok r =>
      cases r with
      | none => exact absurd hsvc (answers _ _ _)
      | some r => exact Or.inr (Or.inr (Or.inr (Or.inr (Or.inr (Or.inl ⟨r, rfl⟩)))))
  | backspace =>
    simp only [Client.press, Client.handleBackspace]
    split_ifs with h
    · exact Or.inr (Or.inr (Or.inr (Or.inr (Or.inr (Or.inr (Or.inr (Or.inl rfl)))))))
    · refine Or.inr (Or.inr (Or.inr (Or.inr (Or.inr (Or.inr (Or.inr (Or.inr ⟨?_, rfl⟩)))))))
      intro h1
      exact h (Or.inl h1)

theorem digitString_data (d : Fin 10) :
    (Client.digitString d).data = [JS.digitChar d.val] := rfl

theorem handleOperator_pending (svc : Client.Service) (op : Client.Operator)
    (s : Client.State) :
    (Client.handleOperator svc op s).waitingForOperand = true
    ∧ (Client.handleOperator svc op s).operation = some op := by
  unfold Client.handleOperator
  cases s.previousValue with
  | none => exact ⟨rfl, rfl⟩
  | some p =>
    cases s.operation with
    | none => exact ⟨rfl, rfl⟩
    | some o =>
      dsimp only
      split_ifs
      · cases svc (Client.operationMap o) p (some (Client.inputValue s)) with
        | error msg => exact ⟨rfl, rfl⟩
        | ok r => exact ⟨rfl, rfl⟩
      · exact ⟨rfl, rfl⟩

theorem press_previousValue (svc : Client.Service) (s : Client.State) (key : Client.Key)
    (h : s.previousValue ≠ none → s.operation ≠ none) :
    (Client.press svc s key).previousValue ≠ none →
      (Client.press svc s key).operation ≠ none := by
  cases key with
  | digit d =>
    simp only [Client.press, Client.handleDigit]
    split_ifs <;> exact h
  | decimal =>
    simp only [Client.press, Client.handleDecimal]
    split_ifs <;> exact h
  | operator op =>
    intro _
    simp only [Client.press, (handleOperator_pending svc op s).2]
    exact Option.some_ne_none op
  | equals =>
    simp only [Client.press, Client.handleEquals]
    cases hp : s.previousValue with
    | none =>
      intro hc
      cases ho : s.operation <;> rw [ho] at hc <;> exact absurd hp hc
    | some p =>
      cases ho : s.operation with
      | none =>
        rw [hp, ho] at h
        exact absurd rfl (h (Option.some_ne_none p))
      | some o =>
        dsimp only
        split_ifs
        · intro _
          rw [ho]
          exact Option.some_ne_none o
        · cases svc (Client.operationMap o) p (some (Client.inputValue s)) with
          | error msg =>
            intro _
            exact Option.some_ne_none o
          | ok r =>
            intro hc
            exact absurd rfl hc
  | clear =>
    intro hc
    exact absurd rfl hc
  | clearEntry => exact h
  | toggleSign =>
    simp only [Client.press, Client.handleToggleSign]
    cases svc "negate" (Client.inputValue s) none <;> exact h
  | percentage =>
    simp only [Client.press, Client.handlePercentage]
    cases svc "percentage" (Client.inputValue s) none <;> exact h
  | backspace =>
    simp only [Client.press, Client.handleBackspace]
    split_ifs <;> exact h

/-- C14: in every state reached from the initial state by any finite sequence of key
presses, whatever the service answers at each of them (a Number, `null` or a failure),
`previousValue` is null unless an operator is pending: `previousValue !== null` implies
`operation !== null`. -/
theorem previousValue_needs_operator (steps : List (Client.Service × Client.Key)) :
    (steps.foldl (fun s step => Client.press step.1 s step.2) Client.initial).previousValue
        ≠ none →
      (steps.foldl (fun s step => Client.press step.1 s step.2) Client.initial).operation
        ≠ none := by
  have hfold : ∀ (l : List (Client.Service × Client.Key)) (s : Client.State),
      (s.previousValue ≠ none → s.operation ≠ none) →
      (l.foldl (fun s step => Client.press step.1 s step.2) s).previousValue ≠ none →
      (l.foldl (fun s step => Client.press step.1 s step.2) s).operation ≠ none := by
    intro l
    induction l with
    | nil =>
      intro s hs
      exact hs
    | cons step rest ih =>
      intro s hs
      exact ih _ (press_previousValue step.1 s step.2 hs)
  exact hfold steps Client.initial (fun hc => absurd rfl hc)

theorem previousValue_needs_operator_witness :
    ([((fun _ _ _ => Except.error "Division by zero" : Client.Service), Client.Key.digit 5),
      ((fun _ _ _ => Except.error "Division by zero" : Client.Service),
        Client.Key.operator Client.Operator.divide)].foldl
      (fun s step => Client.press step.1 s step.2) Client.initial).previousValue ≠ none
    ∧ ([((fun _ _ _ => Except.error "Division by zero" : Client.Service), Client.Key.digit 5),
      ((fun _ _ _ => Except.error "Division by zero" : Client.Service),
        Client.Key.operator Client.Operator.divide)].foldl
      (fun s step => Client.press step.1 s step.2) Client.initial).operation ≠ none :=
  ⟨by decide!, previousValue_needs_operator _ (by decide!)⟩

/-- C13: in every state reached from the initial state by any sequence of the nine key
presses, the service answering each call with a Number or with a failure, the display holds
at most one decimal point. -/
theorem display_one_decimal_point (s : Client.State) (h : Client.Reachable s) :
    s.display.data.count '.' ≤ 1 := by
  induction h with
  | start => decide
  | step svc answers key s _ ih =>
    have hdigit : ∀ d : Fin 10, [JS.digitChar d.val].count '.' = 0 := by decide
    rcases press_display svc answers s key with
      h | ⟨d, h⟩ | ⟨d, h⟩ | h | ⟨hdot, h⟩ | ⟨r, h⟩ | h | h | ⟨_, h⟩
    · rw [h]
      exact ih
    · rw [h, digitString_data, hdigit]
      exact Nat.zero_le 1
    · rw [h, String.data_append, List.count_append, digitString_data, hdigit]
      exact ih
    · rw [h]
      decide
    · rw [h, String.data_append, List.count_append, List.count_eq_zero.2 hdot]
      decide
    · rw [h]
      exact numberToChars_count_dot r
    · rw [h]
      decide
    · rw [h]
      decide
    · rw [h]
      exact le_trans (List.Sublist.count_le (List.dropLast_sublist _) _) ih

theorem display_one_decimal_point_witness :
    Client.Reachable
        (Client.run (fun _ _ _ => Except.error "Division by zero")
          [Client.Key.digit 1, Client.Key.decimal, Client.Key.decimal, Client.Key.digit 5]
          Client.initial)
    ∧ (Client.run (fun _ _ _ => Except.error "Division by zero")
          [Client.Key.digit 1, Client.Key.decimal, Client.Key.decimal, Client.Key.digit 5]
          Client.initial).display.data.count '.' ≤ 1 :=
  ⟨reachable_run (fun _ _ _ => Except.error "Division by zero")
      (fun _ _ _ hc => Except.noConfusion hc) _ _ Client.Reachable.start,
    display_one_decimal_point _
      (reachable_run (fun _ _ _ => Except.error "Division by zero")
      (fun _ _ _ hc => Except.noConfusion hc) _ _ Client.Reachable.start)⟩

/-- C19 (amended): in every state reached from the initial state by key presses, the service
answering each call with a Number or with a failure, the display is not empty and holds only
characters of the error indicator `Error` and of the text of a Number as `String` writes it
(digits, `-`, `.`, the `e` and `+` of the exponent notation, the letters of `Infinity` and
`NaN`); and after an Operator press, whether its service call failed or not, pressing a
digit `d` leaves the display equal to `d`. -/
theorem display_characters (s : Client.State) (h : Client.Reachable s) :
    s.display.data ≠ []
    ∧ (∀ c ∈ s.display.data, Spec.displayChar c = true)
    ∧ ∀ (svc svc2 : Client.Service) (op : Client.Operator) (d : Fin 10),
        (Client.press svc2 (Client.press svc s (Client.Key.operator op))
          (Client.Key.digit d)).display = Client.digitString d := by
  refine ⟨?_, ?_, ?_⟩
  · induction h with
    | start => decide
    | step svc answers key s _ ih =>
      rcases press_display svc answers s key with
        h | ⟨d, h⟩ | ⟨d, h⟩ | h | ⟨hdot, h⟩ | ⟨r, h⟩ | h | h | ⟨h1, h⟩
      · rw [h]
        exact ih
      · rw [h]
        exact List.cons_ne_nil _ _
      · rw [h, String.data_append]
        exact List.append_ne_nil_of_left_ne_nil ih _
      · rw [h]
        decide
      · rw [h, String.data_append]
        exact List.append_ne_nil_of_left_ne_nil ih _
      · rw [h]
        exact (numberToChars_displayChar r).1
      · rw [h]
        decide
      · rw [h]
        decide
      · rw [h]
        intro hnil
        have hlen := congrArg List.length hnil
        simp only [List.length_dropLast, List.length_nil] at hlen
        have hpos : 0 < s.display.data.length := List.length_pos.2 ih
        have h1' : s.display.data.length ≠ 1 := h1
        omega
  · induction h with
    | start => decide
    | step svc answers key s _ ih =>
      have hdigit : ∀ d : Fin 10, Spec.displayChar (JS.digitChar d.val) = true :=
        fun d => displayChar_of_isDigit _ (isDigit_digitChar d.val d.isLt)
      rcases press_display svc answers s key with
        h | ⟨d, h⟩ | ⟨d, h⟩ | h | ⟨hdot, h⟩ | ⟨r, h⟩ | h | h | ⟨h1, h⟩
      · rw [h]
        exact ih
      · rw [h, digitString_data]
        intro c hc
        rw [List.mem_singleton.1 hc]
        exact hdigit d
      · rw [h, String.data_append, digitString_data]
        intro c hc
        rcases List.mem_append.1 hc with hc | hc
        · exact ih c hc
        · rw [List.mem_singleton.1 hc]
          exact hdigit d
      · rw [h]
        decide
      · rw [h, String.data_append]
        intro c hc
        rcases List.mem_append.1 hc with hc | hc
        · exact ih c hc
        · rw [List.mem_singleton.1 hc]
          decide
      · rw [h]
        exact (numberToChars_displayChar r).2
      · rw [h]
        decide
      · rw [h]
        decide
      · rw [h]
        intro c hc
        exact ih c ((List.dropLast_sublist _).subset hc)
  · intro svc svc2 op d
    simp only [Client.press, Client.handleDigit, (handleOperator_pending svc op s).1, if_true]

theorem display_characters_witness :
    Client.Reachable
        (Client.run (fun _ _ _ => Except.error "Division by zero")
          [Client.Key.digit 5, Client.Key.operator Client.Operator.divide, Client.Key.digit 0,
            Client.Key.equals] Client.initial)
    ∧ (Client.run (fun _ _ _ => Except.error "Division by zero")
          [Client.Key.digit 5, Client.Key.operator Client.Operator.divide, Client.Key.digit 0,
            Client.Key.equals] Client.initial).display.data ≠ [] :=
  ⟨reachable_run (fun _ _ _ => Except.error "Division by zero")
      (fun _ _ _ hc => Except.noConfusion hc) _ _ Client.Reachable.start,
    (display_characters _
      (reachable_run (fun _ _ _ => Except.error "Division by zero")
        (fun _ _ _ hc => Except.noConfusion hc) _ _ Client.Reachable.start)).1⟩

/-- C19 (as stated) fails. With the backend answering, the keys 5 ÷ 0 = 7 leave the display
`Error7`: the Equals call fails, `waitingForOperand` stays false, and the digit is appended
to the error indicator. The keys . 0 0 0 0 1 % leave the display `1e-7`, the text of the
result in exponent notation. Neither display is `Error` or an optional `-` with digits and at
most one decimal point, and the first is not the digit 7 alone. -/
theorem display_error_digit_appended :
    Client.Reachable
        (Client.run Client.calculate
          [Client.Key.digit 5, Client.Key.operator Client.Operator.divide, Client.Key.digit 0,
            Client.Key.equals, Client.Key.digit 7] Client.initial)
    ∧ (Client.run Client.calculate
          [Client.Key.digit 5, Client.Key.operator Client.Operator.divide, Client.Key.digit 0,
            Client.Key.equals, Client.Key.digit 7] Client.initial).display = "Error7"
    ∧ "Error7" ≠ "Error"
    ∧ Spec.plainNumber "Error7".data = false
    ∧ "Error7" ≠ Client.digitString 7
    ∧ Client.Reachable
        (Client.run Client.calculate
          [Client.Key.decimal, Client.Key.digit 0, Client.Key.digit 0, Client.Key.digit 0,
            Client.Key.digit 0, Client.Key.digit 1, Client.Key.percentage] Client.initial)
    ∧ (Client.run Client.calculate
          [Client.Key.decimal, Client.Key.digit 0, Client.Key.digit 0, Client.Key.digit 0,
            Client.Key.digit 0, Client.Key.digit 1, Client.Key.percentage]
          Client.initial).display = "1e-7"
    ∧ "1e-7" ≠ "Error"
    ∧ Spec.plainNumber "1e-7".data = false := by
  have e1 : Client.run Client.calculate
        [Client.Key.digit 5, Client.Key.operator Client.Operator.divide, Client.Key.digit 0,
          Client.Key.equals, Client.Key.digit 7] Client.initial
      = Client.run (fun _ _ _ => Except.error "Division by zero")
        [Client.Key.digit 5, Client.Key.operator Client.Operator.divide, Client.Key.digit 0,
          Client.Key.equals, Client.Key.digit 7] Client.initial := by
    decide!
  have e2 : Client.run Client.calculate
        [Client.Key.decimal, Client.Key.digit 0, Client.Key.digit 0, Client.Key.digit 0,
          Client.Key.digit 0, Client.Key.digit 1, Client.Key.percentage] Client.initial
      = Client.run (fun _ _ _ => Except.ok (some (JS.parseFloatChars "1e-7".data)))
        [Client.Key.decimal, Client.Key.digit 0, Client.Key.digit 0, Client.Key.digit 0,
          Client.Key.digit 0, Client.Key.digit 1, Client.Key.percentage] Client.initial := by
    decide!
  refine ⟨?_, by decide!, by decide, by decide, by decide, ?_, by decide!, by decide,
    by decide⟩
  · rw [e1]
    exact reachable_run (fun _ _ _ => Except.error "Division by zero")
      (fun _ _ _ hc => Except.noConfusion hc) _ _ Client.Reachable.start
  · rw [e2]
    refine reachable_run (fun _ _ _ => Except.ok (some (JS.parseFloatChars "1e-7".data)))
      (fun _ _ _ hc => ?_) _ _ Client.Reachable.start
    cases hc

/-! ### Exact results of the binary64 operations -/

theorem bitLengthAux_bounds (fuel n : Nat) (h : n ≤ fuel) (hn : 0 < n) :
    0 < JSNumber.bitLengthAux fuel n ∧ 2 ^ (JSNumber.bitLengthAux fuel n - 1) ≤ n
      ∧ n < 2 ^ JSNumber.bitLengthAux fuel n := by
  induction fuel generalizing n with
  | zero => omega
  | succ fuel ih =>
    have hne : n ≠ 0 := by omega
    simp only [JSNumber.bitLengthAux, hne, if_false]
    by_cases h2 : n / 2 = 0
    · have h1 : n = 1 := by omega
      subst h1
      have h0 : JSNumber.bitLengthAux fuel (1 / 2) = 0 := by
        cases fuel <;> simp [JSNumber.bitLengthAux]
      rw [h0]
      simp
    · obtain ⟨hk, hlo, hhi⟩ := ih (n / 2) (by omega) (by omega)
      generalize JSNumber.bitLengthAux fuel (n / 2) = k at hk hlo hhi ⊢
      obtain ⟨j, rfl⟩ : ∃ j, k = j + 1 := ⟨k - 1, by omega⟩
      simp only [Nat.add_sub_cancel] at hlo ⊢
      have e1 : 2 ^ (j + 1) = 2 * 2 ^ j := by rw [pow_succ]; ring
      have e2 : 2 ^ (j + 1 + 1) = 2 * 2 ^ (j + 1) := by rw [pow_succ]; ring
      refine ⟨by omega, by omega, by omega⟩

theorem bitLength_bounds (n : Nat) (hn : 0 < n) :
    0 < JSNumber.bitLength n ∧ 2 ^ (JSNumber.bitLength n - 1) ≤ n
      ∧ n < 2 ^ JSNumber.bitLength n :=
  bitLengthAux_bounds n n (le_refl n) hn

theorem scaled_ratio (p q : Nat) (e : Int) (hq : 0 < q) :
    0 < (JSNumber.scaled p q e).2
      ∧ ((JSNumber.scaled p q e).1 : ℚ) / ((JSNumber.scaled p q e).2 : ℚ)
        = (p : ℚ) / q / (2 : ℚ) ^ e := by
  unfold JSNumber.scaled
  split_ifs with h
  · obtain ⟨k, rfl⟩ := Int.eq_ofNat_of_zero_le h
    simp only [Int.toNat_ofNat, zpow_natCast]
    refine ⟨by positivity, ?_⟩
    push_cast
    rw [div_div]
  · obtain ⟨k, hk⟩ : ∃ k : ℕ, e = -(k : ℤ) := ⟨(-e).toNat, by omega⟩
    subst hk
    simp only [neg_neg, Int.toNat_ofNat, zpow_neg, zpow_natCast]
    refine ⟨hq, ?_⟩
    push_cast
    have hq' : (q : ℚ) ≠ 0 := by positivity
    field_simp

theorem absFrac_ratio (m : Nat) (e : Int) :
    0 < (JSNumber.absFrac m e).2
      ∧ ((JSNumber.absFrac m e).1 : ℚ) / ((JSNumber.absFrac m e).2 : ℚ)
        = (m : ℚ) * (2 : ℚ) ^ e := by
  unfold JSNumber.absFrac
  split_ifs with h
  · obtain ⟨k, rfl⟩ := Int.eq_ofNat_of_zero_le h
    simp only [Int.toNat_ofNat, zpow_natCast]
    refine ⟨by decide, ?_⟩
    push_cast
    simp
  · obtain ⟨k, hk⟩ : ∃ k : ℕ, e = -(k : ℤ) := ⟨(-e).toNat, by omega⟩
    subst hk
    simp only [neg_neg, Int.toNat_ofNat, zpow_neg, zpow_natCast]
    refine ⟨by positivity, ?_⟩
    push_cast
    rw [div_eq_mul_inv]

theorem signed_cast (neg : Bool) (n : Nat) :
    ((JSNumber.signed neg n : ℤ) : ℚ) = (if neg then -1 else 1) * (n : ℚ) := by
  cases neg <;> simp [JSNumber.signed]

theorem toRat_fin (neg : Bool) (m : Nat) (e : Int) :
    (JSNumber.fin neg m e).toRat
      = some ((if neg then -1 else 1) * ((m : ℚ) * (2 : ℚ) ^ e)) := by
  simp only [JSNumber.toRat, signed_cast, mul_div_assoc, (absFrac_ratio m e).2]

theorem roundRat_tail (neg : Bool) (p q m : Nat) (e E : Int) (hq : 0 < q)
    (hm : m < 2 ^ 53) (he' : e ≤ 971) (hE2 : E ≤ e)
    (hv : (p : ℚ) / q = (m : ℚ) * (2 : ℚ) ^ e) :
    (if 971 < (if (if (JSNumber.scaled p q E).2 < 2 * ((JSNumber.scaled p q E).1
                  % (JSNumber.scaled p q E).2)
                ∨ (2 * ((JSNumber.scaled p q E).1 % (JSNumber.scaled p q E).2)
                    = (JSNumber.scaled p q E).2
                  ∧ (JSNumber.scaled p q E).1 / (JSNumber.scaled p q E).2 % 2 = 1)
              then (JSNumber.scaled p q E).1 / (JSNumber.scaled p q E).2 + 1
              else (JSNumber.scaled p q E).1 / (JSNumber.scaled p q E).2) = 2 ^ 53
            then E + 1 else E)
      then JSNumber.inf neg
      else JSNumber.fin neg
        (if (if (JSNumber.scaled p q E).2 < 2 * ((JSNumber.scaled p q E).1
                  % (JSNumber.scaled p q E).2)
                ∨ (2 * ((JSNumber.scaled p q E).1 % (JSNumber.scaled p q E).2)
                    = (JSNumber.scaled p q E).2
                  ∧ (JSNumber.scaled p q E).1 / (JSNumber.scaled p q E).2 % 2 = 1)
              then (JSNumber.scaled p q E).1 / (JSNumber.scaled p q E).2 + 1
              else (JSNumber.scaled p q E).1 / (JSNumber.scaled p q E).2) = 2 ^ 53
          then 2 ^ 52
          else (if (JSNumber.scaled p q E).2 < 2 * ((JSNumber.scaled p q E).1
                  % (JSNumber.scaled p q E).2)
                ∨ (2 * ((JSNumber.scaled p q E).1 % (JSNumber.scaled p q E).2)
                    = (JSNumber.scaled p q E).2
                  ∧ (JSNumber.scaled p q E).1 / (JSNumber.scaled p q E).2 % 2 = 1)
              then (JSNumber.scaled p q E).1 / (JSNumber.scaled p q E).2 + 1
              else (JSNumber.scaled p q E).1 / (JSNumber.scaled p q E).2))
        (if (if (JSNumber.scaled p q E).2 < 2 * ((JSNumber.scaled p q E).1
                  % (JSNumber.scaled p q E).2)
                ∨ (2 * ((JSNumber.scaled p q E).1 % (JSNumber.scaled p q E).2)
                    = (JSNumber.scaled p q E).2
                  ∧ (JSNumber.scaled p q E).1 / (JSNumber.scaled p q E).2 % 2 = 1)
              then (JSNumber.scaled p q E).1 / (JSNumber.scaled p q E).2 + 1
              else (JSNumber.scaled p q E).1 / (JSNumber.scaled p q E).2) = 2 ^ 53
            then E + 1 else E)).toRat
      = some ((if neg then -1 else 1) * ((p : ℚ) / q)) := by
  obtain ⟨hd, hratio⟩ := scaled_ratio p q E hq
  obtain ⟨k, hk⟩ : ∃ k : ℕ, e - E = (k : ℤ) := ⟨(e - E).toNat, by omega⟩
  have heq : e = E + k := by omega
  have h2 : ((2 : ℚ) ^ E) ≠ 0 := zpow_ne_zero _ (by norm_num)
  have hM : ((JSNumber.scaled p q E).1 : ℚ) / ((JSNumber.scaled p q E).2 : ℚ)
      = ((m * 2 ^ k : ℕ) : ℚ) := by
    rw [hratio, hv, heq, zpow_add₀ (by norm_num), zpow_natCast]
    push_cast
    field_simp
    ring
  have hnd : (JSNumber.scaled p q E).1 = m * 2 ^ k * (JSNumber.scaled p q E).2 := by
    have hd' : ((JSNumber.scaled p q E).2 : ℚ) ≠ 0 := by
      have : (0 : ℚ) < ((JSNumber.scaled p q E).2 : ℚ) := by exact_mod_cast hd
      exact ne_of_gt this
    rw [div_eq_iff hd'] at hM
    exact_mod_cast hM
  generalize (JSNumber.scaled p q E).2 = d at hd hnd
  generalize (JSNumber.scaled p q E).1 = n at hnd
  subst hnd
  have hdiv : m * 2 ^ k * d / d = m * 2 ^ k := Nat.mul_div_cancel _ hd
  have hmod : m * 2 ^ k * d % d = 0 := Nat.mul_mod_left _ _
  have hc : ¬ (d < 2 * 0 ∨ (2 * 0 = d ∧ m * 2 ^ k % 2 = 1)) := by omega
  rw [hdiv, hmod]
  simp only [hc, if_false]
  have hval : (m : ℚ) * 2 ^ e = ((m * 2 ^ k : ℕ) : ℚ) * 2 ^ E := by
    rw [heq, zpow_add₀ (by norm_num), zpow_natCast]
    push_cast
    ring
  by_cases h53 : m * 2 ^ k = 2 ^ 53
  · have hk1 : k ≠ 0 := by
      rintro rfl
      simp at h53
      omega
    have hE : ¬ (971 < E + 1) := by omega
    simp only [h53, if_true, hE, if_false, toRat_fin]
    rw [hv, hval, h53, zpow_add₀ (by norm_num)]
    push_cast
    congr 1
    ring
  · have hE : ¬ (971 < E) := by omega
    simp only [h53, if_false, hE, toRat_fin]
    rw [hv, hval]

theorem roundRat_exact (neg : Bool) (p q m : Nat) (e : Int) (hq : 0 < q)
    (hm : m < 2 ^ 53) (he : -1074 ≤ e) (he' : e ≤ 971)
    (hv : (p : ℚ) / q = (m : ℚ) * (2 : ℚ) ^ e) :
    (JSNumber.roundRat neg p q).toRat = some ((if neg then -1 else 1) * ((p : ℚ) / q)) := by
  by_cases hp : p = 0
  · subst hp
    simp [JSNumber.roundRat, toRat_fin]
  · have hp0 : 0 < p := Nat.pos_of_ne_zero hp
    have hpq : (0 : ℚ) < (p : ℚ) / q := by positivity
    have hm0 : 0 < m := by
      rcases Nat.eq_zero_or_pos m with h | h
      · subst h
        simp at hv
        omega
      · exact h
    have hE : (if 2 ^ 53 ≤ (JSNumber.scaled p q (max ((JSNumber.bitLength p : Int)
          - (JSNumber.bitLength q : Int) - 53) (-1074))).1
          / (JSNumber.scaled p q (max ((JSNumber.bitLength p : Int)
          - (JSNumber.bitLength q : Int) - 53) (-1074))).2
        then max ((JSNumber.bitLength p : Int) - (JSNumber.bitLength q : Int) - 53) (-1074) + 1
        else max ((JSNumber.bitLength p : Int) - (JSNumber.bitLength q : Int) - 53) (-1074))
        ≤ e := by
      generalize he1 : max ((JSNumber.bitLength p : Int) - (JSNumber.bitLength q : Int) - 53)
        (-1074) = e1
      obtain ⟨hd, hratio⟩ := scaled_ratio p q e1 hq
      split_ifs with hc
      · by_contra hlt
        have hle : e ≤ e1 := by omega
        have h1 : 2 ^ 53 * (JSNumber.scaled p q e1).2 ≤ (JSNumber.scaled p q e1).1 :=
          (Nat.le_div_iff_mul_le hd).1 hc
        have h2 : ((2 : ℚ) ^ 53) ≤ ((JSNumber.scaled p q e1).1 : ℚ)
            / ((JSNumber.scaled p q e1).2 : ℚ) := by
          rw [le_div_iff₀ (by exact_mod_cast hd)]
          exact_mod_cast h1
        rw [hratio, hv, mul_div_assoc, ← zpow_sub₀ (by norm_num)] at h2
        have h3 : (2 : ℚ) ^ (e - e1) ≤ 1 := zpow_le_one_of_nonpos₀ (by norm_num) (by omega)
        have h4 : (m : ℚ) < 2 ^ 53 := by exact_mod_cast hm
        have h5 : (m : ℚ) * 2 ^ (e - e1) ≤ (m : ℚ) * 1 :=
          mul_le_mul_of_nonneg_left h3 (by positivity)
        linarith
      · rcases max_cases ((JSNumber.bitLength p : Int) - (JSNumber.bitLength q : Int) - 53)
          (-1074) with ⟨hmax, _⟩ | ⟨hmax, _⟩
        · rw [he1] at hmax
          by_contra hlt
          obtain ⟨_, hplo, _⟩ := bitLength_bounds p hp0
          obtain ⟨hbq, _, hqhi⟩ := bitLength_bounds q hq
          obtain ⟨hbp, _, _⟩ := bitLength_bounds p hp0
          have hplo' : ((2 : ℚ) ^ (((JSNumber.bitLength p : ℕ) : ℤ) - 1)) ≤ (p : ℚ) := by
            have : (((JSNumber.bitLength p : ℕ) : ℤ) - 1) = ((JSNumber.bitLength p - 1 : ℕ) : ℤ) := by
              omega
            rw [this, zpow_natCast]
            exact_mod_cast hplo
          have hqhi' : (q : ℚ) < (2 : ℚ) ^ ((JSNumber.bitLength q : ℕ) : ℤ) := by
            rw [zpow_natCast]
            exact_mod_cast hqhi
          have hq0 : (0 : ℚ) < q := by exact_mod_cast hq
          have hpe : (p : ℚ) = (m : ℚ) * 2 ^ e * q := by
            rw [← hv]
            field_simp
          have h4 : (m : ℚ) < 2 ^ (53 : ℤ) := by
            have : (m : ℚ) < 2 ^ (53 : ℕ) := by exact_mod_cast hm
            rwa [← zpow_natCast] at this
          have h2e : (0 : ℚ) < 2 ^ e := zpow_pos (by norm_num) _
          have hlt1 : (m : ℚ) * 2 ^ e * q
              < 2 ^ (53 : ℤ) * 2 ^ e * 2 ^ ((JSNumber.bitLength q : ℕ) : ℤ) := by
            have ha : (m : ℚ) * 2 ^ e < 2 ^ (53 : ℤ) * 2 ^ e :=
              mul_lt_mul_of_pos_right h4 h2e
            have hb : (m : ℚ) * 2 ^ e * q < 2 ^ (53 : ℤ) * 2 ^ e * q :=
              mul_lt_mul_of_pos_right ha hq0
            have hc : (2 : ℚ) ^ (53 : ℤ) * 2 ^ e * q
                ≤ 2 ^ (53 : ℤ) * 2 ^ e * 2 ^ ((JSNumber.bitLength q : ℕ) : ℤ) :=
              mul_le_mul_of_nonneg_left (le_of_lt hqhi') (by positivity)
            linarith
          rw [← zpow_add₀ (by norm_num), ← zpow_add₀ (by norm_num)] at hlt1
          have hle2 : (2 : ℚ) ^ (53 + e + ((JSNumber.bitLength q : ℕ) : ℤ))
              ≤ 2 ^ (((JSNumber.bitLength p : ℕ) : ℤ) - 1) :=
            zpow_le_zpow_right₀ (by norm_num) (by omega)
          linarith
        · rw [he1] at hmax
          omega
    have hE1 : e ≤ 971 := he'
    unfold JSNumber.roundRat
    rw [if_neg hp]
    exact roundRat_tail neg p q m e _ hq hm he' hE hv

theorem roundRat_exact_int (n : Int) (d m : Nat) (e : Int) (hd : 0 < d)
    (hm : m < 2 ^ 53) (he : -1074 ≤ e) (he' : e ≤ 971)
    (hv : |(n : ℚ) / d| = (m : ℚ) * (2 : ℚ) ^ e) :
    (JSNumber.roundRat (decide (n < 0)) n.natAbs d).toRat = some ((n : ℚ) / d) := by
  have hd0 : (0 : ℚ) < d := by exact_mod_cast hd
  have habs : ((n.natAbs : ℕ) : ℚ) = |(n : ℚ)| := by
    rw [Nat.cast_natAbs, Int.cast_abs]
  have hv' : ((n.natAbs : ℕ) : ℚ) / d = (m : ℚ) * (2 : ℚ) ^ e := by
    rw [habs, ← hv, abs_div, abs_of_pos hd0]
  rw [roundRat_exact _ _ _ m e hd hm he he' hv', habs]
  congr 1
  by_cases hn : n < 0
  · have : (n : ℚ) < 0 := by exact_mod_cast hn
    simp only [hn, decide_True, if_true, abs_of_neg this]
    ring
  · have : (0 : ℚ) ≤ n := by exact_mod_cast (not_lt.1 hn)
    simp only [hn, decide_False, Bool.false_eq_true, if_false, abs_of_nonneg this]
    ring

theorem toRat_eq_some (a : JSNumber) (x : ℚ) (h : a.toRat = some x) :
    ∃ s m e, a = JSNumber.fin s m e
      ∧ x = ((JSNumber.signed s (JSNumber.absFrac m e).1 : ℤ) : ℚ) / ((JSNumber.absFrac m e).2 : ℚ) := by
  cases a with
  | nan => simp [JSNumber.toRat] at h
  | inf s => simp [JSNumber.toRat] at h
  | fin s m e =>
    simp only [JSNumber.toRat, Option.some.injEq] at h
    exact ⟨s, m, e, rfl, h.symm⟩

theorem neg_exact (a : JSNumber) (x : ℚ) (ha : a.toRat = some x) :
    a.neg.toRat = some (-x) := by
  obtain ⟨s, m, e, rfl, rfl⟩ := toRat_eq_some a x ha
  cases s <;> simp [JSNumber.neg, JSNumber.toRat, JSNumber.signed, neg_div]

theorem add_exact (a b : JSNumber) (x y : ℚ) (m : Nat) (e : Int)
    (ha : a.toRat = some x) (hb : b.toRat = some y)
    (hm : m < 2 ^ 53) (he : -1074 ≤ e) (he' : e ≤ 971)
    (hv : |x + y| = (m : ℚ) * (2 : ℚ) ^ e) :
    (a.add b).toRat = some (x + y) := by
  obtain ⟨s1, m1, e1, rfl, rfl⟩ := toRat_eq_some a x ha
  obtain ⟨s2, m2, e2, rfl, rfl⟩ := toRat_eq_some b y hb
  obtain ⟨hA, _⟩ := absFrac_ratio m1 e1
  obtain ⟨hB, _⟩ := absFrac_ratio m2 e2
  have hA0 : ((JSNumber.absFrac m1 e1).2 : ℚ) ≠ 0 := by
    have : (0 : ℚ) < ((JSNumber.absFrac m1 e1).2 : ℚ) := by exact_mod_cast hA
    exact ne_of_gt this
  have hB0 : ((JSNumber.absFrac m2 e2).2 : ℚ) ≠ 0 := by
    have : (0 : ℚ) < ((JSNumber.absFrac m2 e2).2 : ℚ) := by exact_mod_cast hB
    exact ne_of_gt this
  have hsum : ((JSNumber.signed s1 (JSNumber.absFrac m1 e1).1 : ℤ) : ℚ) / ((JSNumber.absFrac m1 e1).2 : ℚ)
      + ((JSNumber.signed s2 (JSNumber.absFrac m2 e2).1 : ℤ) : ℚ) / ((JSNumber.absFrac m2 e2).2 : ℚ)
      = (((JSNumber.signed s1 (JSNumber.absFrac m1 e1).1 * ((JSNumber.absFrac m2 e2).2 : ℤ)
          + JSNumber.signed s2 (JSNumber.absFrac m2 e2).1 * ((JSNumber.absFrac m1 e1).2 : ℤ) : ℤ)) : ℚ)
        / (((JSNumber.absFrac m1 e1).2 * (JSNumber.absFrac m2 e2).2 : ℕ) : ℚ) := by
    push_cast
    field_simp
  rw [hsum] at hv ⊢
  simp only [JSNumber.add]
  split_ifs with hn
  · rw [hn]
    simp [toRat_fin]
  · exact roundRat_exact_int _ _ m e (Nat.mul_pos hA hB) hm he he' hv

theorem sub_exact (a b : JSNumber) (x y : ℚ) (m : Nat) (e : Int)
    (ha : a.toRat = some x) (hb : b.toRat = some y)
    (hm : m < 2 ^ 53) (he : -1074 ≤ e) (he' : e ≤ 971)
    (hv : |x - y| = (m : ℚ) * (2 : ℚ) ^ e) :
    (a.sub b).toRat = some (x - y) := by
  rw [sub_eq_add_neg] at hv ⊢
  exact add_exact a b.neg x (-y) m e ha (neg_exact b y hb) hm he he' hv

theorem xor_sign (s1 s2 : Bool) :
    ((if xor s1 s2 then -1 else 1 : ℚ)) = (if s1 then -1 else 1) * (if s2 then -1 else 1) := by
  cases s1 <;> cases s2 <;> simp

theorem mul_exact (a b : JSNumber) (x y : ℚ) (m : Nat) (e : Int)
    (ha : a.toRat = some x) (hb : b.toRat = some y)
    (hm : m < 2 ^ 53) (he : -1074 ≤ e) (he' : e ≤ 971)
    (hv : |x * y| = (m : ℚ) * (2 : ℚ) ^ e) :
    (a.mul b).toRat = some (x * y) := by
  obtain ⟨s1, m1, e1, rfl, rfl⟩ := toRat_eq_some a x ha
  obtain ⟨s2, m2, e2, rfl, rfl⟩ := toRat_eq_some b y hb
  obtain ⟨hA, _⟩ := absFrac_ratio m1 e1
  obtain ⟨hB, _⟩ := absFrac_ratio m2 e2
  have hA0 : (0 : ℚ) < ((JSNumber.absFrac m1 e1).2 : ℚ) := by exact_mod_cast hA
  have hB0 : (0 : ℚ) < ((JSNumber.absFrac m2 e2).2 : ℚ) := by exact_mod_cast hB
  have hprod : ((JSNumber.signed s1 (JSNumber.absFrac m1 e1).1 : ℤ) : ℚ) / ((JSNumber.absFrac m1 e1).2 : ℚ)
      * (((JSNumber.signed s2 (JSNumber.absFrac m2 e2).1 : ℤ) : ℚ) / ((JSNumber.absFrac m2 e2).2 : ℚ))
      = (if xor s1 s2 then -1 else 1)
        * ((((JSNumber.absFrac m1 e1).1 * (JSNumber.absFrac m2 e2).1 : ℕ) : ℚ)
          / (((JSNumber.absFrac m1 e1).2 * (JSNumber.absFrac m2 e2).2 : ℕ) : ℚ)) := by
    rw [xor_sign, signed_cast, signed_cast]
    push_cast
    field_simp
  rw [hprod] at hv ⊢
  simp only [JSNumber.mul]
  refine roundRat_exact _ _ _ m e (Nat.mul_pos hA hB) hm he he' ?_
  rw [← hv, abs_mul]
  have h1 : |(if xor s1 s2 then -1 else 1 : ℚ)| = 1 := by
    cases xor s1 s2 <;> simp
  rw [h1, one_mul, abs_of_nonneg (by positivity)]

theorem div_exact (a b : JSNumber) (x y : ℚ) (m : Nat) (e : Int)
    (ha : a.toRat = some x) (hb : b.toRat = some y) (hy : y ≠ 0)
    (hm : m < 2 ^ 53) (he : -1074 ≤ e) (he' : e ≤ 971)
    (hv : |x / y| = (m : ℚ) * (2 : ℚ) ^ e) :
    (a.div b).toRat = some (x / y) := by
  obtain ⟨s1, m1, e1, rfl, rfl⟩ := toRat_eq_some a x ha
  obtain ⟨s2, m2, e2, rfl, rfl⟩ := toRat_eq_some b y hb
  obtain ⟨hA, _⟩ := absFrac_ratio m1 e1
  obtain ⟨hB, hBr⟩ := absFrac_ratio m2 e2
  have hA0 : (0 : ℚ) < ((JSNumber.absFrac m1 e1).2 : ℚ) := by exact_mod_cast hA
  have hB0 : (0 : ℚ) < ((JSNumber.absFrac m2 e2).2 : ℚ) := by exact_mod_cast hB
  have hm2 : m2 ≠ 0 := by
    rintro rfl
    apply hy
    have : (JSNumber.absFrac 0 e2).1 = 0 := by
      unfold JSNumber.absFrac
      split_ifs <;> simp
    simp [this, JSNumber.signed]
  have hB1 : 0 < (JSNumber.absFrac m2 e2).1 := by
    unfold JSNumber.absFrac
    split_ifs
    · exact Nat.mul_pos (Nat.pos_of_ne_zero hm2) (by positivity)
    · exact Nat.pos_of_ne_zero hm2
  have hB10 : (0 : ℚ) < ((JSNumber.absFrac m2 e2).1 : ℚ) := by exact_mod_cast hB1
  have hquot : ((JSNumber.signed s1 (JSNumber.absFrac m1 e1).1 : ℤ) : ℚ) / ((JSNumber.absFrac m1 e1).2 : ℚ)
      / (((JSNumber.signed s2 (JSNumber.absFrac m2 e2).1 : ℤ) : ℚ) / ((JSNumber.absFrac m2 e2).2 : ℚ))
      = (if xor s1 s2 then -1 else 1)
        * ((((JSNumber.absFrac m1 e1).1 * (JSNumber.absFrac m2 e2).2 : ℕ) : ℚ)
          / (((JSNumber.absFrac m1 e1).2 * (JSNumber.absFrac m2 e2).1 : ℕ) : ℚ)) := by
    rw [signed_cast, signed_cast]
    push_cast
    cases s1 <;> cases s2 <;> simp <;> field_simp
  rw [hquot] at hv ⊢
  simp only [JSNumber.div, hm2, if_false]
  refine roundRat_exact _ _ _ m e (Nat.mul_pos hA hB1) hm he he' ?_
  rw [← hv, abs_mul]
  have h1 : |(if xor s1 s2 then -1 else 1 : ℚ)| = 1 := by
    cases xor s1 s2 <;> simp
  rw [h1, one_mul, abs_of_nonneg (by positivity)]

theorem ofNat_exact (n : Nat) (hn : n < 2 ^ 53) :
    (JSNumber.ofNat n).toRat = some (n : ℚ) := by
  have h := roundRat_exact false n 1 n 0 (by decide) hn (by decide) (by decide) (by simp)
  simpa [JSNumber.ofNat] using h

theorem mathRound_exact (t : JSNumber) (k : Int) (ht : t.toRat = some (k : ℚ))
    (hk : k.natAbs < 2 ^ 53) :
    t.mathRound.toRat = some (k : ℚ) := by
  obtain ⟨s, m, e, rfl, hx⟩ := toRat_eq_some t k ht
  obtain ⟨hA, _⟩ := absFrac_ratio m e
  have hA0 : ((JSNumber.absFrac m e).2 : ℚ) ≠ 0 := by
    have : (0 : ℚ) < ((JSNumber.absFrac m e).2 : ℚ) := by exact_mod_cast hA
    exact ne_of_gt this
  have hnum : JSNumber.signed s (JSNumber.absFrac m e).1 = k * ((JSNumber.absFrac m e).2 : ℤ) := by
    rw [eq_div_iff hA0] at hx
    exact_mod_cast hx.symm
  have hA' : (0 : ℤ) < ((JSNumber.absFrac m e).2 : ℤ) := by exact_mod_cast hA
  have hfdiv : Int.fdiv (2 * JSNumber.signed s (JSNumber.absFrac m e).1
      + ((JSNumber.absFrac m e).2 : ℤ)) (2 * ((JSNumber.absFrac m e).2 : ℤ)) = k := by
    rw [Int.fdiv_eq_ediv _ (by omega), hnum]
    have : 2 * (k * ((JSNumber.absFrac m e).2 : ℤ)) + ((JSNumber.absFrac m e).2 : ℤ)
        = (2 * k + 1) * ((JSNumber.absFrac m e).2 : ℤ) := by ring
    rw [this, Int.mul_ediv_mul_of_pos_left _ _ hA']
    omega
  simp only [JSNumber.mathRound, hfdiv]
  split_ifs with h0
  · subst h0
    simp [toRat_fin]
  · have h := roundRat_exact_int k 1 k.natAbs 0 (by decide) hk (by decide) (by decide)
      (by simp [Nat.cast_natAbs, Int.cast_abs])
    simpa using h

theorem roundedTo10_exact (q : ℚ) (hden : q.den ∣ 1024) : Spec.roundedTo10 q = q := by
  obtain ⟨c, hc⟩ := hden
  have hd0 : (q.den : ℚ) ≠ 0 := by exact_mod_cast q.den_nz
  have hq : q * 10 ^ 10 = ((q.num * (c * 9765625 : ℕ) : ℤ) : ℚ) := by
    have h1 : (1024 : ℚ) = (q.den : ℚ) * (c : ℚ) := by exact_mod_cast hc
    have h2 : (10 : ℚ) ^ 10 = 1024 * 9765625 := by norm_num
    rw [h2, h1]
    push_cast
    nth_rewrite 1 [← Rat.num_div_den q]
    field_simp
    ring
  unfold Spec.roundedTo10
  rw [hq, round_intCast, ← hq]
  field_simp

theorem round10_exact (z : JSNumber) (q : ℚ) (hz : z.toRat = some q) (hden : q.den ∣ 1024)
    (hq : |q| * 10 ^ 10 < 2 ^ 53) :
    (Server.round10 z).toRat = some q := by
  obtain ⟨c, hc⟩ := hden
  have hd0 : (q.den : ℚ) ≠ 0 := by exact_mod_cast q.den_nz
  have h1024 : (1024 : ℚ) = (q.den : ℚ) * (c : ℚ) := by exact_mod_cast hc
  have hten : (JSNumber.ofNat (10 ^ 10)).toRat = some ((10 : ℚ) ^ 10) := by
    have := ofNat_exact (10 ^ 10) (by norm_num)
    simpa using this
  -- the integer q * 10^10
  have hK : q * 10 ^ 10 = ((q.num * (c * 9765625 : ℕ) : ℤ) : ℚ) := by
    have h2 : (10 : ℚ) ^ 10 = 1024 * 9765625 := by norm_num
    rw [h2, h1024]
    push_cast
    nth_rewrite 1 [← Rat.num_div_den q]
    field_simp
    ring
  have hKabs : ((q.num * (c * 9765625 : ℕ) : ℤ).natAbs : ℚ) = |q| * 10 ^ 10 := by
    rw [Nat.cast_natAbs, Int.cast_abs, ← hK, abs_mul, abs_of_pos (by positivity : (0 : ℚ) < 10 ^ 10)]
  have hKlt : (q.num * (c * 9765625 : ℕ) : ℤ).natAbs < 2 ^ 53 := by
    have : ((q.num * (c * 9765625 : ℕ) : ℤ).natAbs : ℚ) < 2 ^ 53 := by
      rw [hKabs]
      exact hq
    exact_mod_cast this
  have h1 : (z.mul (JSNumber.ofNat (10 ^ 10))).toRat
      = some (((q.num * (c * 9765625 : ℕ) : ℤ) : ℤ) : ℚ) := by
    rw [← hK]
    refine mul_exact z _ q _ (q.num * (c * 9765625 : ℕ) : ℤ).natAbs 0 hz hten hKlt
      (by decide) (by decide) ?_
    rw [hKabs, abs_mul, abs_of_pos (by positivity : (0 : ℚ) < 10 ^ 10)]
    simp
  have h2 := mathRound_exact _ _ h1 hKlt
  -- q = M * 2^(-10)
  have hM : q = ((q.num * (c : ℕ) : ℤ) : ℚ) / 1024 := by
    rw [h1024]
    push_cast
    nth_rewrite 1 [← Rat.num_div_den q]
    field_simp
    ring
  have hMabs : ((q.num * (c : ℕ) : ℤ).natAbs : ℚ) = |q| * 1024 := by
    rw [Nat.cast_natAbs, Int.cast_abs]
    nth_rewrite 2 [hM]
    rw [abs_div, abs_of_pos (by norm_num : (0 : ℚ) < 1024)]
    field_simp
  have hMlt : (q.num * (c : ℕ) : ℤ).natAbs < 2 ^ 53 := by
    have : ((q.num * (c : ℕ) : ℤ).natAbs : ℚ) < 2 ^ 53 := by
      rw [hMabs]
      have : |q| * 1024 ≤ |q| * 10 ^ 10 :=
        mul_le_mul_of_nonneg_left (by norm_num) (abs_nonneg q)
      linarith
    exact_mod_cast this
  have hquot : (((q.num * (c * 9765625 : ℕ) : ℤ) : ℤ) : ℚ) / 10 ^ 10 = q := by
    rw [← hK]
    field_simp
  unfold Server.round10
  rw [← hquot]
  refine div_exact _ _ _ _ (q.num * (c : ℕ) : ℤ).natAbs (-10) h2 hten (by norm_num) hMlt
    (by decide) (by decide) ?_
  rw [hquot, hMabs]
  norm_num
  ring

theorem dyadic_representable (q : ℚ) (hden : q.den ∣ 1024) (hq : |q| * 10 ^ 10 < 2 ^ 53) :
    ∃ m : ℕ, m < 2 ^ 53 ∧ |q| = (m : ℚ) * (2 : ℚ) ^ (-10 : ℤ) := by
  obtain ⟨c, hc⟩ := hden
  have hd0 : (q.den : ℚ) ≠ 0 := by exact_mod_cast q.den_nz
  have h1024 : (1024 : ℚ) = (q.den : ℚ) * (c : ℚ) := by exact_mod_cast hc
  have hM : q = ((q.num * (c : ℕ) : ℤ) : ℚ) / 1024 := by
    rw [h1024]
    push_cast
    nth_rewrite 1 [← Rat.num_div_den q]
    field_simp
    ring
  have hMabs : ((q.num * (c : ℕ) : ℤ).natAbs : ℚ) = |q| * 1024 := by
    rw [Nat.cast_natAbs, Int.cast_abs]
    nth_rewrite 2 [hM]
    rw [abs_div, abs_of_pos (by norm_num : (0 : ℚ) < 1024)]
    field_simp
  refine ⟨(q.num * (c : ℕ) : ℤ).natAbs, ?_, ?_⟩
  · have : ((q.num * (c : ℕ) : ℤ).natAbs : ℚ) < 2 ^ 53 := by
      rw [hMabs]
      have : |q| * 1024 ≤ |q| * 10 ^ 10 :=
        mul_le_mul_of_nonneg_left (by norm_num) (abs_nonneg q)
      linarith
    exact_mod_cast this
  · rw [hMabs]
    norm_num
    ring

theorem floatOp_exact (name : String) (a b : JSNumber) (x q : ℚ)
    (ha : a.toRat = some x) (hex : Spec.exactOp name x b.toRat = some q)
    (hden : q.den ∣ 1024) (hq : |q| * 10 ^ 10 < 2 ^ 53) :
    ∃ z, Spec.floatOp name a b = some z ∧ z.toRat = some q := by
  obtain ⟨m, hm, hv⟩ := dyadic_representable q hden hq
  have h100 : (JSNumber.ofNat 100).toRat = some (100 : ℚ) := by
    have := ofNat_exact 100 (by norm_num)
    simpa using this
  unfold Spec.exactOp at hex
  unfold Spec.floatOp
  split_ifs at hex ⊢ with h1 h2 h3 h4 h5 h6
  · cases hb : b.toRat with
    | none => simp [hb] at hex
    | some y =>
      simp only [hb, Option.map_some', Option.some.injEq] at hex
      subst hex
      exact ⟨_, rfl, add_exact a b x y m (-10) ha hb hm (by decide) (by decide) hv⟩
  · cases hb : b.toRat with
    | none => simp [hb] at hex
    | some y =>
      simp only [hb, Option.map_some', Option.some.injEq] at hex
      subst hex
      exact ⟨_, rfl, sub_exact a b x y m (-10) ha hb hm (by decide) (by decide) hv⟩
  · cases hb : b.toRat with
    | none => simp [hb] at hex
    | some y =>
      simp only [hb, Option.map_some', Option.some.injEq] at hex
      subst hex
      exact ⟨_, rfl, mul_exact a b x y m (-10) ha hb hm (by decide) (by decide) hv⟩
  · cases hb : b.toRat with
    | none => simp [hb] at hex
    | some y =>
      simp only [hb, Option.some_bind] at hex
      split_ifs at hex with hy
      simp only [Option.some.injEq] at hex
      subst hex
      exact ⟨_, rfl, div_exact a b x y m (-10) ha hb hy hm (by decide) (by decide) hv⟩
  · simp only [Option.some.injEq] at hex
    subst hex
    exact ⟨_, rfl, div_exact a _ x 100 m (-10) ha h100 (by norm_num) hm (by decide)
      (by decide) hv⟩
  · simp only [Option.some.injEq] at hex
    subst hex
    exact ⟨_, rfl, neg_exact a x ha⟩

theorem respond_ok_finite (req : Server.Request) (n x r : JSNumber) (op : JSValue)
    (n1 : JSNumber) (n2 : Option JSNumber)
    (h : Server.respond req n (Except.ok (Server.ResultValue.number x))
      = Server.Response.ok r op n1 n2) :
    x.isFinite = true := by
  simp only [Server.respond, Server.ResultValue.toNumber] at h
  by_contra hfin
  simp [hfin] at h

theorem result_parts (name : String) (req : Server.Request) (a b z r : JSNumber)
    (op : JSValue) (n1 : JSNumber) (n2 : Option JSNumber)
    (h : Server.respond req a (Except.ok (Server.ResultValue.number z))
      = Server.Response.ok r op n1 n2)
    (hfl : ∀ w, Spec.floatOp name a b = some w → w = z) :
    (op = req.operation ∧ n1 = a
        ∧ n2 = (if req.operand2 = JSValue.undefined then none
                else some (parseFloat req.operand2)))
      ∧ (∃ z : JSNumber, z.isFinite = true ∧ r = Server.round10 z)
      ∧ (∀ w, Spec.floatOp name a b = some w → r = Server.round10 w)
      ∧ (∀ x q : ℚ, a.toRat = some x → Spec.exactOp name x b.toRat = some q →
          q.den ∣ 1024 → |q| * 10 ^ 10 < 2 ^ 53 → r.toRat = some (Spec.roundedTo10 q)) := by
  obtain ⟨hr, hop, hn1, hn2⟩ := respond_ok _ _ _ _ _ _ _ h
  refine ⟨⟨hop, hn1, hn2⟩, ⟨z, respond_ok_finite _ _ _ _ _ _ _ h, hr⟩, ?_, ?_⟩
  · intro w hw
    rw [hfl w hw]
    exact hr
  · intro x q hx hex hden hq
    obtain ⟨w, hw, hwq⟩ := floatOp_exact name a b x q hx hex hden hq
    rw [hr, ← hfl w hw, round10_exact w q hwq hden hq, roundedTo10_exact q hden]

/-- C4 (amended): for every valid operation name and every request on which the calculate
entry point succeeds, the response echoes the operation name and the parsed operands, and the
result is `Math.round(z * 1e10) / 1e10`, computed in binary64 arithmetic, of a finite Number
`z`; for the seven operations other than `power`, `z` is the binary64 value of the operation
on the parsed operands. Whenever the mathematically exact value `q` of `add`, `subtract`,
`multiply`, `divide`, `percentage` or `negate` on the parsed operands is a multiple of 1/1024
with `|q| * 10^10 < 2^53`, the result is exactly `round(q * 10^10) / 10^10`. -/
theorem apiCalculate_result_rounded_float (name : String) (o1 o2 : JSValue) (r : JSNumber)
    (op : JSValue) (n1 : JSNumber) (n2 : Option JSNumber)
    (hname : name ∈ Spec.operationNames)
    (h : Server.apiCalculate { operation := JSValue.str name, operand1 := o1, operand2 := o2 }
      = Server.Response.ok r op n1 n2) :
    (op = JSValue.str name ∧ n1 = parseFloat o1
        ∧ n2 = (if o2 = JSValue.undefined then none else some (parseFloat o2)))
      ∧ (∃ z : JSNumber, z.isFinite = true ∧ r = Server.round10 z)
      ∧ (∀ w, Spec.floatOp name (parseFloat o1) (parseFloat o2) = some w →
          r = Server.round10 w)
      ∧ (∀ x q : ℚ, (parseFloat o1).toRat = some x →
          Spec.exactOp name x (parseFloat o2).toRat = some q →
          q.den ∣ 1024 → |q| * 10 ^ 10 < 2 ^ 53 →
          r.toRat = some (Spec.roundedTo10 q)) := by
  obtain ⟨h1, h1n, hnum⟩ := apiCalculate_ok_operand1 _ _ _ _ _ _ _ h
  rw [apiCalculate_valid_shape name o1 o2 hname h1 h1n hnum] at h
  simp only [Spec.operationNames, List.mem_cons, List.mem_singleton, List.not_mem_nil,
    or_false] at hname
  rcases hname with rfl | rfl | rfl | rfl | rfl | rfl | rfl | rfl
  · rw [if_neg (by decide)] at h
    split_ifs at h with h2 hn2
    simp only [getProperty_add, Server.callProperty, Server.argNumber] at h
    exact result_parts "add" _ _ (parseFloat o2) _ _ _ _ _ h (by simp [Spec.floatOp])
  · rw [if_neg (by decide)] at h
    split_ifs at h with h2 hn2
    simp only [getProperty_subtract, Server.callProperty, Server.argNumber] at h
    exact result_parts "subtract" _ _ (parseFloat o2) _ _ _ _ _ h (by simp [Spec.floatOp])
  · rw [if_neg (by decide)] at h
    split_ifs at h with h2 hn2
    simp only [getProperty_multiply, Server.callProperty, Server.argNumber] at h
    exact result_parts "multiply" _ _ (parseFloat o2) _ _ _ _ _ h (by simp [Spec.floatOp])
  · rw [if_neg (by decide)] at h
    split_ifs at h with h2 hn2
    simp only [getProperty_divide, Server.callProperty, Server.argNumber] at h
    by_cases hz : (parseFloat o2).strictEq JSNumber.zero = true
    · simp [hz, Server.respond] at h
    · simp only [hz, Bool.false_eq_true, if_false] at h
      exact result_parts "divide" _ _ (parseFloat o2) _ _ _ _ _ h (by simp [Spec.floatOp])
  · rw [if_pos (by decide)] at h
    simp only [getProperty_percentage, Server.callProperty] at h
    exact result_parts "percentage" _ _ (parseFloat o2) _ _ _ _ _ h (by simp [Spec.floatOp])
  · rw [if_pos (by decide)] at h
    simp only [getProperty_negate, Server.callProperty] at h
    exact result_parts "negate" _ _ (parseFloat o2) _ _ _ _ _ h (by simp [Spec.floatOp])
  · rw [if_pos (by decide)] at h
    simp only [getProperty_sqrt, Server.callProperty] at h
    by_cases hlt : (parseFloat o1).lt JSNumber.zero = true
    · simp [hlt, Server.respond] at h
    · simp only [hlt, Bool.false_eq_true, if_false] at h
      exact result_parts "sqrt" _ _ (parseFloat o2) _ _ _ _ _ h (by simp [Spec.floatOp])
  · rw [if_neg (by decide)] at h
    split_ifs at h with h2 hn2
    simp only [getProperty_power, Server.callProperty, Server.argNumber] at h
    exact result_parts "power" _ _ (parseFloat o2) _ _ _ _ _ h (by simp [Spec.floatOp])

theorem apiCalculate_result_rounded_float_witness :
    Server.apiCalculate
        { operation := JSValue.str "add", operand1 := JSValue.num (JSNumber.ofNat 2),
          operand2 := JSValue.num (JSNumber.ofNat 3) }
      = Server.Response.ok (JSNumber.ofNat 5) (JSValue.str "add") (JSNumber.ofNat 2)
          (some (JSNumber.ofNat 3))
    ∧ (JSNumber.ofNat 5).toRat = some (Spec.roundedTo10 5) := by
  have h2 : parseFloat (JSValue.num (JSNumber.ofNat 2)) = JSNumber.ofNat 2 := by decide!
  have h3 : parseFloat (JSValue.num (JSNumber.ofNat 3)) = JSNumber.ofNat 3 := by decide!
  have e2 : (JSNumber.ofNat 2).toRat = some (2 : ℚ) := by
    simpa using ofNat_exact 2 (by norm_num)
  have e3 : (JSNumber.ofNat 3).toRat = some (3 : ℚ) := by
    simpa using ofNat_exact 3 (by norm_num)
  exact ⟨by decide!,
    (apiCalculate_result_rounded_float "add" (JSValue.num (JSNumber.ofNat 2))
      (JSValue.num (JSNumber.ofNat 3)) (JSNumber.ofNat 5) (JSValue.str "add")
      (JSNumber.ofNat 2) (some (JSNumber.ofNat 3)) (by decide) (by decide!)).2.2.2 2 5
      (by rw [h2, e2]) (by rw [h3, e3]; norm_num [Spec.exactOp]) (by norm_num)
      (by norm_num [abs_of_pos])⟩

/-! ### What the expression parser accepts is a term -/

theorem parse_sound (fuel : Nat) :
    (∀ toks v rest, Eval.parseAdditive fuel toks = some (v, rest) →
        ∃ t : Spec.Term, toks = t.tokens ++ rest)
    ∧ (∀ v0 toks v rest, Eval.additiveLoop fuel v0 toks = some (v, rest) →
        ∀ t0 : Spec.Term, ∃ t : Spec.Term, t0.tokens ++ toks = t.tokens ++ rest)
    ∧ (∀ toks v rest, Eval.parseMultiplicative fuel toks = some (v, rest) →
        ∃ t : Spec.Term, toks = t.tokens ++ rest)
    ∧ (∀ v0 toks v rest, Eval.multiplicativeLoop fuel v0 toks = some (v, rest) →
        ∀ t0 : Spec.Term, ∃ t : Spec.Term, t0.tokens ++ toks = t.tokens ++ rest)
    ∧ (∀ toks v rest, Eval.parseExponent fuel toks = some (v, rest) →
        ∃ t : Spec.Term, toks = t.tokens ++ rest)
    ∧ (∀ toks v rest, Eval.parseUnary fuel toks = some (v, rest) →
        ∃ t : Spec.Term, toks = t.tokens ++ rest)
    ∧ (∀ toks v rest, Eval.parsePrimary fuel toks = some (v, rest) →
        ∃ t : Spec.Term, toks = t.tokens ++ rest) := by
  induction fuel with
  | zero =>
    refine ⟨?_, ?_, ?_, ?_, ?_, ?_, ?_⟩ <;> intros <;> simp_all [Eval.parseAdditive,
      Eval.additiveLoop, Eval.parseMultiplicative, Eval.multiplicativeLoop,
      Eval.parseExponent, Eval.parseUnary, Eval.parsePrimary]
  | succ fuel ih =>
    obtain ⟨hA, hAL, hM, hML, hE, hU, hP⟩ := ih
    refine ⟨?_, ?_, ?_, ?_, ?_, ?_, ?_⟩
    · intro toks v rest h
      rw [Eval.parseAdditive] at h
      rcases hm : Eval.parseMultiplicative fuel toks with _ | ⟨w, rest1⟩
      · simp [hm] at h
      · simp only [hm] at h
        obtain ⟨t1, rfl⟩ := hM _ _ _ hm
        exact hAL _ _ _ _ h t1
    · intro v0 toks v rest h t0
      rcases toks with _ | ⟨tok, tl⟩
      · simp only [Eval.additiveLoop, Option.some.injEq, Prod.mk.injEq] at h
        exact ⟨t0, by rw [h.2]⟩
      · cases tok <;> simp only [Eval.additiveLoop, Option.some.injEq, Prod.mk.injEq] at h
        case plus =>
          rcases hm : Eval.parseMultiplicative fuel tl with _ | ⟨w, rest1⟩
          · simp [hm] at h
          · simp only [hm] at h
            obtain ⟨t1, rfl⟩ := hM _ _ _ hm
            obtain ⟨t, ht⟩ := hAL _ _ _ _ h (Spec.Term.add t0 t1)
            exact ⟨t, by rw [← ht]; simp [Spec.Term.tokens]⟩
        case minus =>
          rcases hm : Eval.parseMultiplicative fuel tl with _ | ⟨w, rest1⟩
          · simp [hm] at h
          · simp only [hm] at h
            obtain ⟨t1, rfl⟩ := hM _ _ _ hm
            obtain ⟨t, ht⟩ := hAL _ _ _ _ h (Spec.Term.sub t0 t1)
            exact ⟨t, by rw [← ht]; simp [Spec.Term.tokens]⟩
        all_goals exact ⟨t0, by rw [h.2]⟩
    · intro toks v rest h
      rw [Eval.parseMultiplicative] at h
      rcases hm : Eval.parseExponent fuel toks with _ | ⟨w, rest1⟩
      · simp [hm] at h
      · simp only [hm] at h
        obtain ⟨t1, rfl⟩ := hE _ _ _ hm
        exact hML _ _ _ _ h t1
    · intro v0 toks v rest h t0
      rcases toks with _ | ⟨tok, tl⟩
      · simp only [Eval.multiplicativeLoop, Option.some.injEq, Prod.mk.injEq] at h
        exact ⟨t0, by rw [h.2]⟩
      · cases tok <;> simp only [Eval.multiplicativeLoop, Option.some.injEq, Prod.mk.injEq] at h
        case star =>
          rcases hm : Eval.parseExponent fuel tl with _ | ⟨w, rest1⟩
          · simp [hm] at h
          · simp only [hm] at h
            obtain ⟨t1, rfl⟩ := hE _ _ _ hm
            obtain ⟨t, ht⟩ := hML _ _ _ _ h (Spec.Term.mul t0 t1)
            exact ⟨t, by rw [← ht]; simp [Spec.Term.tokens]⟩
        case slash =>
          rcases hm : Eval.parseExponent fuel tl with _ | ⟨w, rest1⟩
          · simp [hm] at h
          · simp only [hm] at h
            obtain ⟨t1, rfl⟩ := hE _ _ _ hm
            obtain ⟨t, ht⟩ := hML _ _ _ _ h (Spec.Term.div t0 t1)
            exact ⟨t, by rw [← ht]; simp [Spec.Term.tokens]⟩
        all_goals exact ⟨t0, by rw [h.2]⟩
    · intro toks v rest h
      have hprim : ∀ toks v rest,
          (match Eval.parsePrimary fuel toks with
            | some (v, Eval.Token.pow :: rest) =>
              match Eval.parseExponent fuel rest with
              | none => none
              | some (w, rest') => some (Eval.Value.num (v.toNumber.mathPow w.toNumber), rest')
            | r => r) = some (v, rest) →
          ∃ t : Spec.Term, toks = t.tokens ++ rest := by
        intro toks v rest h
        rcases hp : Eval.parsePrimary fuel toks with _ | ⟨w, rest1⟩
        · simp [hp] at h
        · obtain ⟨t1, rfl⟩ := hP _ _ _ hp
          rcases rest1 with _ | ⟨tok, tl⟩
          · simp only [hp, Option.some.injEq, Prod.mk.injEq] at h
            exact ⟨t1, by rw [h.2]⟩
          · cases tok
            case pow =>
              simp only [hp] at h
              rcases he : Eval.parseExponent fuel tl with _ | ⟨w2, rest2⟩
              · simp [he] at h
              · simp only [he, Option.some.injEq, Prod.mk.injEq] at h
                obtain ⟨t2, rfl⟩ := hE _ _ _ he
                exact ⟨Spec.Term.pow t1 t2, by rw [← h.2]; simp [Spec.Term.tokens]⟩
            all_goals
              simp only [hp, Option.some.injEq, Prod.mk.injEq] at h
              exact ⟨t1, by rw [h.2]⟩
      have hun : ∀ toks v rest,
          (match Eval.parseUnary fuel toks with
            | some (_, Eval.Token.pow :: _) => none
            | r => r) = some (v, rest) →
          ∃ t : Spec.Term, toks = t.tokens ++ rest := by
        intro toks v rest h
        rcases hp : Eval.parseUnary fuel toks with _ | ⟨w, rest1⟩
        · simp [hp] at h
        · rcases rest1 with _ | ⟨tok, tl⟩
          · simp only [hp, Option.some.injEq, Prod.mk.injEq] at h
            obtain ⟨rfl, rfl⟩ := h
            exact hU _ _ _ hp
          · cases tok
            case pow => simp [hp] at h
            all_goals
              simp only [hp, Option.some.injEq, Prod.mk.injEq] at h
              obtain ⟨rfl, rfl⟩ := h
              exact hU _ _ _ hp
      rcases toks with _ | ⟨tok, tl⟩
      · rw [Eval.parseExponent.eq_def] at h
        dsimp only at h
        exact hprim _ _ _ h
      · cases tok
        case plus =>
          rw [Eval.parseExponent.eq_def] at h
          dsimp only at h
          exact hun _ _ _ h
        case minus =>
          rw [Eval.parseExponent.eq_def] at h
          dsimp only at h
          exact hun _ _ _ h
        all_goals
          rw [Eval.parseExponent.eq_def] at h
          dsimp only at h
          exact hprim _ _ _ h
    · intro toks v rest h
      rcases toks with _ | ⟨tok, tl⟩
      · rw [Eval.parseUnary.eq_def] at h
        dsimp only at h
        exact hP _ _ _ h
      · cases tok
        case plus =>
          rw [Eval.parseUnary.eq_def] at h
          dsimp only at h
          rcases hu : Eval.parseUnary fuel tl with _ | ⟨w, rest1⟩
          · simp [hu] at h
          · simp only [hu, Option.some.injEq, Prod.mk.injEq] at h
            obtain ⟨t1, rfl⟩ := hU _ _ _ hu
            exact ⟨Spec.Term.pos t1, by rw [← h.2]; simp [Spec.Term.tokens]⟩
        case minus =>
          rw [Eval.parseUnary.eq_def] at h
          dsimp only at h
          rcases hu : Eval.parseUnary fuel tl with _ | ⟨w, rest1⟩
          · simp [hu] at h
          · simp only [hu, Option.some.injEq, Prod.mk.injEq] at h
            obtain ⟨t1, rfl⟩ := hU _ _ _ hu
            exact ⟨Spec.Term.neg t1, by rw [← h.2]; simp [Spec.Term.tokens]⟩
        all_goals
          rw [Eval.parseUnary.eq_def] at h
          dsimp only at h
          exact hP _ _ _ h
    · intro toks v rest h
      rcases toks with _ | ⟨tok, tl⟩
      · simp [Eval.parsePrimary] at h
      · cases tok
        case num x =>
          rw [Eval.parsePrimary.eq_def] at h
          dsimp only at h
          rcases tl with _ | ⟨tok2, tl2⟩
          · simp only [Option.some.injEq, Prod.mk.injEq] at h
            exact ⟨Spec.Term.num x, by rw [← h.2]; simp [Spec.Term.tokens]⟩
          · cases tok2
            case lparen => simp at h
            all_goals
              simp only [Option.some.injEq, Prod.mk.injEq] at h
              exact ⟨Spec.Term.num x, by rw [← h.2]; simp [Spec.Term.tokens]⟩
        case regex =>
          rw [Eval.parsePrimary.eq_def] at h
          dsimp only at h
          rcases tl with _ | ⟨tok2, tl2⟩
          · simp only [Option.some.injEq, Prod.mk.injEq] at h
            exact ⟨Spec.Term.regex, by rw [← h.2]; simp [Spec.Term.tokens]⟩
          · cases tok2
            case lparen => simp at h
            all_goals
              simp only [Option.some.injEq, Prod.mk.injEq] at h
              exact ⟨Spec.Term.regex, by rw [← h.2]; simp [Spec.Term.tokens]⟩
        case lparen =>
          rw [Eval.parsePrimary.eq_def] at h
          dsimp only at h
          rcases ha : Eval.parseAdditive fuel tl with _ | ⟨w, rest1⟩
          · simp [ha] at h
          · obtain ⟨t1, ht1⟩ := hA _ _ _ ha
            rcases rest1 with _ | ⟨tok2, tl2⟩
            · simp [ha] at h
            · cases tok2
              case rparen =>
                simp only [ha] at h
                rcases tl2 with _ | ⟨tok3, tl3⟩
                · simp only [Option.some.injEq, Prod.mk.injEq] at h
                  exact ⟨Spec.Term.paren t1, by rw [ht1, ← h.2]; simp [Spec.Term.tokens]⟩
                · cases tok3
                  case lparen => simp at h
                  all_goals
                    simp only [Option.some.injEq, Prod.mk.injEq] at h
                    exact ⟨Spec.Term.paren t1, by rw [ht1, ← h.2]; simp [Spec.Term.tokens]⟩
              all_goals simp [ha] at h
        all_goals simp [Eval.parsePrimary] at h

theorem jsEval_sound (text : List Char) (v : Eval.Value) (h : Eval.jsEval text = some v) :
    ∃ t : Spec.Term,
      Eval.tokenize (text.length + 3) false ('(' :: text ++ [')']) = some t.tokens := by
  unfold Eval.jsEval at h
  rcases htok : Eval.tokenize (text.length + 3) false ('(' :: text ++ [')']) with _ | toks
  · rw [htok] at h
    exact absurd h (by simp)
  · rw [htok] at h
    dsimp only at h
    rcases hp : Eval.parseAdditive (6 * toks.length + 6) toks with _ | ⟨w, rest⟩
    · rw [hp] at h
      exact absurd h (by simp)
    · rcases rest with _ | ⟨tok, tl⟩
      · obtain ⟨t, ht⟩ := (parse_sound _).1 _ _ _ hp
        exact ⟨t, by rw [ht, List.append_nil]⟩
      · rw [hp] at h
        exact absurd h (by simp)

/-- C2 (amended): the evaluate entry point returns a numeric result only if the value is a
string that, white space removed, is not empty, is made of decimal digits and
`+ - * / . ( )` only, and, set between the parentheses of `return ( ... )` as the handler
hands it to the evaluator, reads with comments dropped as a term: an expression built from
decimal literals, regular expression literals, parentheses, the signs `+` and `-` and the
binary operators `+ - * /` and `**`. Every other value gets an error. -/
theorem apiEvaluate_ok_only_if (expression : JSValue) (r : JSNumber) (e : String)
    (h : Server.apiEvaluate expression = Server.EvalResponse.ok r e) :
    expression = JSValue.str e ∧ Server.sanitize e ≠ []
      ∧ (∀ c ∈ Server.sanitize e, Server.allowedChar c = true)
      ∧ ∃ t : Spec.Term,
          Eval.tokenize ((Server.sanitize e).length + 3) false
            ('(' :: Server.sanitize e ++ [')']) = some t.tokens := by
  cases expression with
  | str s =>
    simp only [Server.apiEvaluate] at h
    split_ifs at h with h0 h1
    cases hv : Eval.jsEval (Server.sanitize s) with
    | none => simp [hv] at h
    | some v =>
      simp only [hv] at h
      split_ifs at h with hfin
      simp only [Server.EvalResponse.ok.injEq] at h
      obtain ⟨rfl, rfl⟩ := h
      rw [not_or] at h1
      refine ⟨rfl, h1.1, ?_, jsEval_sound _ v hv⟩
      have := h1.2
      rw [not_not, List.all_eq_true] at this
      exact this
  | undefined => simp [Server.apiEvaluate] at h
  | null => simp [Server.apiEvaluate] at h
  | bool b => simp [Server.apiEvaluate] at h
  | num x => simp [Server.apiEvaluate] at h

theorem apiEvaluate_ok_only_if_witness :
    JSValue.str "2+2" = JSValue.str "2+2" ∧ Server.sanitize "2+2" ≠ []
      ∧ (∀ c ∈ Server.sanitize "2+2", Server.allowedChar c = true)
      ∧ ∃ t : Spec.Term,
          Eval.tokenize ((Server.sanitize "2+2").length + 3) false
            ('(' :: Server.sanitize "2+2" ++ [')']) = some t.tokens :=
  apiEvaluate_ok_only_if (JSValue.str "2+2") (JSNumber.ofNat 4) "2+2" (by decide!)
